import Mathlib

/-!
# Matrices multiplier (`matrix.c`): a shallow embedding

The C program reads two integer matrices from a text stream, multiplies them and
prints the three matrices.  This file embeds `allocate_matrix`, `load_matrix`
and `multiply_matrices` as Lean functions over an explicit program state and
proves properties of them.

Conventions of the embedding

* `int` is a signed 32-bit integer.  Values are Lean integers; every arithmetic
  result that the program stores into an `int` goes through `wrap32`
  (two's-complement wraparound; ISO C leaves signed overflow undefined, the
  wraparound is what the usual implementations produce).
* A matrix (`int**`) is the list of its rows, each row the list of its elements.
  Element accesses are checked: an access outside the matrix makes the whole run
  `Outcome.undefined` (undefined behaviour in C).
* `exit(EXIT_FAILURE)` ends a run with `Outcome.exit`, which keeps the state the
  process had at that moment (what was written to the two output streams, which
  allocations were requested).
* `malloc` is a parameter of the embedding (`Env`): whether a request is granted
  and what the fresh block initially contains are not decided by the program.
* The platform is LP64: `sizeof(int) = 4`, `sizeof(int*) = 8`, `size_t` has 64 bits.
-/

namespace MatricesMult

/-! ## Machine integers -/

/-- Conversion to `int`: reduction modulo 2^32 into the range [-2^31, 2^31 - 1]. -/
def wrap32 (x : Int) : Int := (x + 2147483648) % 4294967296 - 2147483648

/-- The values an `int` can hold. -/
def in_int32 (x : Int) : Prop := -2147483648 ≤ x ∧ x ≤ 2147483647

instance (x : Int) : Decidable (in_int32 x) := by
  unfold in_int32; infer_instance

/-- The C expression `x * y` on two `int` operands. -/
def int_mul (x y : Int) : Int := wrap32 (x * y)

/-- The C expression `x + y` on two `int` operands. -/
def int_add (x y : Int) : Int := wrap32 (x + y)

/-- `sizeof(int)`. -/
def sizeof_int : Nat := 4

/-- `sizeof(int*)`. -/
def sizeof_ptr : Nat := 8

/-- One more than `SIZE_MAX`. -/
def SIZE_MOD : Nat := 18446744073709551616

/-- `PTRDIFF_MAX`, the largest size an object can have. -/
def PTRDIFF_MAX : Nat := 9223372036854775807

/-- The C expression `n * sizeof(T)` for an `int` n: n is converted to `size_t`
and the product is taken modulo 2^64. -/
def size_mul (n : Int) (sz : Nat) : Nat :=
  ((n % (SIZE_MOD : Int)).toNat * sz) % SIZE_MOD

/-- `EXIT_FAILURE`. -/
def EXIT_FAILURE : Int := 1

/-- `EOF`, what `fscanf` returns on an input failure before the first conversion. -/
def EOF : Int := -1

/-! ## Matrices -/

/-- An `int**` matrix: the list of its rows. -/
abbrev Matrix := List (List Int)

/-- Checked read of `m[i][j]`; `none` when the access is out of bounds. -/
def Matrix.read (m : Matrix) (i j : Nat) : Option Int :=
  match m[i]? with
  | none => none
  | some row => row[j]?

/-- Checked write `m[i][j] = v`; `none` when the access is out of bounds. -/
def Matrix.write (m : Matrix) (i j : Nat) (v : Int) : Option Matrix :=
  match m[i]? with
  | none => none
  | some row => if j < row.length then some (m.set i (row.set j v)) else none

/-! ## Program state -/

/-- What the program does not decide about `malloc`. -/
structure Env where
  /-- Whether the n-th call of `malloc` (counted from 0), asking for the given
  number of bytes, returns a block (`true`) or `NULL` (`false`). -/
  malloc_ok : Nat → Nat → Bool
  /-- The indeterminate value the k-th `int` of the block of the n-th call holds
  when `malloc` hands it out. -/
  malloc_init : Nat → Nat → Int
  /-- The text `perror` prints for the `errno` a failed `malloc` leaves. -/
  strerror : String

/-- The observable state of a run. -/
structure World where
  /-- The unread rest of the input file: the stream cursor. -/
  input : List Char
  /-- Everything written to standard output so far. -/
  stdout : String
  /-- Everything written to standard error so far. -/
  stderr : String
  /-- The sizes `malloc` was asked for so far, oldest first. -/
  mallocs : List Nat
deriving DecidableEq

/-- The two `int` objects a function reaches through its pointer parameters
(`rows` and `cols` of `load_matrix`, `result_rows` and `result_cols` of
`multiply_matrices`). -/
structure Cells where
  rows : Int
  cols : Int
deriving DecidableEq

/-- How a call ends: it returns a value, the process exits, or the behaviour is
undefined (an out-of-bounds element access). -/
inductive Outcome (σ α : Type) where
  | ret (v : α) (s : σ)
  | exit (code : Int) (s : σ)
  | undefined
deriving DecidableEq

/-- `fprintf(stderr, msg)`. -/
def eprint (w : World) (msg : String) : World :=
  { w with stderr := w.stderr ++ msg }

/-- `perror(msg)` after a failed `malloc`. -/
def perror (env : Env) (w : World) (msg : String) : World :=
  eprint w (msg ++ ": " ++ env.strerror ++ "\n")

/-- `malloc(size)`: the request is recorded; the result is the number of the
block, or `none` for `NULL`. -/
def malloc (env : Env) (w : World) (size : Nat) : Option Nat × World :=
  (if env.malloc_ok w.mallocs.length size then some w.mallocs.length else none,
   { w with mallocs := w.mallocs ++ [size] })

/-- The row a block obtained for `cols` elements holds when handed out: `cols`
addressable elements (none when `cols <= 0`) with indeterminate `int` values. -/
def fresh_row (env : Env) (block : Nat) (cols : Int) : List Int :=
  (List.range cols.toNat).map fun k => wrap32 (env.malloc_init block k)

/-! ## `allocate_matrix` -/

/-- The loop `for (int i = 0; i < rows; i++) matrix[i] = malloc(cols * sizeof(int))`
of `allocate_matrix` with `n` iterations left; `m` holds the rows assigned so far. -/
def allocate_rows (env : Env) (cols : Int) : Nat → Matrix → World → Outcome World Matrix
  | 0, m, w => .ret m w
  | n + 1, m, w =>
    match malloc env w (size_mul cols sizeof_int) with
    | (none, w1) =>
      .exit EXIT_FAILURE (perror env w1 "Failed to allocate memory for matrix columns")
    | (some block, w1) => allocate_rows env cols n (m ++ [fresh_row env block cols]) w1

/-- `int** allocate_matrix(int rows, int cols)`. -/
def allocate_matrix (env : Env) (w : World) (rows cols : Int) : Outcome World Matrix :=
  match malloc env w (size_mul rows sizeof_ptr) with
  | (none, w1) => .exit EXIT_FAILURE (perror env w1 "Failed to allocate memory for matrix rows")
  | (some _, w1) => allocate_rows env cols rows.toNat [] w1

/-! ## `fscanf` -/

/-- `isspace` in the C locale: space, `\t`, `\n`, `\v`, `\f`, `\r`. -/
def isspace (c : Char) : Bool := c.toNat = 32 || (9 ≤ c.toNat && c.toNat ≤ 13)

/-- `isdigit`. -/
def isdigit (c : Char) : Bool := 48 ≤ c.toNat && c.toNat ≤ 57

/-- Skipping of leading white space, as a `%d` conversion and a white-space
directive both do. -/
def skip_ws (s : List Char) : List Char := s.dropWhile isspace

/-- The longest run of decimal digits at the head of the input, accumulated
onto `acc`, and the input after it. -/
def read_digits : Nat → List Char → Nat × List Char
  | acc, [] => (acc, [])
  | acc, c :: cs =>
    if isdigit c then read_digits (10 * acc + (c.toNat - 48)) cs else (acc, c :: cs)

/-- Result of one `%d` conversion. -/
inductive Scan where
  /-- Input failure: the input ended before any character of the item. -/
  | eof
  /-- Matching failure; the input that is left. -/
  | fail (rest : List Char)
  /-- The converted value and the input that is left. -/
  | ok (v : Int) (rest : List Char)
deriving DecidableEq

/-- `LONG_MAX` of the LP64 platform. -/
def LONG_MAX : Int := 9223372036854775807

/-- `LONG_MIN` of the LP64 platform. -/
def LONG_MIN : Int := -9223372036854775808

/-- The `long` that `strtol` returns for a decimal literal of exact value x: x
itself, or `LONG_MIN` / `LONG_MAX` when x is outside the range of `long`. -/
def strtol_clamp (x : Int) : Int :=
  if x < LONG_MIN then LONG_MIN else if LONG_MAX < x then LONG_MAX else x

/-- The digits of a `%d` item, after its optional sign: a non-empty run of decimal
digits.  The value is stored as an `int`.  For a literal outside the `int` range
the C standard leaves the result undefined; the value here is the one the C
library stores: the item is converted as `strtol` does, saturating at
`LONG_MIN` / `LONG_MAX`, and the `long` is then converted to `int`. -/
def scan_digits (neg : Bool) (s : List Char) : Scan :=
  match s with
  | [] => .fail []
  | d :: ds =>
    if isdigit d then
      .ok (wrap32 (strtol_clamp (if neg then -((read_digits 0 (d :: ds)).1 : Int)
                                 else ((read_digits 0 (d :: ds)).1 : Int))))
        (read_digits 0 (d :: ds)).2
    else .fail (d :: ds)

/-- One `%d` conversion: white space is skipped, then an optional sign and a
non-empty run of decimal digits are read.  The first character that cannot
continue the number stays unread. -/
def scan_d (s : List Char) : Scan :=
  match skip_ws s with
  | [] => .eof
  | c :: cs =>
    if c = '-' then scan_digits true cs
    else if c = '+' then scan_digits false cs
    else scan_digits false (c :: cs)

/-- `fscanf(file, "%d %d", rows, cols)`: the return value, the two `int` objects
afterwards, and the input that is left. -/
def fscanf_d_d (s : List Char) (c : Cells) : Int × Cells × List Char :=
  match scan_d s with
  | .eof => (EOF, c, [])
  | .fail rest => (0, c, rest)
  | .ok r s1 =>
    match scan_d (skip_ws s1) with
    | .eof => (1, { c with rows := r }, [])
    | .fail rest => (1, { c with rows := r }, rest)
    | .ok v s2 => (2, { rows := r, cols := v }, s2)

/-! ## `load_matrix` -/

/-- The loop `for (int j = 0; j < *cols; j++)` of `load_matrix` for row `i`,
with `n` iterations left, at column `j`. -/
def load_cols (i : Nat) : Nat → Nat → Matrix → World → Outcome World Matrix
  | 0, _, m, w => .ret m w
  | n + 1, j, m, w =>
    match Matrix.read m i j with
    | none => .undefined
    | some _ =>
      match scan_d w.input with
      | .ok v rest =>
        match Matrix.write m i j v with
        | none => .undefined
        | some m1 => load_cols i n (j + 1) m1 { w with input := rest }
      | .fail rest =>
        .exit EXIT_FAILURE (eprint { w with input := rest } "Failed to read matrix values\n")
      | .eof =>
        .exit EXIT_FAILURE (eprint { w with input := [] } "Failed to read matrix values\n")

/-- The loop `for (int i = 0; i < *rows; i++)` of `load_matrix`, with `n`
iterations left, at row `i`. -/
def load_rows (cols : Int) : Nat → Nat → Matrix → World → Outcome World Matrix
  | 0, _, m, w => .ret m w
  | n + 1, i, m, w =>
    match load_cols i cols.toNat 0 m w with
    | .ret m1 w1 => load_rows cols n (i + 1) m1 w1
    | .exit code w1 => .exit code w1
    | .undefined => .undefined

/-- `int** load_matrix(FILE* file, int* rows, int* cols)`; `c` holds `*rows` and
`*cols`. -/
def load_matrix (env : Env) (w : World) (c : Cells) : Outcome (World × Cells) Matrix :=
  match fscanf_d_d w.input c with
  | (n, c1, rest) =>
    if n ≠ 2 then
      .exit EXIT_FAILURE (eprint { w with input := rest } "Failed to read matrix dimensions\n", c1)
    else
      match allocate_matrix env { w with input := rest } c1.rows c1.cols with
      | .exit code w1 => .exit code (w1, c1)
      | .undefined => .undefined
      | .ret m w1 =>
        match load_rows c1.cols c1.rows.toNat 0 m w1 with
        | .ret m1 w2 => .ret m1 (w2, c1)
        | .exit code w2 => .exit code (w2, c1)
        | .undefined => .undefined

/-! ## `multiply_matrices` -/

/-- The loop `for (int k = 0; k < a_cols; k++) result[i][j] += a[i][k] * b[k][j]`
with `n` iterations left, at index `k`. -/
def mul_k (a b : Matrix) (i j : Nat) : Nat → Nat → Matrix → Option Matrix
  | 0, _, r => some r
  | n + 1, k, r =>
    match Matrix.read r i j, Matrix.read a i k, Matrix.read b k j with
    | some x, some p, some q =>
      match Matrix.write r i j (int_add x (int_mul p q)) with
      | some r1 => mul_k a b i j n (k + 1) r1
      | none => none
    | _, _, _ => none

/-- The loop `for (int j = 0; j < *result_cols; j++)` of `multiply_matrices` for
row `i`, with `n` iterations left, at column `j`. -/
def mul_j (a b : Matrix) (a_cols : Int) (i : Nat) : Nat → Nat → Matrix → Option Matrix
  | 0, _, r => some r
  | n + 1, j, r =>
    match Matrix.write r i j 0 with
    | none => none
    | some r1 =>
      match mul_k a b i j a_cols.toNat 0 r1 with
      | none => none
      | some r2 => mul_j a b a_cols i n (j + 1) r2

/-- The loop `for (int i = 0; i < *result_rows; i++)` of `multiply_matrices`,
with `n` iterations left, at row `i`. -/
def mul_i (a b : Matrix) (a_cols result_cols : Int) : Nat → Nat → Matrix → Option Matrix
  | 0, _, r => some r
  | n + 1, i, r =>
    match mul_j a b a_cols i result_cols.toNat 0 r with
    | none => none
    | some r1 => mul_i a b a_cols result_cols n (i + 1) r1

/-- `int** multiply_matrices(int** a, int a_rows, int a_cols, int** b, int b_rows,
int b_cols, int* result_rows, int* result_cols)`; `c` holds `*result_rows` and
`*result_cols`. -/
def multiply_matrices (env : Env) (w : World) (c : Cells)
    (a : Matrix) (a_rows a_cols : Int) (b : Matrix) (b_rows b_cols : Int) :
    Outcome (World × Cells) Matrix :=
  if a_cols ≠ b_rows then
    .exit EXIT_FAILURE
      (eprint w "Matrix multiplication not possible: incompatible dimensions\n", c)
  else
    match allocate_matrix env w a_rows b_cols with
    | .exit code w1 => .exit code (w1, { rows := a_rows, cols := b_cols })
    | .undefined => .undefined
    | .ret r w1 =>
      match mul_i a b a_cols b_cols a_rows.toNat 0 r with
      | none => .undefined
      | some r1 => .ret r1 (w1, { rows := a_rows, cols := b_cols })

/-! ## Notions the properties are stated with -/

/-- The matrix has `rows` rows of `cols` elements each. -/
def has_shape (m : Matrix) (rows cols : Int) : Prop :=
  (m.length : Int) = rows ∧ 0 ≤ cols ∧ ∀ row ∈ m, (row.length : Int) = cols

instance (m : Matrix) (rows cols : Int) : Decidable (has_shape m rows cols) := by
  unfold has_shape; infer_instance

/-- The element `m[i][j]`; 0 outside the matrix. -/
def elem (m : Matrix) (i j : Nat) : Int := (Matrix.read m i j).getD 0

/-- The exact sum over k in [0, n) of `a[i][k] * b[k][j]`, in unbounded integers. -/
def dot (a b : Matrix) (i j : Nat) : Nat → Int
  | 0 => 0
  | n + 1 => dot a b i j n + elem a i n * elem b n j

/-- What the loop over k leaves in `result[i][j]` after `n` more iterations
starting at index `k` with `x` in the cell: every product and every addition is
an `int` operation. -/
def acc32 (a b : Matrix) (i j : Nat) : Nat → Nat → Int → Int
  | 0, _, x => x
  | n + 1, k, x => acc32 a b i j n (k + 1) (int_add x (int_mul (elem a i k) (elem b k j)))

/-- No `int` operation of the accumulation of cell (i, j) overflows: every
product and every partial sum is an `int` value. -/
def no_overflow (a b : Matrix) (i j n : Nat) : Prop :=
  ∀ k, k < n → in_int32 (elem a i k * elem b k j) ∧ in_int32 (dot a b i j (k + 1))

/-- The n×n identity matrix: 1 at every (k, k), 0 elsewhere. -/
def identity (n : Nat) : Matrix :=
  (List.range n).map fun k => (List.range n).map fun j => if k = j then 1 else 0

/-- The first `n` integers that successive `%d` conversions read at the cursor,
and the input after the last of them; `none` when, before `n` integers were
read, the input ends or does not continue with an integer. -/
def scan_ints : Nat → List Char → Option (List Int × List Char)
  | 0, s => some ([], s)
  | n + 1, s =>
    match scan_d s with
    | .ok v rest =>
      match scan_ints n rest with
      | some (vs, s') => some (v :: vs, s')
      | none => none
    | _ => none

/-- The next whitespace-delimited token of the input: leading white space is
skipped and the token runs up to the next white-space character or the end of
the input.  The second component is the input after the token. -/
def next_token (s : List Char) : List Char × List Char :=
  ((skip_ws s).takeWhile fun c => !isspace c, (skip_ws s).dropWhile fun c => !isspace c)

/-- The decimal value of a run of digits. -/
def digits_value (ds : List Char) : Nat :=
  ds.foldl (fun acc c => 10 * acc + (c.toNat - 48)) 0

/-- The token without its sign, if it has one. -/
def unsigned_part (t : List Char) : List Char :=
  match t with
  | [] => []
  | c :: cs => if c = '-' ∨ c = '+' then cs else c :: cs

/-- The number a token denotes when its unsigned part is a run of digits. -/
def signed_value (t : List Char) : Int :=
  if t.head? = some '-' then -(digits_value (unsigned_part t) : Int)
  else (digits_value (unsigned_part t) : Int)

/-- The value of a token that is an ASCII decimal integer (an optional sign
followed by one or more digits, nothing else) and fits an `int`; `none` for any
other token. -/
def int_token (t : List Char) : Option Int :=
  if unsigned_part t ≠ [] ∧ (unsigned_part t).all isdigit = true ∧ in_int32 (signed_value t)
  then some (signed_value t) else none

/-- The values of the first `n` whitespace-delimited tokens of the input when
each of them is an integer token, and the input after the last of them. -/
def int_tokens : Nat → List Char → Option (List Int × List Char)
  | 0, s => some ([], s)
  | n + 1, s =>
    match int_token (next_token s).1 with
    | none => none
    | some v =>
      match int_tokens n (next_token s).2 with
      | some (vs, s') => some (v :: vs, s')
      | none => none

/-- The matrix has R rows of C elements each, in natural numbers. -/
def shaped (m : Matrix) (R C : Nat) : Prop :=
  m.length = R ∧ ∀ row ∈ m, row.length = C

/-- The R×C matrix whose cell (i, j) is the (i*C + j)-th value of `vs`
(counting from 0): the row-major arrangement of `vs`. -/
def from_row_major (R C : Nat) (vs : List Int) : Matrix :=
  (List.range R).map fun i => (List.range C).map fun j => vs.getD (i * C + j) 0

/-- The R×C matrix of the cells the accumulation loop computes over an inner
dimension N. -/
def product32 (a b : Matrix) (R C N : Nat) : Matrix :=
  (List.range R).map fun i => (List.range C).map fun j => acc32 a b i j N 0 0

/-! ## Sample environment -/

/-- An allocator that grants every request of at most `PTRDIFF_MAX` bytes and
hands out blocks filled with the pattern 0xAAAAAAAA. -/
def sample_env : Env :=
  { malloc_ok := fun _ size => decide (size ≤ PTRDIFF_MAX)
    malloc_init := fun _ _ => -1431655766
    strerror := "Cannot allocate memory" }

/-- The state of a run that has just opened a file with the given text. -/
def start (text : String) : World :=
  { input := text.toList, stdout := "", stderr := "", mallocs := [] }

/-- The final state of a call, when it has one. -/
def final_state {σ α : Type} : Outcome σ α → Option σ
  | .ret _ s => some s
  | .exit _ s => some s
  | .undefined => none

instance (a b : Matrix) (i j n : Nat) : Decidable (no_overflow a b i j n) := by
  unfold no_overflow; infer_instance

/-! ## `print_matrix` and `main` -/

/-- What `printf("%d", x)` writes for an `int` x: the decimal digits of its
magnitude, after a `-` when x is negative. -/
def decimal (x : Int) : String :=
  if x < 0 then "-" ++ Nat.repr x.natAbs else Nat.repr x.natAbs

/-- `printf(text)` for a text without conversions. -/
def printf (w : World) (text : String) : World :=
  { w with stdout := w.stdout ++ text }

/-- The loop `for (int j = 0; j < cols; j++) printf("%d ", matrix[i][j])` of
`print_matrix` for row `i`, with `n` iterations left, at column `j`; `none` when
an element access is out of bounds. -/
def print_cols (m : Matrix) (i : Nat) : Nat → Nat → World → Option World
  | 0, _, w => some w
  | n + 1, j, w =>
    match Matrix.read m i j with
    | none => none
    | some x => print_cols m i n (j + 1) (printf w (decimal x ++ " "))

/-- The loop `for (int i = 0; i < rows; i++)` of `print_matrix`, with `n`
iterations left, at row `i`. -/
def print_rows (m : Matrix) (cols : Int) : Nat → Nat → World → Option World
  | 0, _, w => some w
  | n + 1, i, w =>
    match print_cols m i cols.toNat 0 w with
    | none => none
    | some w1 => print_rows m cols n (i + 1) (printf w1 "\n")

/-- `void print_matrix(int** matrix, int rows, int cols)`. -/
def print_matrix (w : World) (m : Matrix) (rows cols : Int) : Outcome World Unit :=
  match print_rows m cols rows.toNat 0 w with
  | none => .undefined
  | some w1 => .ret () w1

/-- `int main()`.  `file` is the text of `input_mat.txt`, or `none` when `fopen`
fails, in which case `open_error` is the text `perror` prints for the `errno`
that `fopen` leaves.  `ja`, `jb` and `jr` are the indeterminate initial values
of the locals `a_rows`/`a_cols`, `b_rows`/`b_cols` and
`result_rows`/`result_cols`.  The value returned is the exit status.  `fclose`
and `free_matrix` write nothing and are not part of the state. -/
def main (env : Env) (file : Option (List Char)) (open_error : String) (ja jb jr : Cells) :
    Outcome World Int :=
  match file with
  | none =>
    .exit EXIT_FAILURE
      (eprint { input := [], stdout := "", stderr := "", mallocs := [] }
        ("Failed to open file" ++ ": " ++ open_error ++ "\n"))
  | some text =>
    match load_matrix env { input := text, stdout := "", stderr := "", mallocs := [] } ja with
    | .exit code (w1, _) => .exit code w1
    | .undefined => .undefined
    | .ret matrix_a (w1, ca) =>
      match load_matrix env w1 jb with
      | .exit code (w2, _) => .exit code w2
      | .undefined => .undefined
      | .ret matrix_b (w2, cb) =>
        match multiply_matrices env w2 jr matrix_a ca.rows ca.cols matrix_b cb.rows cb.cols with
        | .exit code (w3, _) => .exit code w3
        | .undefined => .undefined
        | .ret result_matrix (w3, cr) =>
          match print_matrix (printf w3 "Matrix A:\n") matrix_a ca.rows ca.cols with
          | .exit code w4 => .exit code w4
          | .undefined => .undefined
          | .ret _ w4 =>
            match print_matrix (printf w4 "Matrix B:\n") matrix_b cb.rows cb.cols with
            | .exit code w5 => .exit code w5
            | .undefined => .undefined
            | .ret _ w5 =>
              match print_matrix (printf w5 "Result of A x B:\n") result_matrix
                  cr.rows cr.cols with
              | .exit code w6 => .exit code w6
              | .undefined => .undefined
              | .ret _ w6 => .ret 0 w6

/-- The values of a row as `print_matrix` writes them: each in decimal, followed
by one space. -/
def render_values : List Int → String
  | [] => ""
  | x :: xs => decimal x ++ " " ++ render_values xs

/-- One printed line: the values of the row, each followed by one space, then a
newline. -/
def render_row (row : List Int) : String :=
  render_values row ++ "\n"

/-- The printed lines of a matrix, first row first. -/
def render : Matrix → String
  | [] => ""
  | row :: rows => render_row row ++ render rows

/-- The number of newline characters of a text. -/
def newlines (text : String) : Nat :=
  text.data.count (Char.ofNat 10)

/-! ## Token sequences -/

/-- The whitespace-delimited tokens of the input from the cursor on, in order,
where `cur` holds the characters already read of the token at the cursor. -/
def tokens_from (cur : List Char) : List Char → List (List Char)
  | [] => if cur = [] then [] else [cur]
  | c :: cs =>
    if isspace c then
      if cur = [] then tokens_from [] cs else cur :: tokens_from [] cs
    else tokens_from (cur ++ [c]) cs

/-- The sequence of whitespace-delimited tokens of the input: its maximal runs
of characters that are not white space.  Two inputs have the same sequence
exactly when they differ only in the white space before, between and after the
tokens. -/
def tokens (s : List Char) : List (List Char) := tokens_from [] s

/-- Two states that differ at most in the white space of the unread input. -/
def same_state (w w' : World) : Prop :=
  tokens w.input = tokens w'.input ∧ w.stdout = w'.stdout ∧ w.stderr = w'.stderr ∧
    w.mallocs = w'.mallocs

/-- Two calls end the same way: both return the same value, or both exit with the
same status, in final states related by `rel`; or both are undefined. -/
def same_outcome {σ α : Type} (rel : σ → σ → Prop) : Outcome σ α → Outcome σ α → Prop
  | .ret v s, .ret v' s' => v = v' ∧ rel s s'
  | .exit code s, .exit code' s' => code = code' ∧ rel s s'
  | .undefined, .undefined => True
  | _, _ => False

/-! ## Matrix accesses -/

theorem shaped_of_has_shape {m : Matrix} {rows cols : Int} (h : has_shape m rows cols) :
    shaped m rows.toNat cols.toNat := by
  obtain ⟨h1, h2, h3⟩ := h
  refine ⟨by omega, fun row hrow => ?_⟩
  have := h3 row hrow
  omega

theorem has_shape_of_shaped {m : Matrix} {rows cols : Int} (hr : 0 ≤ rows) (hc : 0 ≤ cols)
    (h : shaped m rows.toNat cols.toNat) : has_shape m rows cols := by
  obtain ⟨h1, h2⟩ := h
  refine ⟨by omega, hc, fun row hrow => ?_⟩
  have := h2 row hrow
  omega

theorem read_of_shaped {m : Matrix} {R C i j : Nat} (h : shaped m R C) (hi : i < R) (hj : j < C) :
    ∃ x, Matrix.read m i j = some x := by
  obtain ⟨h1, h2⟩ := h
  have hi' : i < m.length := by omega
  have hrow : m[i]? = some m[i] := List.getElem?_eq_getElem hi'
  have hlen : (m[i]).length = C := h2 _ (List.getElem_mem _)
  have hj' : j < (m[i]).length := by omega
  refine ⟨(m[i])[j], ?_⟩
  simp only [Matrix.read, hrow]
  exact List.getElem?_eq_getElem hj'

theorem write_of_read {m : Matrix} {i j : Nat} {x : Int} (h : Matrix.read m i j = some x)
    (v : Int) : ∃ m', Matrix.write m i j v = some m' := by
  unfold Matrix.read at h
  unfold Matrix.write
  cases hrow : m[i]? with
  | none => simp [hrow] at h
  | some row =>
    simp only [hrow] at h
    obtain ⟨hj, _⟩ := List.getElem?_eq_some.mp h
    exact ⟨m.set i (row.set j v), by simp [hj]⟩

theorem read_write {m m' : Matrix} {i j : Nat} {v : Int} (h : Matrix.write m i j v = some m')
    (i' j' : Nat) :
    Matrix.read m' i' j' = if i' = i ∧ j' = j then some v else Matrix.read m i' j' := by
  unfold Matrix.write at h
  cases hrow : m[i]? with
  | none => simp [hrow] at h
  | some row =>
    simp only [hrow] at h
    by_cases hj : j < row.length
    · simp only [hj, if_true, Option.some.injEq] at h
      subst h
      obtain ⟨hi, _⟩ := List.getElem?_eq_some.mp hrow
      unfold Matrix.read
      by_cases hii : i' = i
      · subst hii
        simp only [List.getElem?_set, hi, if_true, hrow, true_and]
        by_cases hjj : j' = j
        · subst hjj; simp [hj]
        · have : ¬ j = j' := fun e => hjj e.symm
          simp [hjj, this]
      · have : ¬ i = i' := fun e => hii e.symm
        simp [List.getElem?_set, this, hii]
    · simp [hj] at h

theorem shaped_write {m m' : Matrix} {i j : Nat} {v : Int} {R C : Nat}
    (h : Matrix.write m i j v = some m') (hs : shaped m R C) : shaped m' R C := by
  unfold Matrix.write at h
  cases hrow : m[i]? with
  | none => simp [hrow] at h
  | some row =>
    simp only [hrow] at h
    by_cases hj : j < row.length
    · simp only [hj, if_true, Option.some.injEq] at h
      subst h
      obtain ⟨hi, hget⟩ := List.getElem?_eq_some.mp hrow
      obtain ⟨h1, h2⟩ := hs
      refine ⟨by simp [h1], fun r hr => ?_⟩
      rcases List.mem_or_eq_of_mem_set hr with hmem | heq
      · exact h2 r hmem
      · subst heq
        have : row.length = C := h2 _ (hget ▸ List.getElem_mem _)
        simp [this]
    · simp [hj] at h

theorem elem_of_read {m : Matrix} {i j : Nat} {x : Int} (h : Matrix.read m i j = some x) :
    elem m i j = x := by
  simp [elem, h]

theorem matrix_ext {m1 m2 : Matrix} {R C : Nat} (h1 : shaped m1 R C) (h2 : shaped m2 R C)
    (h : ∀ i j, i < R → j < C → Matrix.read m1 i j = Matrix.read m2 i j) : m1 = m2 := by
  apply List.ext_getElem?
  intro i
  by_cases hi : i < R
  · have hi1 : i < m1.length := by rw [h1.1]; exact hi
    have hi2 : i < m2.length := by rw [h2.1]; exact hi
    rw [List.getElem?_eq_getElem hi1, List.getElem?_eq_getElem hi2]
    congr 1
    have l1 : (m1[i]).length = C := h1.2 _ (List.getElem_mem _)
    have l2 : (m2[i]).length = C := h2.2 _ (List.getElem_mem _)
    apply List.ext_getElem?
    intro j
    by_cases hj : j < C
    · have := h i j hi hj
      simpa [Matrix.read, List.getElem?_eq_getElem hi1, List.getElem?_eq_getElem hi2] using this
    · rw [List.getElem?_eq_none (by omega), List.getElem?_eq_none (by omega)]
  · rw [List.getElem?_eq_none (by rw [h1.1]; omega), List.getElem?_eq_none (by rw [h2.1]; omega)]

/-! ## Wraparound arithmetic -/

theorem wrap32_of_in_int32 {x : Int} (h : in_int32 x) : wrap32 x = x := by
  unfold in_int32 at h
  unfold wrap32
  omega

theorem in_int32_wrap32 (x : Int) : in_int32 (wrap32 x) := by
  unfold in_int32 wrap32
  omega

theorem wrap32_add_mul (y p : Int) : int_add (wrap32 y) (wrap32 p) = wrap32 (y + p) := by
  unfold int_add wrap32
  omega

theorem acc32_eq_wrap32 (a b : Matrix) (i j : Nat) :
    ∀ (n k : Nat) (y : Int),
      acc32 a b i j n k (wrap32 y) = wrap32 (y + (dot a b i j (k + n) - dot a b i j k)) := by
  intro n
  induction n with
  | zero => intro k y; simp [acc32]
  | succ n ih =>
    intro k y
    have e : k + (n + 1) = k + 1 + n := by omega
    rw [acc32, int_mul, wrap32_add_mul, ih (k + 1), e]
    congr 1
    simp only [dot]
    ring

theorem acc32_zero (a b : Matrix) (i j n : Nat) :
    acc32 a b i j n 0 0 = wrap32 (dot a b i j n) := by
  have h := acc32_eq_wrap32 a b i j n 0 0
  have z : wrap32 0 = 0 := by decide
  rw [z] at h
  rw [h]
  simp [dot]

theorem dot_in_int32_of_no_overflow {a b : Matrix} {i j n : Nat} (h : no_overflow a b i j n) :
    in_int32 (dot a b i j n) := by
  cases n with
  | zero => simp [dot, in_int32]
  | succ n => exact (h n (by omega)).2

/-! ## The loops of `multiply_matrices` -/

theorem mul_k_spec (a b : Matrix) (i j R C : Nat) (hi : i < R) (hj : j < C) :
    ∀ (n k : Nat) (r : Matrix), shaped r R C →
      (∀ t, t < n → (∃ p, Matrix.read a i (k + t) = some p) ∧
        (∃ q, Matrix.read b (k + t) j = some q)) →
      ∃ r', mul_k a b i j n k r = some r' ∧ shaped r' R C ∧
        Matrix.read r' i j = some (acc32 a b i j n k (elem r i j)) ∧
        ∀ i' j', ¬(i' = i ∧ j' = j) → Matrix.read r' i' j' = Matrix.read r i' j' := by
  intro n
  induction n with
  | zero =>
    intro k r hr _
    obtain ⟨x, hx⟩ := read_of_shaped hr hi hj
    exact ⟨r, rfl, hr, by simp [acc32, elem, hx], fun _ _ _ => rfl⟩
  | succ n ih =>
    intro k r hr hab
    obtain ⟨x, hx⟩ := read_of_shaped hr hi hj
    obtain ⟨⟨p, hp⟩, ⟨q, hq⟩⟩ := hab 0 (by omega)
    simp only [Nat.add_zero] at hp hq
    obtain ⟨r1, hr1⟩ := write_of_read hx (int_add x (int_mul p q))
    have hs1 : shaped r1 R C := shaped_write hr1 hr
    have hab' : ∀ t, t < n → (∃ p, Matrix.read a i (k + 1 + t) = some p) ∧
        (∃ q, Matrix.read b (k + 1 + t) j = some q) := by
      intro t ht
      have := hab (t + 1) (by omega)
      have e : k + (t + 1) = k + 1 + t := by omega
      rwa [e] at this
    obtain ⟨r', h1, h2, h3, h4⟩ := ih (k + 1) r1 hs1 hab'
    refine ⟨r', ?_, h2, ?_, ?_⟩
    · simp only [mul_k, hx, hp, hq, hr1]
      exact h1
    · rw [h3]
      have e1 : elem r1 i j = int_add x (int_mul p q) := by
        apply elem_of_read
        rw [read_write hr1]
        simp
      rw [e1, acc32, elem_of_read hx, elem_of_read hp, elem_of_read hq]
    · intro i' j' hne
      rw [h4 i' j' hne, read_write hr1]
      simp [hne]

theorem mul_j_spec (a b : Matrix) (a_cols : Int) (i R C : Nat) (hi : i < R) :
    ∀ (n j : Nat) (r : Matrix), shaped r R C → j + n ≤ C →
      (∀ k, k < a_cols.toNat → (∃ p, Matrix.read a i k = some p) ∧
        ∀ t, t < n → ∃ q, Matrix.read b k (j + t) = some q) →
      ∃ r', mul_j a b a_cols i n j r = some r' ∧ shaped r' R C ∧
        (∀ t, t < n → Matrix.read r' i (j + t) = some (acc32 a b i (j + t) a_cols.toNat 0 0)) ∧
        ∀ i' j', ¬(i' = i ∧ j ≤ j' ∧ j' < j + n) → Matrix.read r' i' j' = Matrix.read r i' j' := by
  intro n
  induction n with
  | zero =>
    intro j r hr _ _
    exact ⟨r, rfl, hr, fun t ht => absurd ht (by omega), fun _ _ _ => rfl⟩
  | succ n ih =>
    intro j r hr hjn hab
    have hj : j < C := by omega
    obtain ⟨x, hx⟩ := read_of_shaped hr hi hj
    obtain ⟨r1, hr1⟩ := write_of_read hx 0
    have hs1 : shaped r1 R C := shaped_write hr1 hr
    have habk : ∀ t, t < a_cols.toNat → (∃ p, Matrix.read a i (0 + t) = some p) ∧
        (∃ q, Matrix.read b (0 + t) j = some q) := by
      intro t ht
      obtain ⟨hp, hq⟩ := hab t ht
      have := hq 0 (by omega)
      simp only [Nat.zero_add, Nat.add_zero] at this ⊢
      exact ⟨hp, this⟩
    obtain ⟨r2, g1, g2, g3, g4⟩ := mul_k_spec a b i j R C hi hj a_cols.toNat 0 r1 hs1 habk
    have e1 : elem r1 i j = 0 := by
      apply elem_of_read
      rw [read_write hr1]
      simp
    rw [e1] at g3
    have hab' : ∀ k, k < a_cols.toNat → (∃ p, Matrix.read a i k = some p) ∧
        ∀ t, t < n → ∃ q, Matrix.read b k (j + 1 + t) = some q := by
      intro k hk
      obtain ⟨hp, hq⟩ := hab k hk
      refine ⟨hp, fun t ht => ?_⟩
      have := hq (t + 1) (by omega)
      have e : j + (t + 1) = j + 1 + t := by omega
      rwa [e] at this
    obtain ⟨r', h1, h2, h3, h4⟩ := ih (j + 1) r2 g2 (by omega) hab'
    refine ⟨r', ?_, h2, ?_, ?_⟩
    · simp only [mul_j, hr1, g1]
      exact h1
    · intro t ht
      cases t with
      | zero =>
        simp only [Nat.add_zero]
        rw [h4 i j (by omega), g3]
      | succ t =>
        have e : j + (t + 1) = j + 1 + t := by omega
        rw [e]
        exact h3 t (by omega)
    · intro i' j' hne
      rw [h4 i' j' (by omega), g4 i' j' (by omega), read_write hr1]
      have : ¬(i' = i ∧ j' = j) := by omega
      simp [this]

theorem mul_i_spec (a b : Matrix) (a_cols result_cols : Int) (R : Nat) :
    ∀ (n i : Nat) (r : Matrix), shaped r R result_cols.toNat → i + n ≤ R →
      (∀ s k, s < n → k < a_cols.toNat → ∃ p, Matrix.read a (i + s) k = some p) →
      (∀ k t, k < a_cols.toNat → t < result_cols.toNat → ∃ q, Matrix.read b k t = some q) →
      ∃ r', mul_i a b a_cols result_cols n i r = some r' ∧ shaped r' R result_cols.toNat ∧
        (∀ s t, s < n → t < result_cols.toNat →
          Matrix.read r' (i + s) t = some (acc32 a b (i + s) t a_cols.toNat 0 0)) ∧
        ∀ i' j', ¬(i ≤ i' ∧ i' < i + n) → Matrix.read r' i' j' = Matrix.read r i' j' := by
  intro n
  induction n with
  | zero =>
    intro i r hr _ _ _
    exact ⟨r, rfl, hr, fun s t hs => absurd hs (by omega), fun _ _ _ => rfl⟩
  | succ n ih =>
    intro i r hr hin ha hb
    have hi : i < R := by omega
    have hab : ∀ k, k < a_cols.toNat → (∃ p, Matrix.read a i k = some p) ∧
        ∀ t, t < result_cols.toNat → ∃ q, Matrix.read b k (0 + t) = some q := by
      intro k hk
      refine ⟨by simpa using ha 0 k (by omega) hk, fun t ht => ?_⟩
      simpa using hb k t hk ht
    obtain ⟨r1, g1, g2, g3, g4⟩ :=
      mul_j_spec a b a_cols i R result_cols.toNat hi result_cols.toNat 0 r hr (by omega) hab
    have ha' : ∀ s k, s < n → k < a_cols.toNat → ∃ p, Matrix.read a (i + 1 + s) k = some p := by
      intro s k hs hk
      have := ha (s + 1) k (by omega) hk
      have e : i + (s + 1) = i + 1 + s := by omega
      rwa [e] at this
    obtain ⟨r', h1, h2, h3, h4⟩ := ih (i + 1) r1 g2 (by omega) ha' hb
    refine ⟨r', ?_, h2, ?_, ?_⟩
    · simp only [mul_i, g1]
      exact h1
    · intro s t hs ht
      cases s with
      | zero =>
        simp only [Nat.add_zero]
        rw [h4 i t (by omega)]
        simpa using g3 t ht
      | succ s =>
        have e : i + (s + 1) = i + 1 + s := by omega
        rw [e]
        exact h3 s t (by omega) ht
    · intro i' j' hne
      rw [h4 i' j' (by omega), g4 i' j' (by omega)]

/-! ## `allocate_matrix` -/

theorem malloc_none {env : Env} {w : World} {size : Nat} {w1 : World}
    (h : malloc env w size = (none, w1)) :
    w1 = { w with mallocs := w.mallocs ++ [size] } := by
  simp only [malloc, Prod.mk.injEq] at h
  exact h.2.symm

theorem malloc_some {env : Env} {w : World} {size block : Nat} {w1 : World}
    (h : malloc env w size = (some block, w1)) :
    w1 = { w with mallocs := w.mallocs ++ [size] } ∧
      env.malloc_ok w.mallocs.length size = true := by
  simp only [malloc, Prod.mk.injEq] at h
  refine ⟨h.2.symm, ?_⟩
  by_contra hc
  simp [hc] at h

theorem malloc_of_ok {env : Env} {w : World} {size : Nat}
    (h : env.malloc_ok w.mallocs.length size = true) :
    malloc env w size = (some w.mallocs.length, { w with mallocs := w.mallocs ++ [size] }) := by
  simp [malloc, h]

theorem allocate_rows_ret (env : Env) (cols : Int) :
    ∀ (n : Nat) (m : Matrix) (w : World) (m' : Matrix) (w' : World) (R : Nat),
      allocate_rows env cols n m w = .ret m' w' → shaped m R cols.toNat →
      shaped m' (R + n) cols.toNat ∧ w'.input = w.input ∧ w'.stdout = w.stdout ∧
        w'.stderr = w.stderr ∧
        w'.mallocs = w.mallocs ++ List.replicate n (size_mul cols sizeof_int) ∧
        ∀ t, t < n → env.malloc_ok (w.mallocs.length + t) (size_mul cols sizeof_int) = true := by
  intro n
  induction n with
  | zero =>
    intro m w m' w' R h hs
    simp only [allocate_rows, Outcome.ret.injEq] at h
    obtain ⟨rfl, rfl⟩ := h
    exact ⟨hs, rfl, rfl, rfl, by simp, fun t ht => absurd ht (by omega)⟩
  | succ n ih =>
    intro m w m' w' R h hs
    unfold allocate_rows at h
    rcases hm : malloc env w (size_mul cols sizeof_int) with ⟨o, w1⟩
    cases o with
    | none => simp [hm] at h
    | some block =>
      simp only [hm] at h
      obtain ⟨rfl, hok⟩ := malloc_some hm
      have hs' : shaped (m ++ [fresh_row env block cols]) (R + 1) cols.toNat := by
        obtain ⟨h1, h2⟩ := hs
        refine ⟨by simp [h1], fun row hrow => ?_⟩
        rcases List.mem_append.mp hrow with hmem | hmem
        · exact h2 row hmem
        · simp only [List.mem_singleton] at hmem
          subst hmem
          simp [fresh_row]
      obtain ⟨g1, g2, g3, g4, g5, g6⟩ := ih _ _ m' w' (R + 1) h hs'
      refine ⟨?_, g2, g3, g4, ?_, ?_⟩
      · have e : R + (n + 1) = R + 1 + n := by omega
        rw [e]; exact g1
      · rw [g5]
        simp [List.replicate_succ]
      · intro t ht
        cases t with
        | zero => simpa using hok
        | succ t =>
          have := g6 t (by omega)
          simp only [List.length_append, List.length_singleton] at this
          have e : w.mallocs.length + (t + 1) = w.mallocs.length + 1 + t := by omega
          rw [e]; exact this

theorem allocate_rows_exit (env : Env) (cols : Int) :
    ∀ (n : Nat) (m : Matrix) (w : World) (code : Int) (w' : World),
      allocate_rows env cols n m w = .exit code w' →
      code = EXIT_FAILURE ∧ w'.input = w.input ∧ w'.stdout = w.stdout ∧
        w'.stderr = w.stderr ++
          ("Failed to allocate memory for matrix columns" ++ ": " ++ env.strerror ++ "\n") ∧
        w.mallocs.length < w'.mallocs.length := by
  intro n
  induction n with
  | zero => intro m w code w' h; simp [allocate_rows] at h
  | succ n ih =>
    intro m w code w' h
    unfold allocate_rows at h
    rcases hm : malloc env w (size_mul cols sizeof_int) with ⟨o, w1⟩
    cases o with
    | none =>
      simp only [hm, Outcome.exit.injEq] at h
      obtain ⟨rfl, rfl⟩ := h
      rw [malloc_none hm]
      simp [perror, eprint]
    | some block =>
      simp only [hm] at h
      obtain ⟨rfl, _⟩ := malloc_some hm
      obtain ⟨g1, g2, g3, g4, g5⟩ := ih _ _ code w' h
      refine ⟨g1, g2, g3, g4, ?_⟩
      simp only [List.length_append, List.length_singleton] at g5
      omega

theorem allocate_rows_ne_undefined (env : Env) (cols : Int) :
    ∀ (n : Nat) (m : Matrix) (w : World), allocate_rows env cols n m w ≠ .undefined := by
  intro n
  induction n with
  | zero => intro m w; simp [allocate_rows]
  | succ n ih =>
    intro m w
    unfold allocate_rows
    rcases hm : malloc env w (size_mul cols sizeof_int) with ⟨o, w1⟩
    cases o with
    | none => simp
    | some block => simpa using ih _ _

theorem allocate_matrix_ret {env : Env} {w : World} {rows cols : Int} {m : Matrix} {w' : World}
    (h : allocate_matrix env w rows cols = .ret m w') :
    shaped m rows.toNat cols.toNat ∧ w'.input = w.input ∧ w'.stdout = w.stdout ∧
      w'.stderr = w.stderr ∧
      w'.mallocs = w.mallocs ++
        size_mul rows sizeof_ptr :: List.replicate rows.toNat (size_mul cols sizeof_int) ∧
      env.malloc_ok w.mallocs.length (size_mul rows sizeof_ptr) = true ∧
      ∀ t, t < rows.toNat →
        env.malloc_ok (w.mallocs.length + 1 + t) (size_mul cols sizeof_int) = true := by
  unfold allocate_matrix at h
  rcases hm : malloc env w (size_mul rows sizeof_ptr) with ⟨o, w1⟩
  cases o with
  | none => simp [hm] at h
  | some block =>
    simp only [hm] at h
    obtain ⟨rfl, hok⟩ := malloc_some hm
    have hs : shaped ([] : Matrix) 0 cols.toNat := ⟨rfl, fun row hrow => by simp at hrow⟩
    obtain ⟨g1, g2, g3, g4, g5, g6⟩ := allocate_rows_ret env cols _ _ _ _ _ 0 h hs
    refine ⟨by simpa using g1, g2, g3, g4, by simpa using g5, hok, fun t ht => ?_⟩
    simpa using g6 t ht

theorem allocate_matrix_exit {env : Env} {w : World} {rows cols : Int} {code : Int} {w' : World}
    (h : allocate_matrix env w rows cols = .exit code w') :
    code = EXIT_FAILURE ∧ w'.input = w.input ∧ w'.stdout = w.stdout ∧
      (w'.stderr = w.stderr ++
          ("Failed to allocate memory for matrix rows" ++ ": " ++ env.strerror ++ "\n") ∨
        w'.stderr = w.stderr ++
          ("Failed to allocate memory for matrix columns" ++ ": " ++ env.strerror ++ "\n")) ∧
      w.mallocs.length < w'.mallocs.length := by
  unfold allocate_matrix at h
  rcases hm : malloc env w (size_mul rows sizeof_ptr) with ⟨o, w1⟩
  cases o with
  | none =>
    simp only [hm, Outcome.exit.injEq] at h
    obtain ⟨rfl, rfl⟩ := h
    rw [malloc_none hm]
    simp [perror, eprint]
  | some block =>
    simp only [hm] at h
    obtain ⟨rfl, _⟩ := malloc_some hm
    obtain ⟨g1, g2, g3, g4, g5⟩ := allocate_rows_exit env cols _ _ _ _ _ h
    refine ⟨g1, g2, g3, Or.inr g4, ?_⟩
    simp only [List.length_append, List.length_singleton] at g5
    omega

theorem allocate_matrix_ne_undefined (env : Env) (w : World) (rows cols : Int) :
    allocate_matrix env w rows cols ≠ .undefined := by
  unfold allocate_matrix
  rcases hm : malloc env w (size_mul rows sizeof_ptr) with ⟨o, w1⟩
  cases o with
  | none => simp
  | some block => simpa using allocate_rows_ne_undefined env cols _ _ _

theorem allocate_rows_with_input (env : Env) (cols : Int) (s : List Char) :
    ∀ (n : Nat) (m : Matrix) (w : World) (m' : Matrix) (w' : World),
      allocate_rows env cols n m w = .ret m' w' →
      allocate_rows env cols n m { w with input := s } = .ret m' { w' with input := s } := by
  intro n
  induction n with
  | zero =>
    intro m w m' w' h
    simp only [allocate_rows, Outcome.ret.injEq] at h
    obtain ⟨rfl, rfl⟩ := h
    rfl
  | succ n ih =>
    intro m w m' w' h
    unfold allocate_rows at h
    rcases hm : malloc env w (size_mul cols sizeof_int) with ⟨o, w1⟩
    cases o with
    | none => simp [hm] at h
    | some block =>
      simp only [hm] at h
      obtain ⟨rfl, hok⟩ := malloc_some hm
      have hb : block = w.mallocs.length := by
        simp only [malloc, hok, if_true, Prod.mk.injEq, Option.some.injEq] at hm
        exact hm.1.symm
      subst hb
      have hm' : malloc env { w with input := s } (size_mul cols sizeof_int)
          = (some w.mallocs.length,
              { w with input := s, mallocs := w.mallocs ++ [size_mul cols sizeof_int] }) :=
        malloc_of_ok hok
      have := ih _ _ m' w' h
      simp only [allocate_rows, hm']
      exact this

theorem allocate_matrix_with_input {env : Env} {w : World} {rows cols : Int} {m : Matrix}
    {w' : World} (h : allocate_matrix env w rows cols = .ret m w') (s : List Char) :
    allocate_matrix env { w with input := s } rows cols = .ret m { w' with input := s } := by
  unfold allocate_matrix at h
  rcases hm : malloc env w (size_mul rows sizeof_ptr) with ⟨o, w1⟩
  cases o with
  | none => simp [hm] at h
  | some block =>
    simp only [hm] at h
    obtain ⟨rfl, hok⟩ := malloc_some hm
    have hm' : malloc env { w with input := s } (size_mul rows sizeof_ptr)
        = (some w.mallocs.length,
            { w with input := s, mallocs := w.mallocs ++ [size_mul rows sizeof_ptr] }) :=
      malloc_of_ok hok
    have := allocate_rows_with_input env cols s _ _ _ _ _ h
    simp only [allocate_matrix, hm']
    exact this

theorem allocate_rows_granted (env : Env) (cols : Int) :
    ∀ (n : Nat) (m : Matrix) (w : World),
      (∀ t, t < n → env.malloc_ok (w.mallocs.length + t) (size_mul cols sizeof_int) = true) →
      ∃ m' w', allocate_rows env cols n m w = .ret m' w' := by
  intro n
  induction n with
  | zero => intro m w _; exact ⟨m, w, rfl⟩
  | succ n ih =>
    intro m w hok
    have h0 := hok 0 (by omega)
    simp only [Nat.add_zero] at h0
    obtain ⟨m', w', h⟩ := ih (m ++ [fresh_row env w.mallocs.length cols])
      { w with mallocs := w.mallocs ++ [size_mul cols sizeof_int] } (by
        intro t ht
        simp only [List.length_append, List.length_singleton]
        have := hok (t + 1) (by omega)
        have e : w.mallocs.length + (t + 1) = w.mallocs.length + 1 + t := by omega
        rwa [e] at this)
    exact ⟨m', w', by simp only [allocate_rows, malloc_of_ok h0]; exact h⟩

theorem allocate_matrix_granted (env : Env) (w : World) (rows cols : Int)
    (h0 : env.malloc_ok w.mallocs.length (size_mul rows sizeof_ptr) = true)
    (h1 : ∀ t, t < rows.toNat →
      env.malloc_ok (w.mallocs.length + 1 + t) (size_mul cols sizeof_int) = true) :
    ∃ m w', allocate_matrix env w rows cols = .ret m w' := by
  obtain ⟨m', w', h⟩ := allocate_rows_granted env cols rows.toNat []
    { w with mallocs := w.mallocs ++ [size_mul rows sizeof_ptr] } (by
      intro t ht
      simp only [List.length_append, List.length_singleton]
      exact h1 t ht)
  exact ⟨m', w', by simp only [allocate_matrix, malloc_of_ok h0]; exact h⟩

theorem nonneg_of_rows_size {r : Int} (hr : in_int32 r)
    (h : size_mul r sizeof_ptr ≤ PTRDIFF_MAX) : 0 ≤ r := by
  unfold in_int32 at hr
  unfold size_mul sizeof_ptr SIZE_MOD PTRDIFF_MAX at h
  omega

theorem nonneg_of_cols_size {c : Int} (hc : in_int32 c)
    (h : size_mul c sizeof_int ≤ PTRDIFF_MAX) : 0 ≤ c := by
  unfold in_int32 at hc
  unfold size_mul sizeof_int SIZE_MOD PTRDIFF_MAX at h
  omega

theorem dims_of_allocated {env : Env}
    (hreal : ∀ n size, env.malloc_ok n size = true → size ≤ PTRDIFF_MAX)
    {w : World} {r cc : Int} {m0 : Matrix} {w1 : World}
    (hr : in_int32 r) (hc : in_int32 cc)
    (halloc : allocate_matrix env w r cc = .ret m0 w1) : 0 ≤ r ∧ (r = 0 ∨ 0 ≤ cc) := by
  obtain ⟨_, _, _, _, _, h0, h1⟩ := allocate_matrix_ret halloc
  have hr0 : 0 ≤ r := nonneg_of_rows_size hr (hreal _ _ h0)
  refine ⟨hr0, ?_⟩
  by_cases hz : r = 0
  · exact Or.inl hz
  · right
    exact nonneg_of_cols_size hc (hreal _ _ (h1 0 (by omega)))

theorem sample_env_real :
    ∀ n size, sample_env.malloc_ok n size = true → size ≤ PTRDIFF_MAX :=
  fun _ _ h => of_decide_eq_true h

/-! ## `multiply_matrices` on operands of matching shapes -/

theorem multiply_matrices_ok (env : Env) (w : World) (c : Cells)
    (a : Matrix) (a_rows a_cols : Int) (b : Matrix) (b_rows b_cols : Int)
    (r0 : Matrix) (w1 : World)
    (ha : has_shape a a_rows a_cols) (hb : has_shape b b_rows b_cols) (h : a_cols = b_rows)
    (halloc : allocate_matrix env w a_rows b_cols = .ret r0 w1) :
    ∃ r, multiply_matrices env w c a a_rows a_cols b b_rows b_cols
          = .ret r (w1, { rows := a_rows, cols := b_cols }) ∧
      has_shape r a_rows b_cols ∧
      ∀ i j : Nat, (i : Int) < a_rows → (j : Int) < b_cols →
        Matrix.read r i j = some (acc32 a b i j a_cols.toNat 0 0) := by
  have hsa := shaped_of_has_shape ha
  have hsb := shaped_of_has_shape hb
  have hs0 := (allocate_matrix_ret halloc).1
  have har : 0 ≤ a_rows := by have := ha.1; omega
  have hbc : 0 ≤ b_cols := hb.2.1
  have hra : ∀ s k, s < a_rows.toNat → k < a_cols.toNat →
      ∃ p, Matrix.read a (0 + s) k = some p := by
    intro s k hs hk
    simpa using read_of_shaped hsa hs hk
  have hrb : ∀ k t, k < a_cols.toNat → t < b_cols.toNat → ∃ q, Matrix.read b k t = some q := by
    intro k t hk ht
    exact read_of_shaped hsb (by rw [← h]; exact hk) ht
  obtain ⟨r, g1, g2, g3, _⟩ :=
    mul_i_spec a b a_cols b_cols a_rows.toNat a_rows.toNat 0 r0 hs0 (by omega) hra hrb
  refine ⟨r, ?_, has_shape_of_shaped har hbc g2, fun i j hi hj => ?_⟩
  · simp only [multiply_matrices, h, ne_eq, not_true_eq_false, if_false]
    rw [← h, halloc]
    simp only [g1]
  · simpa using g3 i j (by omega) (by omega)

theorem shaped_product32 (a b : Matrix) (R C N : Nat) : shaped (product32 a b R C N) R C := by
  refine ⟨by simp [product32], fun row hrow => ?_⟩
  simp only [product32, List.mem_map] at hrow
  obtain ⟨k, _, rfl⟩ := hrow
  simp

theorem read_product32 {R C i j : Nat} (a b : Matrix) (N : Nat) (hi : i < R) (hj : j < C) :
    Matrix.read (product32 a b R C N) i j = some (acc32 a b i j N 0 0) := by
  simp [Matrix.read, product32, List.getElem?_map, List.getElem?_range hi,
    List.getElem?_range hj]

theorem multiply_matrices_eq (env : Env) (w : World) (c : Cells)
    (a : Matrix) (a_rows a_cols : Int) (b : Matrix) (b_rows b_cols : Int)
    (r0 : Matrix) (w1 : World)
    (ha : has_shape a a_rows a_cols) (hb : has_shape b b_rows b_cols) (h : a_cols = b_rows)
    (halloc : allocate_matrix env w a_rows b_cols = .ret r0 w1) :
    multiply_matrices env w c a a_rows a_cols b b_rows b_cols
      = .ret (product32 a b a_rows.toNat b_cols.toNat a_cols.toNat)
          (w1, { rows := a_rows, cols := b_cols }) := by
  obtain ⟨r, h1, h2, h3⟩ := multiply_matrices_ok env w c a a_rows a_cols b b_rows b_cols r0 w1
    ha hb h halloc
  have : r = product32 a b a_rows.toNat b_cols.toNat a_cols.toNat := by
    apply matrix_ext (shaped_of_has_shape h2) (shaped_product32 _ _ _ _ _)
    intro i j hi hj
    rw [h3 i j (by omega) (by omega), read_product32 a b _ hi hj]
  rw [h1, this]

theorem shaped_identity (n : Nat) : shaped (identity n) n n := by
  refine ⟨by simp [identity], fun row hrow => ?_⟩
  simp only [identity, List.mem_map] at hrow
  obtain ⟨k, _, rfl⟩ := hrow
  simp

theorem read_identity {n k j : Nat} (hk : k < n) (hj : j < n) :
    Matrix.read (identity n) k j = some (if k = j then 1 else 0) := by
  simp [Matrix.read, identity, List.getElem?_map, List.getElem?_range hk, List.getElem?_range hj]

theorem elem_in_int32 {a : Matrix} (hel : ∀ row ∈ a, ∀ x ∈ row, in_int32 x) (i j : Nat) :
    in_int32 (elem a i j) := by
  unfold elem Matrix.read
  cases hrow : a[i]? with
  | none => simp [in_int32]
  | some row =>
    simp only
    cases hx : row[j]? with
    | none => simp [in_int32]
    | some x =>
      obtain ⟨hi, hget⟩ := List.getElem?_eq_some.mp hrow
      obtain ⟨hj, hget'⟩ := List.getElem?_eq_some.mp hx
      have hmem : row ∈ a := hget ▸ List.getElem_mem _
      have hxm : x ∈ row := hget' ▸ List.getElem_mem _
      simpa using hel row hmem x hxm

theorem dot_identity (a : Matrix) (i j n : Nat) (hj : j < n) :
    ∀ k, k ≤ n → dot a (identity n) i j k = if j < k then elem a i j else 0 := by
  intro k
  induction k with
  | zero => intro _; simp [dot]
  | succ k ih =>
    intro hk
    rw [dot, ih (by omega), elem_of_read (read_identity (by omega : k < n) hj)]
    by_cases hkj : k = j
    · subst hkj
      simp
    · have h1 : (j < k + 1) = (j < k) := by
        apply propext
        constructor <;> intro h <;> omega
      simp [hkj, h1]

theorem no_overflow_identity {a : Matrix} (hel : ∀ row ∈ a, ∀ x ∈ row, in_int32 x)
    (i j n : Nat) (hj : j < n) : no_overflow a (identity n) i j n := by
  intro k hk
  constructor
  · rw [elem_of_read (read_identity hk hj)]
    by_cases hkj : k = j
    · simpa [hkj] using elem_in_int32 hel i j
    · simp [hkj, in_int32]
  · rw [dot_identity a i j n hj (k + 1) (by omega)]
    by_cases h : j < k + 1
    · simpa [h] using elem_in_int32 hel i j
    · simp [h, in_int32]

/-! ## Integer tokens -/

theorem scan_d_skip_ws (s : List Char) : scan_d (skip_ws s) = scan_d s := by
  unfold scan_d
  rw [show skip_ws (skip_ws s) = skip_ws s from List.dropWhile_idempotent _ _]

theorem scan_ints_succ_ok {n : Nat} {s rest : List Char} {v : Int} (h : scan_d s = .ok v rest) :
    scan_ints (n + 1) s = (scan_ints n rest).map fun p => (v :: p.1, p.2) := by
  rw [scan_ints, h]
  simp only
  cases ht : scan_ints n rest with
  | none => rfl
  | some p => rfl

theorem scan_ints_succ_some {n : Nat} {s s2 : List Char} {us : List Int}
    (h : scan_ints (n + 1) s = some (us, s2)) :
    ∃ v rest vs, scan_d s = .ok v rest ∧ scan_ints n rest = some (vs, s2) ∧ us = v :: vs := by
  rw [scan_ints] at h
  cases hs : scan_d s with
  | eof => simp [hs] at h
  | fail rest => simp [hs] at h
  | ok v rest =>
    simp only [hs] at h
    cases ht : scan_ints n rest with
    | none => simp [ht] at h
    | some p =>
      obtain ⟨vs, s'⟩ := p
      simp only [ht, Option.some.injEq, Prod.mk.injEq] at h
      obtain ⟨h1, rfl⟩ := h
      exact ⟨v, rest, vs, rfl, ht, h1.symm⟩

theorem scan_ints_length : ∀ (n : Nat) (s s2 : List Char) (vs : List Int),
    scan_ints n s = some (vs, s2) → vs.length = n := by
  intro n
  induction n with
  | zero =>
    intro s s2 vs h
    simp only [scan_ints, Option.some.injEq, Prod.mk.injEq] at h
    rw [← h.1]; rfl
  | succ n ih =>
    intro s s2 vs h
    obtain ⟨v, rest, ws, _, h2, rfl⟩ := scan_ints_succ_some h
    simp [ih _ _ _ h2]

theorem scan_ints_append : ∀ (m n : Nat) (s s1 s2 : List Char) (vs ws : List Int),
    scan_ints m s = some (vs, s1) → scan_ints n s1 = some (ws, s2) →
    scan_ints (m + n) s = some (vs ++ ws, s2) := by
  intro m
  induction m with
  | zero =>
    intro n s s1 s2 vs ws h1 h2
    simp only [scan_ints, Option.some.injEq, Prod.mk.injEq] at h1
    obtain ⟨rfl, rfl⟩ := h1
    simpa using h2
  | succ m ih =>
    intro n s s1 s2 vs ws h1 h2
    obtain ⟨v, rest, us, hs, ht, rfl⟩ := scan_ints_succ_some h1
    have e : m + 1 + n = (m + n) + 1 := by omega
    rw [e, scan_ints_succ_ok hs, ih n rest s1 s2 us ws ht h2]
    rfl

theorem scan_ints_split : ∀ (m n : Nat) (s s2 : List Char) (us : List Int),
    scan_ints (m + n) s = some (us, s2) →
    ∃ vs ws s1, scan_ints m s = some (vs, s1) ∧ scan_ints n s1 = some (ws, s2) ∧ us = vs ++ ws := by
  intro m
  induction m with
  | zero =>
    intro n s s2 us h
    exact ⟨[], us, s, rfl, by simpa using h, rfl⟩
  | succ m ih =>
    intro n s s2 us h
    have e : m + 1 + n = (m + n) + 1 := by omega
    rw [e] at h
    obtain ⟨v, rest, ts, hs, ht, rfl⟩ := scan_ints_succ_some h
    obtain ⟨vs, ws, s1, g1, g2, rfl⟩ := ih n rest s2 ts ht
    refine ⟨v :: vs, ws, s1, ?_, g2, rfl⟩
    rw [scan_ints_succ_ok hs, g1]
    rfl

theorem scan_ints_none_split : ∀ (m n : Nat) (s : List Char),
    scan_ints (m + n) s = none →
    scan_ints m s = none ∨ ∃ vs s1, scan_ints m s = some (vs, s1) ∧ scan_ints n s1 = none := by
  intro m n s h
  cases h1 : scan_ints m s with
  | none => exact Or.inl rfl
  | some p =>
    obtain ⟨vs, s1⟩ := p
    right
    refine ⟨vs, s1, rfl, ?_⟩
    cases h2 : scan_ints n s1 with
    | none => rfl
    | some q =>
      obtain ⟨ws, s2⟩ := q
      rw [scan_ints_append m n s s1 s2 vs ws h1 h2] at h
      simp at h

theorem scan_ints_le {n k : Nat} {s s2 : List Char} {vs : List Int}
    (h : scan_ints n s = some (vs, s2)) (hk : k ≤ n) :
    ∃ s1, scan_ints k s = some (vs.take k, s1) := by
  have e : n = k + (n - k) := by omega
  rw [e] at h
  obtain ⟨us, ws, s1, g1, _, rfl⟩ := scan_ints_split k (n - k) s s2 vs h
  have hl := scan_ints_length _ _ _ _ g1
  refine ⟨s1, ?_⟩
  rw [g1, ← hl]
  simp

theorem strtol_clamp_of_in_int32 {x : Int} (h : in_int32 x) : strtol_clamp x = x := by
  obtain ⟨h1, h2⟩ := h
  have a : ¬ x < LONG_MIN := by unfold LONG_MIN; omega
  have b : ¬ LONG_MAX < x := by unfold LONG_MAX; omega
  simp only [strtol_clamp, a, b, if_false]

theorem scan_digits_in_int32 {neg : Bool} {s rest : List Char} {v : Int}
    (h : scan_digits neg s = .ok v rest) : in_int32 v := by
  unfold scan_digits at h
  cases s with
  | nil => simp at h
  | cons d ds =>
    simp only at h
    by_cases hd : isdigit d
    · simp only [hd, if_true, Scan.ok.injEq] at h
      rw [← h.1]
      exact in_int32_wrap32 _
    · simp [hd] at h

theorem scan_d_in_int32 {s rest : List Char} {v : Int} (h : scan_d s = .ok v rest) :
    in_int32 v := by
  unfold scan_d at h
  cases hs : skip_ws s with
  | nil => simp [hs] at h
  | cons c cs =>
    simp only [hs] at h
    by_cases h1 : c = '-'
    · simp only [h1, if_true] at h
      exact scan_digits_in_int32 h
    · by_cases h2 : c = '+'
      · simp only [h1, h2, if_true, if_false] at h
        exact scan_digits_in_int32 h
      · simp only [h1, h2, if_false] at h
        exact scan_digits_in_int32 h

theorem scan_ints_two {s s1 : List Char} {us : List Int} (h : scan_ints 2 s = some (us, s1)) :
    ∃ r cc s', scan_d s = .ok r s' ∧ scan_d s' = .ok cc s1 ∧ us = [r, cc] ∧
      in_int32 r ∧ in_int32 cc := by
  obtain ⟨r, s', vs, h1, h2, rfl⟩ := scan_ints_succ_some h
  obtain ⟨cc, s'', ws, h3, h4, rfl⟩ := scan_ints_succ_some h2
  simp only [scan_ints, Option.some.injEq, Prod.mk.injEq] at h4
  obtain ⟨rfl, rfl⟩ := h4
  exact ⟨r, cc, s', h1, h3, rfl, scan_d_in_int32 h1, scan_d_in_int32 h3⟩

theorem scan_ints_two_in_int32 {s s1 : List Char} {r cc : Int}
    (h : scan_ints 2 s = some ([r, cc], s1)) : in_int32 r ∧ in_int32 cc := by
  obtain ⟨r', cc', _, _, _, h3, hr, hc⟩ := scan_ints_two h
  simp only [List.cons.injEq, and_true] at h3
  obtain ⟨rfl, rfl⟩ := h3
  exact ⟨hr, hc⟩

theorem fscanf_d_d_of_scan_ints {s s1 : List Char} {r cc : Int} (c : Cells)
    (h : scan_ints 2 s = some ([r, cc], s1)) :
    fscanf_d_d s c = (2, { rows := r, cols := cc }, s1) := by
  obtain ⟨r', cc', s', h1, h2, h3, _⟩ := scan_ints_two h
  simp only [List.cons.injEq, and_true] at h3
  obtain ⟨rfl, rfl⟩ := h3
  simp [fscanf_d_d, h1, scan_d_skip_ws, h2]

theorem fscanf_d_d_of_scan_ints_none {s : List Char} (c : Cells) (h : scan_ints 2 s = none) :
    (fscanf_d_d s c).1 ≠ 2 ∧
      ((fscanf_d_d s c).1 = EOF ∨ (fscanf_d_d s c).1 = 0 ∨ (fscanf_d_d s c).1 = 1) := by
  unfold fscanf_d_d
  cases h1 : scan_d s with
  | eof => simp [EOF]
  | fail rest => simp
  | ok r s' =>
    simp only [scan_d_skip_ws]
    cases h2 : scan_d s' with
    | eof => simp
    | fail rest => simp
    | ok cc s1 =>
      rw [scan_ints_succ_ok h1, scan_ints_succ_ok h2] at h
      simp [scan_ints] at h

theorem not_isdigit_of_isspace {c : Char} (h : isspace c = true) : isdigit c = false := by
  simp only [isspace, Bool.or_eq_true, decide_eq_true_eq, Bool.and_eq_true] at h
  simp only [isdigit, Bool.and_eq_false_imp, decide_eq_true_eq, decide_eq_false_iff_not]
  omega

theorem read_digits_append (rest : List Char)
    (hrest : ∀ c, rest.head? = some c → isdigit c = false) :
    ∀ (ds : List Char) (acc : Nat), (∀ c ∈ ds, isdigit c = true) →
      read_digits acc (ds ++ rest)
        = (ds.foldl (fun acc c => 10 * acc + (c.toNat - 48)) acc, rest) := by
  intro ds
  induction ds with
  | nil =>
    intro acc _
    cases rest with
    | nil => rfl
    | cons c cs =>
      have := hrest c rfl
      simp [read_digits, this]
  | cons d ds ih =>
    intro acc hd
    have h1 : isdigit d = true := hd d (List.mem_cons_self _ _)
    have h2 : ∀ c ∈ ds, isdigit c = true := fun c hc => hd c (List.mem_cons_of_mem _ hc)
    simp only [List.cons_append, read_digits, h1, if_true, List.foldl_cons]
    exact ih _ h2

theorem head_dropWhile_not_space (s : List Char) :
    ∀ c, (s.dropWhile fun c => !isspace c).head? = some c → isdigit c = false := by
  induction s with
  | nil => intro c h; simp at h
  | cons a s ih =>
    intro c h
    by_cases ha : isspace a = true
    · simp only [List.dropWhile_cons, ha, Bool.not_true] at h
      simp only [Bool.false_eq_true, if_false, List.head?_cons, Option.some.injEq] at h
      subst h
      exact not_isdigit_of_isspace ha
    · simp only [Bool.not_eq_true] at ha
      simp only [List.dropWhile_cons, ha, Bool.not_false, if_true] at h
      exact ih c h

theorem scan_d_of_int_token {s : List Char} {v : Int}
    (h : int_token (next_token s).1 = some v) : scan_d s = .ok v (next_token s).2 := by
  unfold int_token at h
  split at h
  · rename_i hc
    obtain ⟨hne, hall, hfit⟩ := hc
    simp only [Option.some.injEq] at h
    subst h
    have hsplit : skip_ws s = (next_token s).1 ++ (next_token s).2 := by
      simp only [next_token]
      exact (List.takeWhile_append_dropWhile _ _).symm
    have hrest : ∀ c, (next_token s).2.head? = some c → isdigit c = false :=
      head_dropWhile_not_space _
    have hall' : ∀ c ∈ unsigned_part (next_token s).1, isdigit c = true := by
      simpa [List.all_eq_true] using hall
    generalize (next_token s).1 = t at hne hall' hfit hsplit
    generalize (next_token s).2 = rest at hrest hsplit
    cases t with
    | nil => simp [unsigned_part] at hne
    | cons c cs =>
      unfold scan_d
      rw [hsplit]
      simp only [List.cons_append]
      by_cases hm : c = '-'
      · subst hm
        have hu : unsigned_part ('-' :: cs) = cs := by simp [unsigned_part]
        rw [hu] at hne hall'
        have hv : signed_value ('-' :: cs) = -(digits_value cs : Int) := by
          simp [signed_value, hu]
        rw [hv] at hfit ⊢
        simp only [if_true]
        cases cs with
        | nil => exact absurd rfl hne
        | cons d ds =>
          have hd : isdigit d = true := hall' d (List.mem_cons_self _ _)
          have hr := read_digits_append rest hrest (d :: ds) 0 hall'
          simp only [List.cons_append] at hr
          simp only [scan_digits, List.cons_append, hd, if_true, hr]
          show Scan.ok (wrap32 (strtol_clamp (-(digits_value (d :: ds) : Int)))) rest = _
          rw [strtol_clamp_of_in_int32 hfit, wrap32_of_in_int32 hfit]
      · by_cases hp : c = '+'
        · subst hp
          have hu : unsigned_part ('+' :: cs) = cs := by simp [unsigned_part]
          rw [hu] at hne hall'
          have hv : signed_value ('+' :: cs) = (digits_value cs : Int) := by
            simp [signed_value, hu]
          rw [hv] at hfit ⊢
          simp only [hm, if_false, if_true]
          cases cs with
          | nil => exact absurd rfl hne
          | cons d ds =>
            have hd : isdigit d = true := hall' d (List.mem_cons_self _ _)
            have hr := read_digits_append rest hrest (d :: ds) 0 hall'
            simp only [List.cons_append] at hr
            simp only [scan_digits, List.cons_append, hd, if_true, hr, Bool.false_eq_true,
              if_false]
            show Scan.ok (wrap32 (strtol_clamp (digits_value (d :: ds) : Int))) rest = _
            rw [strtol_clamp_of_in_int32 hfit, wrap32_of_in_int32 hfit]
        · have hu : unsigned_part (c :: cs) = c :: cs := by simp [unsigned_part, hm, hp]
          rw [hu] at hall'
          have hv : signed_value (c :: cs) = (digits_value (c :: cs) : Int) := by
            simp [signed_value, hu, hm]
          rw [hv] at hfit ⊢
          simp only [hm, hp, if_false]
          have hd : isdigit c = true := hall' c (List.mem_cons_self _ _)
          have hr := read_digits_append rest hrest (c :: cs) 0 hall'
          simp only [List.cons_append] at hr
          simp only [scan_digits, hd, if_true, hr, Bool.false_eq_true, if_false]
          show Scan.ok (wrap32 (strtol_clamp (digits_value (c :: cs) : Int))) rest = _
          rw [strtol_clamp_of_in_int32 hfit, wrap32_of_in_int32 hfit]
  · simp at h

theorem scan_ints_of_int_tokens :
    ∀ (n : Nat) (s s' : List Char) (vs : List Int),
      int_tokens n s = some (vs, s') → scan_ints n s = some (vs, s') := by
  intro n
  induction n with
  | zero => intro s s' vs h; simpa [int_tokens, scan_ints] using h
  | succ n ih =>
    intro s s' vs h
    rw [int_tokens] at h
    cases ht : int_token (next_token s).1 with
    | none => simp [ht] at h
    | some v =>
      simp only [ht] at h
      cases hr : int_tokens n (next_token s).2 with
      | none => simp [hr] at h
      | some p =>
        obtain ⟨ws, s2⟩ := p
        simp only [hr, Option.some.injEq, Prod.mk.injEq] at h
        obtain ⟨rfl, rfl⟩ := h
        rw [scan_ints_succ_ok (scan_d_of_int_token ht), ih _ _ _ hr]
        rfl

theorem toNat_mul_le {r cc : Int} {n : Nat} (hn : r * cc ≤ (n : Int)) :
    r.toNat * cc.toNat ≤ n := by
  by_cases hr : 0 ≤ r
  · by_cases hc : 0 ≤ cc
    · have e : ((r.toNat * cc.toNat : Nat) : Int) = r * cc := by
        push_cast
        rw [Int.toNat_of_nonneg hr, Int.toNat_of_nonneg hc]
      omega
    · have : cc.toNat = 0 := by omega
      rw [this]; omega
  · have : r.toNat = 0 := by omega
    rw [this]; omega

theorem toNat_mul_of_nonneg {r cc : Int} (hr : 0 ≤ r) (hc : r = 0 ∨ 0 ≤ cc) :
    0 ≤ r * cc ∧ (r * cc).toNat = r.toNat * cc.toNat := by
  rcases hc with rfl | hc
  · simp
  · have e : ((r.toNat * cc.toNat : Nat) : Int) = r * cc := by
      push_cast
      rw [Int.toNat_of_nonneg hr, Int.toNat_of_nonneg hc]
    refine ⟨by rw [← e]; exact Int.natCast_nonneg _, ?_⟩
    rw [← e]
    exact Int.toNat_natCast _

/-! ## The loops of `load_matrix` -/

theorem load_cols_ok (i R C : Nat) (hi : i < R) :
    ∀ (n j : Nat) (m : Matrix) (w : World) (vs : List Int) (s' : List Char),
      shaped m R C → j + n ≤ C → scan_ints n w.input = some (vs, s') →
      ∃ m', load_cols i n j m w = .ret m' { w with input := s' } ∧ shaped m' R C ∧
        (∀ t, t < n → Matrix.read m' i (j + t) = vs[t]?) ∧
        ∀ i' j', ¬(i' = i ∧ j ≤ j' ∧ j' < j + n) →
          Matrix.read m' i' j' = Matrix.read m i' j' := by
  intro n
  induction n with
  | zero =>
    intro j m w vs s' hm _ ht
    simp only [scan_ints, Option.some.injEq, Prod.mk.injEq] at ht
    obtain ⟨rfl, rfl⟩ := ht
    exact ⟨m, rfl, hm, fun t ht => absurd ht (by omega), fun _ _ _ => rfl⟩
  | succ n ih =>
    intro j m w vs s' hm hjn ht
    obtain ⟨v, rest, ws, hs, htl, rfl⟩ := scan_ints_succ_some ht
    obtain ⟨x, hx⟩ := read_of_shaped hm hi (by omega : j < C)
    obtain ⟨m1, hw⟩ := write_of_read hx v
    have hm1 := shaped_write hw hm
    obtain ⟨m', g1, g2, g3, g4⟩ := ih (j + 1) m1 { w with input := rest } ws s' hm1 (by omega) htl
    refine ⟨m', ?_, g2, ?_, ?_⟩
    · simp only [load_cols, hx, hs, hw]
      exact g1
    · intro t ht
      cases t with
      | zero =>
        simp only [Nat.add_zero, List.getElem?_cons_zero]
        rw [g4 i j (by omega), read_write hw]
        simp
      | succ t =>
        have e : j + (t + 1) = j + 1 + t := by omega
        rw [e, g3 t (by omega)]
        simp
    · intro i' j' hne
      rw [g4 i' j' (by omega), read_write hw]
      have : ¬(i' = i ∧ j' = j) := by omega
      simp [this]

theorem load_cols_fail (i R C : Nat) (hi : i < R) :
    ∀ (n j : Nat) (m : Matrix) (w : World),
      shaped m R C → j + n ≤ C → scan_ints n w.input = none →
      ∃ w', load_cols i n j m w = .exit EXIT_FAILURE w' ∧
        w'.stderr = w.stderr ++ "Failed to read matrix values\n" ∧
        w'.stdout = w.stdout ∧ w'.mallocs = w.mallocs := by
  intro n
  induction n with
  | zero =>
    intro j m w _ _ ht
    simp [scan_ints] at ht
  | succ n ih =>
    intro j m w hm hjn ht
    obtain ⟨x, hx⟩ := read_of_shaped hm hi (by omega : j < C)
    cases hs : scan_d w.input with
    | eof =>
      exact ⟨eprint { w with input := [] } "Failed to read matrix values\n",
        by simp only [load_cols, hx, hs], rfl, rfl, rfl⟩
    | fail rest =>
      exact ⟨eprint { w with input := rest } "Failed to read matrix values\n",
        by simp only [load_cols, hx, hs], rfl, rfl, rfl⟩
    | ok v rest =>
      obtain ⟨m1, hw⟩ := write_of_read hx v
      have hm1 := shaped_write hw hm
      have htl : scan_ints n rest = none := by
        rw [scan_ints_succ_ok hs] at ht
        simpa using ht
      obtain ⟨w', g1, g2, g3, g4⟩ := ih (j + 1) m1 { w with input := rest } hm1 (by omega) htl
      refine ⟨w', ?_, g2, g3, g4⟩
      simp only [load_cols, hx, hs, hw]
      exact g1

theorem load_rows_ok (cols : Int) (R : Nat) :
    ∀ (n i : Nat) (m : Matrix) (w : World) (vs : List Int) (s' : List Char),
      shaped m R cols.toNat → i + n ≤ R → scan_ints (n * cols.toNat) w.input = some (vs, s') →
      ∃ m', load_rows cols n i m w = .ret m' { w with input := s' } ∧
        shaped m' R cols.toNat ∧
        (∀ s t, s < n → t < cols.toNat →
          Matrix.read m' (i + s) t = vs[s * cols.toNat + t]?) ∧
        ∀ i' j', ¬(i ≤ i' ∧ i' < i + n) → Matrix.read m' i' j' = Matrix.read m i' j' := by
  intro n
  induction n with
  | zero =>
    intro i m w vs s' hm _ ht
    simp only [Nat.zero_mul, scan_ints, Option.some.injEq, Prod.mk.injEq] at ht
    obtain ⟨rfl, rfl⟩ := ht
    exact ⟨m, rfl, hm, fun s t hs => absurd hs (by omega), fun _ _ _ => rfl⟩
  | succ n ih =>
    intro i m w vs s' hm hin ht
    have e : (n + 1) * cols.toNat = cols.toNat + n * cols.toNat := by
      rw [Nat.succ_mul]; omega
    rw [e] at ht
    obtain ⟨us, ws, s1, h1, h2, rfl⟩ := scan_ints_split _ _ _ _ _ ht
    have hl := scan_ints_length _ _ _ _ h1
    obtain ⟨m1, g1, g2, g3, g4⟩ :=
      load_cols_ok i R cols.toNat (by omega) cols.toNat 0 m w us s1 hm (by omega) h1
    obtain ⟨m', k1, k2, k3, k4⟩ :=
      ih (i + 1) m1 { w with input := s1 } ws s' g2 (by omega) h2
    refine ⟨m', ?_, k2, ?_, ?_⟩
    · simp only [load_rows, g1]
      exact k1
    · intro s t hs ht'
      cases s with
      | zero =>
        simp only [Nat.add_zero, Nat.zero_mul, Nat.zero_add]
        rw [k4 i t (by omega)]
        have := g3 t ht'
        simp only [Nat.zero_add] at this
        rw [this, List.getElem?_append_left (by omega)]
      | succ s =>
        have e1 : i + (s + 1) = i + 1 + s := by omega
        have e2 : (s + 1) * cols.toNat + t = us.length + (s * cols.toNat + t) := by
          rw [Nat.succ_mul]; omega
        rw [e1, k3 s t (by omega) ht', e2, List.getElem?_append_right (by omega)]
        simp
    · intro i' j' hne
      rw [k4 i' j' (by omega), g4 i' j' (by omega)]

theorem load_rows_fail (cols : Int) (R : Nat) :
    ∀ (n i : Nat) (m : Matrix) (w : World),
      shaped m R cols.toNat → i + n ≤ R → scan_ints (n * cols.toNat) w.input = none →
      ∃ w', load_rows cols n i m w = .exit EXIT_FAILURE w' ∧
        w'.stderr = w.stderr ++ "Failed to read matrix values\n" ∧
        w'.stdout = w.stdout ∧ w'.mallocs = w.mallocs := by
  intro n
  induction n with
  | zero =>
    intro i m w _ _ ht
    simp [scan_ints] at ht
  | succ n ih =>
    intro i m w hm hin ht
    have e : (n + 1) * cols.toNat = cols.toNat + n * cols.toNat := by
      rw [Nat.succ_mul]; omega
    rw [e] at ht
    rcases scan_ints_none_split _ _ _ ht with h1 | ⟨us, s1, h1, h2⟩
    · obtain ⟨w', g1, g2, g3, g4⟩ :=
        load_cols_fail i R cols.toNat (by omega) cols.toNat 0 m w hm (by omega) h1
      exact ⟨w', by simp only [load_rows, g1], g2, g3, g4⟩
    · obtain ⟨m1, g1, g2, _, _⟩ :=
        load_cols_ok i R cols.toNat (by omega) cols.toNat 0 m w us s1 hm (by omega) h1
      obtain ⟨w', k1, k2, k3, k4⟩ := ih (i + 1) m1 { w with input := s1 } g2 (by omega) h2
      refine ⟨w', ?_, k2, k3, k4⟩
      simp only [load_rows, g1]
      exact k1

/-! ## `load_matrix` -/

theorem load_matrix_ok (env : Env) (w : World) (c : Cells) (r cc : Int)
    (s1 s2 : List Char) (vs : List Int) (m0 : Matrix) (w1 : World)
    (hdim : scan_ints 2 w.input = some ([r, cc], s1))
    (hval : scan_ints (r.toNat * cc.toNat) s1 = some (vs, s2))
    (halloc : allocate_matrix env { w with input := s1 } r cc = .ret m0 w1) :
    ∃ m, load_matrix env w c = .ret m ({ w1 with input := s2 }, { rows := r, cols := cc }) ∧
      shaped m r.toNat cc.toNat ∧
      ∀ i j, i < r.toNat → j < cc.toNat → Matrix.read m i j = vs[i * cc.toNat + j]? := by
  obtain ⟨hs0, hin, _⟩ := allocate_matrix_ret halloc
  have hval' : scan_ints (r.toNat * cc.toNat) w1.input = some (vs, s2) := by rw [hin]; exact hval
  obtain ⟨m, g1, g2, g3, _⟩ :=
    load_rows_ok cc r.toNat r.toNat 0 m0 w1 vs s2 hs0 (by omega) hval'
  refine ⟨m, ?_, g2, fun i j hi hj => ?_⟩
  · simp only [load_matrix, fscanf_d_d_of_scan_ints c hdim, ne_eq, not_true_eq_false, if_false,
      halloc, g1]
  · simpa using g3 i j hi hj

theorem load_matrix_values_fail (env : Env) (w : World) (c : Cells) (r cc : Int)
    (s1 : List Char) (m0 : Matrix) (w1 : World)
    (hdim : scan_ints 2 w.input = some ([r, cc], s1))
    (hval : scan_ints (r.toNat * cc.toNat) s1 = none)
    (halloc : allocate_matrix env { w with input := s1 } r cc = .ret m0 w1) :
    ∃ w', load_matrix env w c = .exit EXIT_FAILURE (w', { rows := r, cols := cc }) ∧
      w'.stderr = w.stderr ++ "Failed to read matrix values\n" ∧
      w'.stdout = w.stdout ∧ w'.mallocs = w1.mallocs := by
  obtain ⟨hs0, hin, hout, herr, _⟩ := allocate_matrix_ret halloc
  have hval' : scan_ints (r.toNat * cc.toNat) w1.input = none := by rw [hin]; exact hval
  obtain ⟨w', g1, g2, g3, g4⟩ := load_rows_fail cc r.toNat r.toNat 0 m0 w1 hs0 (by omega) hval'
  refine ⟨w', ?_, by rw [g2, herr], by rw [g3, hout], g4⟩
  simp only [load_matrix, fscanf_d_d_of_scan_ints c hdim, ne_eq, not_true_eq_false, if_false,
    halloc, g1]

theorem load_matrix_dims_fail (env : Env) (w : World) (c : Cells)
    (hdim : scan_ints 2 w.input = none) :
    ∃ w' c', load_matrix env w c = .exit EXIT_FAILURE (w', c') ∧
      w'.stderr = w.stderr ++ "Failed to read matrix dimensions\n" ∧
      w'.stdout = w.stdout ∧ w'.mallocs = w.mallocs := by
  have h := (fscanf_d_d_of_scan_ints_none c hdim).1
  rcases hf : fscanf_d_d w.input c with ⟨n, c1, rest⟩
  rw [hf] at h
  exact ⟨eprint { w with input := rest } "Failed to read matrix dimensions\n", c1,
    by simp only [load_matrix, hf, ne_eq, h, not_false_eq_true, if_true], rfl, rfl, rfl⟩

theorem shaped_from_row_major (R C : Nat) (vs : List Int) : shaped (from_row_major R C vs) R C := by
  refine ⟨by simp [from_row_major], fun row hrow => ?_⟩
  simp only [from_row_major, List.mem_map] at hrow
  obtain ⟨k, _, rfl⟩ := hrow
  simp

theorem read_from_row_major {R C i j : Nat} (vs : List Int) (hi : i < R) (hj : j < C) :
    Matrix.read (from_row_major R C vs) i j = some (vs.getD (i * C + j) 0) := by
  simp [Matrix.read, from_row_major, List.getElem?_map, List.getElem?_range hi,
    List.getElem?_range hj]

theorem cell_index_lt {R C i j : Nat} (hi : i < R) (hj : j < C) : i * C + j < R * C := by
  have h1 : (i + 1) * C ≤ R * C := Nat.mul_le_mul_right C hi
  rw [Nat.succ_mul] at h1
  omega

theorem load_matrix_eq (env : Env) (w : World) (c : Cells) (r cc : Int)
    (s1 s2 : List Char) (vs : List Int) (m0 : Matrix) (w1 : World)
    (hdim : scan_ints 2 w.input = some ([r, cc], s1))
    (hval : scan_ints (r.toNat * cc.toNat) s1 = some (vs, s2))
    (halloc : allocate_matrix env { w with input := s1 } r cc = .ret m0 w1) :
    load_matrix env w c
      = .ret (from_row_major r.toNat cc.toNat vs)
          ({ w1 with input := s2 }, { rows := r, cols := cc }) := by
  obtain ⟨m, h1, h2, h3⟩ := load_matrix_ok env w c r cc s1 s2 vs m0 w1 hdim hval halloc
  have hl := scan_ints_length _ _ _ _ hval
  have : m = from_row_major r.toNat cc.toNat vs := by
    apply matrix_ext h2 (shaped_from_row_major _ _ _)
    intro i j hi hj
    have hlt : i * cc.toNat + j < vs.length := by rw [hl]; exact cell_index_lt hi hj
    rw [h3 i j hi hj, read_from_row_major vs hi hj, List.getD_eq_getElem?_getD,
      List.getElem?_eq_getElem hlt]
    rfl
  rw [h1, this]

theorem load_matrix_ret_inv (env : Env)
    (hreal : ∀ n size, env.malloc_ok n size = true → size ≤ PTRDIFF_MAX)
    (w : World) (c : Cells) (m : Matrix) (w' : World) (cs : Cells)
    (h : load_matrix env w c = .ret m (w', cs)) :
    0 ≤ cs.rows * cs.cols ∧
    ∃ vs, scan_ints (2 + (cs.rows * cs.cols).toNat) w.input
        = some (cs.rows :: cs.cols :: vs, w'.input) ∧
      m = from_row_major cs.rows.toNat cs.cols.toNat vs := by
  cases hdim : scan_ints 2 w.input with
  | none =>
    obtain ⟨w2, c2, g, _⟩ := load_matrix_dims_fail env w c hdim
    rw [g] at h
    simp at h
  | some p =>
    obtain ⟨us, s1⟩ := p
    obtain ⟨r, cc, _, _, _, rfl, hr, hc⟩ := scan_ints_two hdim
    cases halloc : allocate_matrix env { w with input := s1 } r cc with
    | undefined => exact absurd halloc (allocate_matrix_ne_undefined _ _ _ _)
    | exit code w2 =>
      simp [load_matrix, fscanf_d_d_of_scan_ints c hdim, halloc] at h
    | ret m0 w1 =>
      obtain ⟨hr0, hc0⟩ := dims_of_allocated hreal hr hc halloc
      obtain ⟨hpos, hmul⟩ := toNat_mul_of_nonneg hr0 hc0
      cases hval : scan_ints (r.toNat * cc.toNat) s1 with
      | none =>
        obtain ⟨w2, g, _⟩ := load_matrix_values_fail env w c r cc s1 m0 w1 hdim hval halloc
        rw [g] at h
        simp at h
      | some q =>
        obtain ⟨vs, s2⟩ := q
        have g := load_matrix_eq env w c r cc s1 s2 vs m0 w1 hdim hval halloc
        rw [g] at h
        simp only [Outcome.ret.injEq, Prod.mk.injEq] at h
        obtain ⟨rfl, rfl, rfl⟩ := h
        refine ⟨hpos, vs, ?_, rfl⟩
        simp only [hmul]
        exact scan_ints_append 2 _ _ _ _ _ _ hdim hval

/-! ## Standard error -/

theorem append_ne_of_head (s x y : String) (h : x.data.head? ≠ y.data.head?) :
    s ++ x ≠ s ++ y := by
  intro e
  have e' := congrArg String.data e
  simp only [String.data_append] at e'
  exact h (congrArg List.head? (List.append_cancel_left e'))

theorem ne_append_of_head (s y : String) (h : y.data.head? ≠ none) : s ≠ s ++ y := by
  intro e
  have e' := congrArg (fun x => x.data.length) e
  simp only [String.data_append, List.length_append] at e'
  have : y.data = [] := List.length_eq_zero.mp (by omega)
  rw [this] at h
  exact h rfl

theorem alloc_rows_msg_head (t : String) :
    ("Failed to allocate memory for matrix rows" ++ ": " ++ t ++ "\n").data.head? = some 'F' := by
  simp only [String.data_append]
  rfl

theorem alloc_cols_msg_head (t : String) :
    ("Failed to allocate memory for matrix columns" ++ ": " ++ t ++ "\n").data.head? = some 'F' := by
  simp only [String.data_append]
  rfl

/-! ## Claims on `multiply_matrices`: cells, shape, dimension check -/

/-- C1 (as stated, refuted): on the 1×1 operands [[65536]] and [[65536]] the
returned cell (0, 0) is 0, while the sum over k of a[0][k] * b[k][0] is
4294967296. -/
theorem multiply_matrices_cell_not_exact_sum :
    has_shape [[65536]] 1 1 ∧ in_int32 65536 ∧
    multiply_matrices sample_env (start "") { rows := 0, cols := 0 } [[65536]] 1 1 [[65536]] 1 1
      = .ret [[0]]
          ({ input := [], stdout := "", stderr := "", mallocs := [8, 4] }, { rows := 1, cols := 1 }) ∧
    dot [[65536]] [[65536]] 0 0 1 = 4294967296 := by
  decide

/-- C1 (amended): for operands of shapes a_rows × a_cols and b_rows × b_cols with
a_cols = b_rows, when the allocation of the result succeeds, `multiply_matrices`
returns a matrix whose cell (i, j), for 0 <= i < a_rows and 0 <= j < b_cols,
equals the sum over k in [0, a_cols) of a[i][k] * b[k][j], provided no product
and no partial sum of that cell overflows the `int` range. -/
theorem multiply_matrices_cell_sum (env : Env) (w : World) (c : Cells)
    (a : Matrix) (a_rows a_cols : Int) (b : Matrix) (b_rows b_cols : Int)
    (r0 : Matrix) (w1 : World)
    (ha : has_shape a a_rows a_cols) (hb : has_shape b b_rows b_cols) (h : a_cols = b_rows)
    (halloc : allocate_matrix env w a_rows b_cols = .ret r0 w1) :
    ∃ r, multiply_matrices env w c a a_rows a_cols b b_rows b_cols
          = .ret r (w1, { rows := a_rows, cols := b_cols }) ∧
      ∀ i j : Nat, (i : Int) < a_rows → (j : Int) < b_cols →
        no_overflow a b i j a_cols.toNat →
        Matrix.read r i j = some (dot a b i j a_cols.toNat) := by
  obtain ⟨r, h1, _, h3⟩ := multiply_matrices_ok env w c a a_rows a_cols b b_rows b_cols r0 w1
    ha hb h halloc
  refine ⟨r, h1, fun i j hi hj hno => ?_⟩
  rw [h3 i j hi hj, acc32_zero, wrap32_of_in_int32 (dot_in_int32_of_no_overflow hno)]

theorem multiply_matrices_cell_sum_witness :
    ∃ r, multiply_matrices sample_env (start "") { rows := 0, cols := 0 }
          [[1, 2], [3, 4]] 2 2 [[5, 6], [7, 8]] 2 2
          = .ret r ({ input := [], stdout := "", stderr := "", mallocs := [16, 8, 8] },
              { rows := 2, cols := 2 }) ∧
      Matrix.read r 1 1 = some (3 * 6 + 4 * 8) := by
  obtain ⟨r, h1, h2⟩ := multiply_matrices_cell_sum sample_env (start "") { rows := 0, cols := 0 }
    [[1, 2], [3, 4]] 2 2 [[5, 6], [7, 8]] 2 2
    [[-1431655766, -1431655766], [-1431655766, -1431655766]]
    { input := [], stdout := "", stderr := "", mallocs := [16, 8, 8] }
    (by decide) (by decide) rfl (by decide)
  exact ⟨r, h1, h2 1 1 (by decide) (by decide) (by decide)⟩

/-- C2: for operands of shapes a_rows × a_cols and b_rows × b_cols with
a_cols = b_rows, when the allocation of the result succeeds, `multiply_matrices`
returns with `*result_rows = a_rows` and `*result_cols = b_cols`, and the matrix
it returns has exactly a_rows rows, each of exactly b_cols elements. -/
theorem multiply_matrices_result_shape (env : Env) (w : World) (c : Cells)
    (a : Matrix) (a_rows a_cols : Int) (b : Matrix) (b_rows b_cols : Int)
    (r0 : Matrix) (w1 : World)
    (ha : has_shape a a_rows a_cols) (hb : has_shape b b_rows b_cols) (h : a_cols = b_rows)
    (halloc : allocate_matrix env w a_rows b_cols = .ret r0 w1) :
    ∃ r w' c', multiply_matrices env w c a a_rows a_cols b b_rows b_cols = .ret r (w', c') ∧
      c'.rows = a_rows ∧ c'.cols = b_cols ∧
      (r.length : Int) = a_rows ∧ ∀ row ∈ r, (row.length : Int) = b_cols := by
  obtain ⟨r, h1, h2, _⟩ := multiply_matrices_ok env w c a a_rows a_cols b b_rows b_cols r0 w1
    ha hb h halloc
  exact ⟨r, w1, _, h1, rfl, rfl, h2.1, h2.2.2⟩

theorem multiply_matrices_result_shape_witness :
    ∃ r w' c', multiply_matrices sample_env (start "") { rows := 7, cols := 7 }
          [[1, 2, 9], [4, 5, 6]] 2 3 [[7, 8], [9, 10], [11, 12]] 3 2 = .ret r (w', c') ∧
      c'.rows = 2 ∧ c'.cols = 2 ∧
      (r.length : Int) = 2 ∧ ∀ row ∈ r, (row.length : Int) = 2 :=
  multiply_matrices_result_shape sample_env (start "") { rows := 7, cols := 7 }
    [[1, 2, 9], [4, 5, 6]] 2 3 [[7, 8], [9, 10], [11, 12]] 3 2
    [[-1431655766, -1431655766], [-1431655766, -1431655766]]
    { input := [], stdout := "", stderr := "", mallocs := [16, 8, 8] }
    (by decide) (by decide) rfl (by decide)

/-- C3: when a_cols != b_rows, whatever the operands hold, the call of
`multiply_matrices` stops the process with `EXIT_FAILURE` after writing the
dimension-mismatch message to standard error and nothing else has changed: no
allocation was requested, `*result_rows` and `*result_cols` keep their values,
and the outcome is the same for all contents of a and b (no element is read).
When a_cols == b_rows, no outcome leaves that message on standard error. -/
theorem multiply_matrices_mismatch (env : Env) (w : World) (c : Cells)
    (a : Matrix) (a_rows a_cols : Int) (b : Matrix) (b_rows b_cols : Int) :
    (a_cols ≠ b_rows →
      multiply_matrices env w c a a_rows a_cols b b_rows b_cols
        = .exit EXIT_FAILURE
            ({ w with stderr := w.stderr ++
                "Matrix multiplication not possible: incompatible dimensions\n" }, c)) ∧
    (a_cols = b_rows →
      ∀ s, final_state (multiply_matrices env w c a a_rows a_cols b b_rows b_cols) = some s →
        s.1.stderr ≠ w.stderr ++
          "Matrix multiplication not possible: incompatible dimensions\n") := by
  constructor
  · intro h
    simp [multiply_matrices, h, eprint]
  · intro h s hs
    simp only [multiply_matrices, h, ne_eq, not_true_eq_false, if_false] at hs
    cases ha : allocate_matrix env w a_rows b_cols with
    | undefined => simp [ha, final_state] at hs
    | exit code w1 =>
      simp only [ha, final_state, Option.some.injEq] at hs
      subst hs
      obtain ⟨_, _, _, g, _⟩ := allocate_matrix_exit ha
      rcases g with g | g
      · simp only [g]
        exact append_ne_of_head _ _ _ (by rw [alloc_rows_msg_head]; decide)
      · simp only [g]
        exact append_ne_of_head _ _ _ (by rw [alloc_cols_msg_head]; decide)
    | ret r w1 =>
      simp only [ha] at hs
      obtain ⟨_, _, _, g, _⟩ := allocate_matrix_ret ha
      cases hm : mul_i a b b_rows b_cols a_rows.toNat 0 r with
      | none => simp [hm, final_state] at hs
      | some r1 =>
        simp only [hm, final_state, Option.some.injEq] at hs
        subst hs
        simp only [g]
        exact ne_append_of_head _ _ (by decide)

theorem multiply_matrices_mismatch_witness :
    multiply_matrices sample_env (start "") { rows := 7, cols := 9 }
        [[1, 2, 3]] 1 3 [[4, 5], [6, 7]] 2 2
      = .exit 1
          ({ input := [], stdout := "",
             stderr := "Matrix multiplication not possible: incompatible dimensions\n",
             mallocs := [] }, { rows := 7, cols := 9 }) ∧
    final_state (multiply_matrices sample_env (start "") { rows := 7, cols := 9 }
        [[1, 2], [3, 4]] 2 2 [[4, 5], [6, 7]] 2 2)
      = some ({ input := [], stdout := "", stderr := "", mallocs := [16, 8, 8] },
          { rows := 2, cols := 2 }) :=
  ⟨(multiply_matrices_mismatch sample_env (start "") { rows := 7, cols := 9 }
      [[1, 2, 3]] 1 3 [[4, 5], [6, 7]] 2 2).1 (by decide), by decide⟩

/-! ## Claims on `load_matrix`: layout, cursor, format errors -/

/-- C4: when the first two whitespace-delimited tokens at the cursor are the
integer tokens r and c, at least r*c integer tokens follow them (`vs` lists the
first n, with r*c <= n), and the allocation of the matrix succeeds,
`load_matrix` returns with `*rows = r` and `*cols = c` a matrix whose cell
(i, j), for 0 <= i < r and 0 <= j < c, is the (i*c + j)-th of the value tokens:
the values are laid out in row-major order. -/
theorem load_matrix_row_major (env : Env) (w : World) (c : Cells) (r cc : Int)
    (s1 s2 : List Char) (n : Nat) (vs : List Int) (m0 : Matrix) (w1 : World)
    (hdim : int_tokens 2 w.input = some ([r, cc], s1))
    (hn : r * cc ≤ (n : Int))
    (hval : int_tokens n s1 = some (vs, s2))
    (halloc : allocate_matrix env w r cc = .ret m0 w1) :
    ∃ m w' c', load_matrix env w c = .ret m (w', c') ∧ c'.rows = r ∧ c'.cols = cc ∧
      ∀ i j : Nat, (i : Int) < r → (j : Int) < cc →
        ∃ v, vs[((i : Int) * cc + j).toNat]? = some v ∧ Matrix.read m i j = some v := by
  have hdim := scan_ints_of_int_tokens _ _ _ _ hdim
  have hval := scan_ints_of_int_tokens _ _ _ _ hval
  have hle := toNat_mul_le hn
  obtain ⟨s', hval'⟩ := scan_ints_le hval hle
  obtain ⟨m, h1, _, h3⟩ := load_matrix_ok env w c r cc s1 s' _ m0 { w1 with input := s1 }
    hdim hval' (allocate_matrix_with_input halloc s1)
  have hl := scan_ints_length _ _ _ _ hval
  refine ⟨m, _, _, h1, rfl, rfl, fun i j hi hj => ?_⟩
  have hc : 0 ≤ cc := by omega
  have hi' : i < r.toNat := by omega
  have hj' : j < cc.toNat := by omega
  have hlt := cell_index_lt hi' hj'
  have e : ((i : Int) * cc + j).toNat = i * cc.toNat + j := by
    have : (i : Int) * cc + j = ((i * cc.toNat + j : Nat) : Int) := by
      push_cast
      rw [Int.toNat_of_nonneg hc]
    rw [this]
    exact Int.toNat_natCast _
  have hlt' : i * cc.toNat + j < vs.length := by omega
  refine ⟨vs[i * cc.toNat + j], by rw [e]; exact List.getElem?_eq_getElem hlt', ?_⟩
  rw [h3 i j hi' hj', List.getElem?_take]
  simp only [hlt, if_true]
  exact List.getElem?_eq_getElem hlt'

theorem load_matrix_row_major_witness :
    ∃ m w' c', load_matrix sample_env (start "2 3\n1 2 9\n4 5 6\n3 2\n") { rows := 0, cols := 0 }
        = .ret m (w', c') ∧ c'.rows = 2 ∧ c'.cols = 3 ∧
      Matrix.read m 1 2 = some 6 := by
  obtain ⟨m, w', c', h1, h2, h3, h4⟩ := load_matrix_row_major sample_env
    (start "2 3\n1 2 9\n4 5 6\n3 2\n") { rows := 0, cols := 0 } 2 3
    "\n1 2 9\n4 5 6\n3 2\n".toList "\n".toList 8 [1, 2, 9, 4, 5, 6, 3, 2]
    [[-1431655766, -1431655766, -1431655766], [-1431655766, -1431655766, -1431655766]]
    { input := "2 3\n1 2 9\n4 5 6\n3 2\n".toList, stdout := "", stderr := "",
      mallocs := [16, 12, 12] }
    (by decide) (by decide) (by decide) (by decide)
  obtain ⟨v, hv1, hv2⟩ := h4 1 2 (by decide) (by decide)
  have : v = 6 := by
    have e : (([1, 2, 9, 4, 5, 6, 3, 2] : List Int))[(((1 : Nat) : Int) * 3 + ((2 : Nat) : Int)).toNat]?
        = some 6 := by decide
    rw [e] at hv1
    exact (Option.some.inj hv1).symm
  exact ⟨m, w', c', h1, h2, h3, by rw [hv2, this]⟩

/-- C5 (defect of the code): in the input "1 1\n5x 1 1 7" the first two tokens
are the dimensions 1 and 1 and the third token, `5x`, is not an integer token,
so the input does not begin with 2 + 1*1 integer tokens.  Yet `load_matrix`
returns the matrix [[5]] and leaves the cursor at `x`, inside the token `5x`:
the `%d` conversion stops at the first character that is not a digit and
nothing examines what follows.  A second `load_matrix`, started there, does
not take its dimensions from the next two tokens, `1` and `1`: it fails at `x`
with the message for the dimensions.  The documentation of `load_matrix`
asks for "no illegal characters, only numbers" and says the validity of the
data is checked. -/
theorem load_matrix_cursor_inside_token :
    tokens "1 1\n5x 1 1 7".toList
      = ["1".toList, "1".toList, "5x".toList, "1".toList, "1".toList, "7".toList] ∧
    int_tokens 2 "1 1\n5x 1 1 7".toList = some ([1, 1], "\n5x 1 1 7".toList) ∧
    next_token "\n5x 1 1 7".toList = ("5x".toList, " 1 1 7".toList) ∧
    int_token "5x".toList = none ∧
    int_tokens 3 "1 1\n5x 1 1 7".toList = none ∧
    load_matrix sample_env (start "1 1\n5x 1 1 7") { rows := 0, cols := 0 }
      = .ret [[5]]
          ({ input := "x 1 1 7".toList, stdout := "", stderr := "", mallocs := [8, 4] },
            { rows := 1, cols := 1 }) ∧
    load_matrix sample_env
        { input := "x 1 1 7".toList, stdout := "", stderr := "", mallocs := [8, 4] }
        { rows := 0, cols := 0 }
      = .exit 1
          ({ input := "x 1 1 7".toList, stdout := "",
             stderr := "Failed to read matrix dimensions\n", mallocs := [8, 4] },
            { rows := 0, cols := 0 }) := by
  decide

/-- The cursor over well-formed input.  On a platform where no request of more
than `PTRDIFF_MAX` bytes is granted, a `load_matrix` that returns having read
the dimensions r and c has performed exactly 2 + r*c successful `%d`
conversions and leaves the cursor where the last of them stopped, and the
matrix it returns is the row-major arrangement of the r*c values.  Over a
stream that holds the whitespace-delimited integer tokens of A followed by
those of B, when both allocations succeed, the first call returns A and leaves
the cursor right after the last token of A, and the second call, started
there, returns B and leaves the cursor right after the last token of B. -/
theorem load_matrix_cursor (env : Env)
    (hreal : ∀ n size, env.malloc_ok n size = true → size ≤ PTRDIFF_MAX)
    (w : World) (c1 c2 : Cells) :
    (∀ m w' cs, load_matrix env w c1 = .ret m (w', cs) →
      0 ≤ cs.rows * cs.cols ∧
      ∃ vs, scan_ints (2 + (cs.rows * cs.cols).toNat) w.input
          = some (cs.rows :: cs.cols :: vs, w'.input) ∧
        m = from_row_major cs.rows.toNat cs.cols.toNat vs) ∧
    (∀ (rA cA : Int) (vsA : List Int) (sA : List Char) (rB cB : Int) (vsB : List Int)
        (sB : List Char) (mA : Matrix) (wA : World) (mB : Matrix) (wB : World),
      int_tokens (2 + (rA * cA).toNat) w.input = some (rA :: cA :: vsA, sA) →
      int_tokens (2 + (rB * cB).toNat) sA = some (rB :: cB :: vsB, sB) →
      allocate_matrix env w rA cA = .ret mA wA →
      allocate_matrix env wA rB cB = .ret mB wB →
      load_matrix env w c1
        = .ret (from_row_major rA.toNat cA.toNat vsA)
            ({ wA with input := sA }, { rows := rA, cols := cA }) ∧
      load_matrix env { wA with input := sA } c2
        = .ret (from_row_major rB.toNat cB.toNat vsB)
            ({ wB with input := sB }, { rows := rB, cols := cB })) := by
  refine ⟨fun m w' cs h => load_matrix_ret_inv env hreal w c1 m w' cs h, ?_⟩
  intro rA cA vsA sA rB cB vsB sB mA wA mB wB hA hB hallocA hallocB
  have step : ∀ (w0 : World) (c : Cells) (r cc : Int) (vs : List Int) (s : List Char)
      (m0 : Matrix) (w1 : World),
      scan_ints (2 + (r * cc).toNat) w0.input = some (r :: cc :: vs, s) →
      allocate_matrix env w0 r cc = .ret m0 w1 →
      load_matrix env w0 c
        = .ret (from_row_major r.toNat cc.toNat vs)
            ({ w1 with input := s }, { rows := r, cols := cc }) := by
    intro w0 c r cc vs s m0 w1 ht halloc
    obtain ⟨us, ws, s1, g1, g2, g3⟩ := scan_ints_split 2 _ _ _ _ ht
    obtain ⟨r', cc', _, _, _, rfl, hr, hc⟩ := scan_ints_two g1
    simp only [List.cons_append, List.nil_append, List.cons.injEq] at g3
    obtain ⟨rfl, rfl, rfl⟩ := g3
    obtain ⟨hr0, hc0⟩ := dims_of_allocated hreal hr hc halloc
    obtain ⟨_, hmul⟩ := toNat_mul_of_nonneg hr0 hc0
    rw [hmul] at g2
    exact load_matrix_eq env w0 c _ _ s1 s _ m0 { w1 with input := s1 } g1 g2
      (allocate_matrix_with_input halloc s1)
  exact ⟨step w c1 rA cA vsA sA mA wA (scan_ints_of_int_tokens _ _ _ _ hA) hallocA,
    step { wA with input := sA } c2 rB cB vsB sB mB { wB with input := sA }
      (scan_ints_of_int_tokens _ _ _ _ hB) (allocate_matrix_with_input hallocB sA)⟩

theorem load_matrix_cursor_witness :
    load_matrix sample_env (start "2 3\n1 2 9\n4 5 6\n3 2\n7 8\n9 10\n11 12\n")
        { rows := 0, cols := 0 }
      = .ret [[1, 2, 9], [4, 5, 6]]
          ({ input := "\n3 2\n7 8\n9 10\n11 12\n".toList, stdout := "", stderr := "",
             mallocs := [16, 12, 12] }, { rows := 2, cols := 3 }) ∧
    load_matrix sample_env
        { input := "\n3 2\n7 8\n9 10\n11 12\n".toList, stdout := "", stderr := "",
          mallocs := [16, 12, 12] } { rows := 0, cols := 0 }
      = .ret [[7, 8], [9, 10], [11, 12]]
          ({ input := "\n".toList, stdout := "", stderr := "",
             mallocs := [16, 12, 12, 24, 8, 8, 8] }, { rows := 3, cols := 2 }) :=
  (load_matrix_cursor sample_env sample_env_real
      (start "2 3\n1 2 9\n4 5 6\n3 2\n7 8\n9 10\n11 12\n")
      { rows := 0, cols := 0 } { rows := 0, cols := 0 }).2
    2 3 [1, 2, 9, 4, 5, 6] "\n3 2\n7 8\n9 10\n11 12\n".toList
    3 2 [7, 8, 9, 10, 11, 12] "\n".toList
    [[-1431655766, -1431655766, -1431655766], [-1431655766, -1431655766, -1431655766]]
    { input := "2 3\n1 2 9\n4 5 6\n3 2\n7 8\n9 10\n11 12\n".toList, stdout := "", stderr := "",
      mallocs := [16, 12, 12] }
    [[-1431655766, -1431655766], [-1431655766, -1431655766], [-1431655766, -1431655766]]
    { input := "2 3\n1 2 9\n4 5 6\n3 2\n7 8\n9 10\n11 12\n".toList, stdout := "", stderr := "",
      mallocs := [16, 12, 12, 24, 8, 8, 8] }
    (by decide) (by decide) (by decide) (by decide)

/-- C6 (defect of the code): in the input "2 2" followed by "1 2 3 4x" the
fourth value token, `4x`, is not an integer token, yet `load_matrix` returns the
matrix [[1,2],[3,4]] and leaves `x` unread: the `%d` conversion stops at the
first character that is not a digit and nothing examines what follows.  The
documentation of `load_matrix` asks for "no illegal characters, only numbers"
and says the validity of the data is checked; and where the illegal character
comes first in the token, as in "2 2" followed by "1 2 3 x4", the call does
fail with the message for the values. -/
theorem load_matrix_accepts_digits_then_garbage :
    int_tokens 2 "2 2\n1 2 3 4x".toList = some ([2, 2], "\n1 2 3 4x".toList) ∧
    int_tokens 3 "\n1 2 3 4x".toList = some ([1, 2, 3], " 4x".toList) ∧
    (next_token " 4x".toList).1 = "4x".toList ∧
    int_token "4x".toList = none ∧
    int_tokens 4 "\n1 2 3 4x".toList = none ∧
    load_matrix sample_env (start "2 2\n1 2 3 4x") { rows := 0, cols := 0 }
      = .ret [[1, 2], [3, 4]]
          ({ input := "x".toList, stdout := "", stderr := "", mallocs := [16, 8, 8] },
            { rows := 2, cols := 2 }) ∧
    load_matrix sample_env (start "2 2\n1 2 3 x4") { rows := 0, cols := 0 }
      = .exit 1
          ({ input := "x4".toList, stdout := "", stderr := "Failed to read matrix values\n",
             mallocs := [16, 8, 8] }, { rows := 2, cols := 2 }) := by
  decide

/-- The values error.  On a platform where no request of more than `PTRDIFF_MAX`
bytes is granted, when the dimensions r and c have been read and the matrix has
been allocated, but the input does not continue with r*c integers as successive
`%d` conversions read them (the input ends before r*c values were read, or the
text where one of them is expected does not begin with an integer), the call of
`load_matrix` stops the process with `EXIT_FAILURE` after writing
"Failed to read matrix values" to standard error; it returns no matrix. -/
theorem load_matrix_values_error (env : Env)
    (hreal : ∀ n size, env.malloc_ok n size = true → size ≤ PTRDIFF_MAX)
    (w : World) (c : Cells) (r cc : Int) (s1 : List Char) (m0 : Matrix) (w1 : World)
    (hdim : scan_ints 2 w.input = some ([r, cc], s1))
    (hfew : scan_ints (r * cc).toNat s1 = none)
    (halloc : allocate_matrix env w r cc = .ret m0 w1) :
    ∃ w', load_matrix env w c = .exit EXIT_FAILURE (w', { rows := r, cols := cc }) ∧
      w'.stderr = w.stderr ++ "Failed to read matrix values\n" ∧
      w'.stdout = w.stdout ∧
      ∀ m s, load_matrix env w c ≠ .ret m s := by
  obtain ⟨hr, hc⟩ := scan_ints_two_in_int32 hdim
  obtain ⟨hr0, hc0⟩ := dims_of_allocated hreal hr hc halloc
  obtain ⟨_, hmul⟩ := toNat_mul_of_nonneg hr0 hc0
  rw [hmul] at hfew
  obtain ⟨w', g1, g2, g3, _⟩ := load_matrix_values_fail env w c r cc s1 m0
    { w1 with input := s1 } hdim hfew (allocate_matrix_with_input halloc s1)
  refine ⟨w', g1, g2, g3, fun m s hm => ?_⟩
  rw [g1] at hm
  simp at hm

theorem load_matrix_values_error_witness :
    (∃ w', load_matrix sample_env (start "2 2\n1 2 3") { rows := 0, cols := 0 }
        = .exit 1 (w', { rows := 2, cols := 2 }) ∧
      w'.stderr = "Failed to read matrix values\n" ∧ w'.stdout = "") ∧
    (∃ w', load_matrix sample_env (start "2 2\n1 2 x 4") { rows := 0, cols := 0 }
        = .exit 1 (w', { rows := 2, cols := 2 }) ∧
      w'.stderr = "Failed to read matrix values\n" ∧ w'.stdout = "") := by
  constructor
  · obtain ⟨w', h1, h2, h3, _⟩ := load_matrix_values_error sample_env sample_env_real
      (start "2 2\n1 2 3") { rows := 0, cols := 0 } 2 2 "\n1 2 3".toList
      [[-1431655766, -1431655766], [-1431655766, -1431655766]]
      { input := "2 2\n1 2 3".toList, stdout := "", stderr := "", mallocs := [16, 8, 8] }
      (by decide) (by decide) (by decide)
    exact ⟨w', h1, h2, h3⟩
  · obtain ⟨w', h1, h2, h3, _⟩ := load_matrix_values_error sample_env sample_env_real
      (start "2 2\n1 2 x 4") { rows := 0, cols := 0 } 2 2 "\n1 2 x 4".toList
      [[-1431655766, -1431655766], [-1431655766, -1431655766]]
      { input := "2 2\n1 2 x 4".toList, stdout := "", stderr := "", mallocs := [16, 8, 8] }
      (by decide) (by decide) (by decide)
    exact ⟨w', h1, h2, h3⟩

/-- C7 (defect of the code): in the input "2 3x" followed by six integers the
second token, `3x`, is not an integer token, yet `load_matrix` reads the
dimensions 2 and 3, allocates the matrix and only then fails, with the message
for a value, not the one for the dimensions: the `%d` conversion stops at the
first character that is not a digit and nothing examines what follows.  Where
the illegal character comes first in the token, as in "2 x3" followed by the
same integers, the call does fail with the message for the dimensions, without
any allocation. -/
theorem load_matrix_reads_dimension_before_garbage :
    (next_token "2 3x\n1 2 3 4 5 6".toList).1 = "2".toList ∧
    (next_token " 3x\n1 2 3 4 5 6".toList).1 = "3x".toList ∧
    int_token "3x".toList = none ∧
    int_tokens 2 "2 3x\n1 2 3 4 5 6".toList = none ∧
    load_matrix sample_env (start "2 3x\n1 2 3 4 5 6") { rows := 0, cols := 0 }
      = .exit 1
          ({ input := "x\n1 2 3 4 5 6".toList, stdout := "",
             stderr := "Failed to read matrix values\n", mallocs := [16, 12, 12] },
            { rows := 2, cols := 3 }) ∧
    load_matrix sample_env (start "2 x3\n1 2 3 4 5 6") { rows := 0, cols := 0 }
      = .exit 1
          ({ input := "x3\n1 2 3 4 5 6".toList, stdout := "",
             stderr := "Failed to read matrix dimensions\n", mallocs := [] },
            { rows := 2, cols := 0 }) := by
  decide

/-- The dimensions error.  When the input at the cursor does not begin with two
integers as the `%d` conversions read them (it is empty, holds a single integer,
or the text where the first or the second dimension is expected does not begin
with an integer), the call of `load_matrix` stops the process with `EXIT_FAILURE`
after writing "Failed to read matrix dimensions" to standard error, without
requesting any allocation and without returning a matrix; what it leaves on
standard error differs from what the failure to read a value leaves. -/
theorem load_matrix_dimensions_error (env : Env) (w : World) (c : Cells)
    (hdim : scan_ints 2 w.input = none) :
    ∃ w' c', load_matrix env w c = .exit EXIT_FAILURE (w', c') ∧
      w'.stderr = w.stderr ++ "Failed to read matrix dimensions\n" ∧
      w'.mallocs = w.mallocs ∧
      w'.stdout = w.stdout ∧
      w'.stderr ≠ w.stderr ++ "Failed to read matrix values\n" ∧
      ∀ m s, load_matrix env w c ≠ .ret m s := by
  obtain ⟨w', c', g1, g2, g3, g4⟩ := load_matrix_dims_fail env w c hdim
  refine ⟨w', c', g1, g2, g4, g3, ?_, fun m s hm => ?_⟩
  · rw [g2]
    intro e
    have e' := congrArg String.data e
    simp only [String.data_append] at e'
    have := List.append_cancel_left e'
    revert this
    decide
  · rw [g1] at hm
    simp at hm

theorem load_matrix_dimensions_error_witness :
    (∃ w' c', load_matrix sample_env (start "") { rows := 0, cols := 0 } = .exit 1 (w', c') ∧
      w'.stderr = "Failed to read matrix dimensions\n" ∧ w'.mallocs = []) ∧
    (∃ w' c', load_matrix sample_env (start "5\n") { rows := 0, cols := 0 } = .exit 1 (w', c') ∧
      w'.stderr = "Failed to read matrix dimensions\n" ∧ w'.mallocs = []) ∧
    (∃ w' c', load_matrix sample_env (start "2 x\n1 2") { rows := 0, cols := 0 }
        = .exit 1 (w', c') ∧
      w'.stderr = "Failed to read matrix dimensions\n" ∧ w'.mallocs = []) := by
  refine ⟨?_, ?_, ?_⟩
  · obtain ⟨w', c', h1, h2, h3, _⟩ := load_matrix_dimensions_error sample_env (start "")
      { rows := 0, cols := 0 } (by decide)
    exact ⟨w', c', h1, h2, h3⟩
  · obtain ⟨w', c', h1, h2, h3, _⟩ := load_matrix_dimensions_error sample_env (start "5\n")
      { rows := 0, cols := 0 } (by decide)
    exact ⟨w', c', h1, h2, h3⟩
  · obtain ⟨w', c', h1, h2, h3, _⟩ := load_matrix_dimensions_error sample_env (start "2 x\n1 2")
      { rows := 0, cols := 0 } (by decide)
    exact ⟨w', c', h1, h2, h3⟩

/-! ## The documented example -/

/-- C8 (as stated, refuted): on the example input, with matrix A, then matrix B
loaded from the same stream, `multiply_matrices` returns [[124,136],[139,154]],
which is not the matrix [[124,146],[139,164]] of the claim. -/
theorem sample_input_result_not_as_claimed :
    load_matrix sample_env (start "2 3\n1 2 9\n4 5 6\n3 2\n7 8\n9 10\n11 12\n")
        { rows := 0, cols := 0 }
      = .ret [[1, 2, 9], [4, 5, 6]]
          ({ input := "\n3 2\n7 8\n9 10\n11 12\n".toList, stdout := "", stderr := "",
             mallocs := [16, 12, 12] }, { rows := 2, cols := 3 }) ∧
    load_matrix sample_env
        { input := "\n3 2\n7 8\n9 10\n11 12\n".toList, stdout := "", stderr := "",
          mallocs := [16, 12, 12] } { rows := 0, cols := 0 }
      = .ret [[7, 8], [9, 10], [11, 12]]
          ({ input := "\n".toList, stdout := "", stderr := "",
             mallocs := [16, 12, 12, 24, 8, 8, 8] }, { rows := 3, cols := 2 }) ∧
    multiply_matrices sample_env
        { input := "\n".toList, stdout := "", stderr := "",
          mallocs := [16, 12, 12, 24, 8, 8, 8] } { rows := 0, cols := 0 }
        [[1, 2, 9], [4, 5, 6]] 2 3 [[7, 8], [9, 10], [11, 12]] 3 2
      = .ret [[124, 136], [139, 154]]
          ({ input := "\n".toList, stdout := "", stderr := "",
             mallocs := [16, 12, 12, 24, 8, 8, 8, 16, 8, 8] }, { rows := 2, cols := 2 }) ∧
    ([[124, 136], [139, 154]] : Matrix) ≠ [[124, 146], [139, 164]] := by
  decide

/-- C8 (amended): on the example input, whatever the allocator hands out as long
as it grants every request of at most `PTRDIFF_MAX` bytes, loading matrix A,
then matrix B from the same stream, then multiplying them yields
A = [[1,2,9],[4,5,6]], B = [[7,8],[9,10],[11,12]] and
result = [[124,136],[139,154]]. -/
theorem sample_input_result (env : Env)
    (hok : ∀ n size, size ≤ PTRDIFF_MAX → env.malloc_ok n size = true)
    (w : World) (hin : w.input = "2 3\n1 2 9\n4 5 6\n3 2\n7 8\n9 10\n11 12\n".toList)
    (c1 c2 c3 : Cells) :
    ∃ wA wB wR,
      load_matrix env w c1 = .ret [[1, 2, 9], [4, 5, 6]] (wA, { rows := 2, cols := 3 }) ∧
      load_matrix env wA c2 = .ret [[7, 8], [9, 10], [11, 12]] (wB, { rows := 3, cols := 2 }) ∧
      multiply_matrices env wB c3 [[1, 2, 9], [4, 5, 6]] 2 3 [[7, 8], [9, 10], [11, 12]] 3 2
        = .ret [[124, 136], [139, 154]] (wR, { rows := 2, cols := 2 }) := by
  obtain ⟨mA, wA, hallocA⟩ := allocate_matrix_granted env
    { w with input := "\n1 2 9\n4 5 6\n3 2\n7 8\n9 10\n11 12\n".toList } 2 3
    (hok _ _ (by decide)) (fun _ _ => hok _ _ (by decide))
  have hA := load_matrix_eq env w c1 2 3 _ "\n3 2\n7 8\n9 10\n11 12\n".toList
    [1, 2, 9, 4, 5, 6] mA wA (by rw [hin]; decide) (by decide) hallocA
  obtain ⟨mB, wB, hallocB⟩ := allocate_matrix_granted env
    { wA with input := "\n7 8\n9 10\n11 12\n".toList } 3 2
    (hok _ _ (by decide)) (fun _ _ => hok _ _ (by decide))
  have hB := load_matrix_eq env { wA with input := "\n3 2\n7 8\n9 10\n11 12\n".toList } c2 3 2 _
    "\n".toList [7, 8, 9, 10, 11, 12] mB wB
    (by show scan_ints 2 "\n3 2\n7 8\n9 10\n11 12\n".toList = _; decide) (by decide) hallocB
  obtain ⟨mR, wR, hallocR⟩ := allocate_matrix_granted env
    { wB with input := "\n".toList } 2 2
    (hok _ _ (by decide)) (fun _ _ => hok _ _ (by decide))
  have hR := multiply_matrices_eq env { wB with input := "\n".toList } c3
    [[1, 2, 9], [4, 5, 6]] 2 3 [[7, 8], [9, 10], [11, 12]] 3 2 mR wR
    (by decide) (by decide) rfl hallocR
  exact ⟨_, _, _, hA, hB, hR⟩

theorem sample_input_result_witness :
    ∃ wA wB wR,
      load_matrix sample_env (start "2 3\n1 2 9\n4 5 6\n3 2\n7 8\n9 10\n11 12\n")
          { rows := 0, cols := 0 }
        = .ret [[1, 2, 9], [4, 5, 6]] (wA, { rows := 2, cols := 3 }) ∧
      load_matrix sample_env wA { rows := 0, cols := 0 }
        = .ret [[7, 8], [9, 10], [11, 12]] (wB, { rows := 3, cols := 2 }) ∧
      multiply_matrices sample_env wB { rows := 0, cols := 0 }
          [[1, 2, 9], [4, 5, 6]] 2 3 [[7, 8], [9, 10], [11, 12]] 3 2
        = .ret [[124, 136], [139, 154]] (wR, { rows := 2, cols := 2 }) :=
  sample_input_result sample_env (fun _ _ h => decide_eq_true h)
    (start "2 3\n1 2 9\n4 5 6\n3 2\n7 8\n9 10\n11 12\n") rfl
    { rows := 0, cols := 0 } { rows := 0, cols := 0 } { rows := 0, cols := 0 }

/-! ## Claims on `multiply_matrices`: identity and wraparound -/

/-- C9: for every m×n matrix A whose elements are `int` values and the n×n
identity matrix I, when the allocation of the result succeeds,
`multiply_matrices(A, I)` returns a matrix of shape (m, n) in which every cell
(i, j) equals A[i][j] (so the result equals A), and no product and no partial
sum of the computation overflows. -/
theorem multiply_matrices_identity (env : Env) (w : World) (c : Cells)
    (a : Matrix) (a_rows a_cols : Int) (r0 : Matrix) (w1 : World)
    (ha : has_shape a a_rows a_cols)
    (hel : ∀ row ∈ a, ∀ x ∈ row, in_int32 x)
    (halloc : allocate_matrix env w a_rows a_cols = .ret r0 w1) :
    ∃ r, multiply_matrices env w c a a_rows a_cols (identity a_cols.toNat) a_cols a_cols
          = .ret r (w1, { rows := a_rows, cols := a_cols }) ∧
      has_shape r a_rows a_cols ∧
      (∀ i j : Nat, (i : Int) < a_rows → (j : Int) < a_cols →
        Matrix.read r i j = Matrix.read a i j ∧
        no_overflow a (identity a_cols.toNat) i j a_cols.toNat) ∧
      r = a := by
  have hc : 0 ≤ a_cols := ha.2.1
  have hI : has_shape (identity a_cols.toNat) a_cols a_cols :=
    has_shape_of_shaped hc hc (shaped_identity _)
  obtain ⟨r, h1, h2, h3⟩ := multiply_matrices_ok env w c a a_rows a_cols
    (identity a_cols.toNat) a_cols a_cols r0 w1 ha hI rfl halloc
  have hsa := shaped_of_has_shape ha
  have hcell : ∀ i j : Nat, (i : Int) < a_rows → (j : Int) < a_cols →
      Matrix.read r i j = Matrix.read a i j := by
    intro i j hi hj
    have hj' : j < a_cols.toNat := by omega
    obtain ⟨x, hx⟩ := read_of_shaped hsa (by omega : i < a_rows.toNat) hj'
    rw [h3 i j hi hj, acc32_zero, dot_identity a i j _ hj' _ (le_refl _), hx]
    simp only [hj', if_true]
    rw [elem_of_read hx]
    have := elem_in_int32 hel i j
    rw [elem_of_read hx] at this
    rw [wrap32_of_in_int32 this]
  refine ⟨r, h1, h2, fun i j hi hj => ⟨hcell i j hi hj, ?_⟩, ?_⟩
  · exact no_overflow_identity hel i j _ (by omega)
  · exact matrix_ext (shaped_of_has_shape h2) hsa
      (fun i j hi hj => hcell i j (by omega) (by omega))

theorem multiply_matrices_identity_witness :
    ∃ r, multiply_matrices sample_env (start "") { rows := 0, cols := 0 }
          [[2147483647, -2147483648, 3], [4, -5, 6]] 2 3 (identity 3) 3 3
          = .ret r ({ input := [], stdout := "", stderr := "", mallocs := [16, 12, 12] },
              { rows := 2, cols := 3 }) ∧
      r = [[2147483647, -2147483648, 3], [4, -5, 6]] := by
  obtain ⟨r, h1, _, _, h4⟩ := multiply_matrices_identity sample_env (start "")
    { rows := 0, cols := 0 } [[2147483647, -2147483648, 3], [4, -5, 6]] 2 3
    [[-1431655766, -1431655766, -1431655766], [-1431655766, -1431655766, -1431655766]]
    { input := [], stdout := "", stderr := "", mallocs := [16, 12, 12] }
    (by decide) (by decide) (by decide)
  exact ⟨r, h1, h4⟩

/-- C10: for operands of matching shapes, when the allocation of the result
succeeds, every cell (i, j) of the matrix `multiply_matrices` returns is an
`int` value congruent modulo 2^32 to the exact unbounded-integer sum over k of
a[i][k] * b[k][j] (the wraparound of every single multiplication and addition
amounts to wrapping the exact sum once), so it equals the exact sum whenever
that sum is an `int` value. -/
theorem multiply_matrices_cell_wraps (env : Env) (w : World) (c : Cells)
    (a : Matrix) (a_rows a_cols : Int) (b : Matrix) (b_rows b_cols : Int)
    (r0 : Matrix) (w1 : World)
    (ha : has_shape a a_rows a_cols) (hb : has_shape b b_rows b_cols) (h : a_cols = b_rows)
    (halloc : allocate_matrix env w a_rows b_cols = .ret r0 w1) :
    ∃ r, multiply_matrices env w c a a_rows a_cols b b_rows b_cols
          = .ret r (w1, { rows := a_rows, cols := b_cols }) ∧
      ∀ i j : Nat, (i : Int) < a_rows → (j : Int) < b_cols →
        ∃ v, Matrix.read r i j = some v ∧
          v = acc32 a b i j a_cols.toNat 0 0 ∧
          v = wrap32 (dot a b i j a_cols.toNat) ∧
          in_int32 v ∧
          (v - dot a b i j a_cols.toNat) % 4294967296 = 0 ∧
          (in_int32 (dot a b i j a_cols.toNat) → v = dot a b i j a_cols.toNat) := by
  obtain ⟨r, h1, _, h3⟩ := multiply_matrices_ok env w c a a_rows a_cols b b_rows b_cols r0 w1
    ha hb h halloc
  refine ⟨r, h1, fun i j hi hj => ⟨_, h3 i j hi hj, rfl, acc32_zero _ _ _ _ _, ?_, ?_, ?_⟩⟩
  · rw [acc32_zero]; exact in_int32_wrap32 _
  · rw [acc32_zero]; unfold wrap32; omega
  · intro hfit
    rw [acc32_zero, wrap32_of_in_int32 hfit]

theorem multiply_matrices_cell_wraps_witness :
    ∃ r, multiply_matrices sample_env (start "") { rows := 0, cols := 0 }
          [[65536, 65536]] 1 2 [[65536], [-65535]] 2 1
          = .ret r ({ input := [], stdout := "", stderr := "", mallocs := [8, 4] },
              { rows := 1, cols := 1 }) ∧
      Matrix.read r 0 0 = some 65536 := by
  obtain ⟨r, h1, h2⟩ := multiply_matrices_cell_wraps sample_env (start "")
    { rows := 0, cols := 0 } [[65536, 65536]] 1 2 [[65536], [-65535]] 2 1
    [[-1431655766]] { input := [], stdout := "", stderr := "", mallocs := [8, 4] }
    (by decide) (by decide) rfl (by decide)
  obtain ⟨v, hv, _, _, _, _, hfit⟩ := h2 0 0 (by decide) (by decide)
  exact ⟨r, h1, by rw [hv, hfit (by decide)]; decide⟩

/-! ## `multiply_matrices`: accesses and fresh storage -/

theorem multiply_matrices_of_reads (env : Env) (w : World) (c : Cells)
    (a : Matrix) (a_rows a_cols : Int) (b : Matrix) (b_rows b_cols : Int)
    (r0 : Matrix) (w1 : World)
    (hra : ∀ s k, s < a_rows.toNat → k < a_cols.toNat → ∃ p, Matrix.read a s k = some p)
    (hrb : ∀ k t, k < a_cols.toNat → t < b_cols.toNat → ∃ q, Matrix.read b k t = some q)
    (h : a_cols = b_rows)
    (halloc : allocate_matrix env w a_rows b_cols = .ret r0 w1) :
    mul_i a b a_cols b_cols a_rows.toNat 0 r0
        = some (product32 a b a_rows.toNat b_cols.toNat a_cols.toNat) ∧
      multiply_matrices env w c a a_rows a_cols b b_rows b_cols
        = .ret (product32 a b a_rows.toNat b_cols.toNat a_cols.toNat)
            (w1, { rows := a_rows, cols := b_cols }) := by
  have hs0 := (allocate_matrix_ret halloc).1
  have hra' : ∀ s k, s < a_rows.toNat → k < a_cols.toNat →
      ∃ p, Matrix.read a (0 + s) k = some p := by
    intro s k hs hk
    simpa using hra s k hs hk
  obtain ⟨r, g1, g2, g3, _⟩ :=
    mul_i_spec a b a_cols b_cols a_rows.toNat a_rows.toNat 0 r0 hs0 (by omega) hra' hrb
  have hr : r = product32 a b a_rows.toNat b_cols.toNat a_cols.toNat := by
    apply matrix_ext g2 (shaped_product32 _ _ _ _ _)
    intro i j hi hj
    rw [read_product32 a b _ hi hj]
    simpa using g3 i j hi hj
  subst hr
  refine ⟨g1, ?_⟩
  simp only [multiply_matrices, h, ne_eq, not_true_eq_false, if_false]
  rw [← h, halloc]
  simp only [g1]

theorem multiply_matrices_shaped (env : Env) (w : World) (c : Cells)
    (a : Matrix) (a_rows a_cols : Int) (b : Matrix) (b_rows b_cols : Int)
    (r0 : Matrix) (w1 : World)
    (ha : shaped a a_rows.toNat a_cols.toNat) (hb : shaped b b_rows.toNat b_cols.toNat)
    (h : a_cols = b_rows)
    (halloc : allocate_matrix env w a_rows b_cols = .ret r0 w1) :
    multiply_matrices env w c a a_rows a_cols b b_rows b_cols
      = .ret (product32 a b a_rows.toNat b_cols.toNat a_cols.toNat)
          (w1, { rows := a_rows, cols := b_cols }) := by
  refine (multiply_matrices_of_reads env w c a a_rows a_cols b b_rows b_cols r0 w1
    (fun s k hs hk => read_of_shaped ha hs hk)
    (fun k t hk ht => read_of_shaped hb (by rw [← h]; exact hk) ht) h halloc).2

theorem product32_zero (a b : Matrix) (R C : Nat) :
    product32 a b R C 0 = List.replicate R (List.replicate C 0) := by
  simp [product32, acc32, List.map_const']

theorem shaped_replicate (R C : Nat) (x : Int) :
    shaped (List.replicate R (List.replicate C x)) R C := by
  refine ⟨by simp, fun row hrow => ?_⟩
  rw [List.eq_of_mem_replicate hrow]
  simp

theorem allocate_rows_init (env : Env) (init : Nat → Nat → Int) (cols : Int) :
    ∀ (n : Nat) (m m' : Matrix) (w : World),
      (∃ x y w1, allocate_rows env cols n m w = .ret x w1 ∧
          allocate_rows { env with malloc_init := init } cols n m' w = .ret y w1) ∨
      (∃ code w1, allocate_rows env cols n m w = .exit code w1 ∧
          allocate_rows { env with malloc_init := init } cols n m' w = .exit code w1) := by
  intro n
  induction n with
  | zero => intro m m' w; exact Or.inl ⟨m, m', w, rfl, rfl⟩
  | succ n ih =>
    intro m m' w
    by_cases hok : env.malloc_ok w.mallocs.length (size_mul cols sizeof_int) = true
    · have h1 := @malloc_of_ok env w _ hok
      have h2 : malloc { env with malloc_init := init } w (size_mul cols sizeof_int)
          = (some w.mallocs.length,
              { w with mallocs := w.mallocs ++ [size_mul cols sizeof_int] }) :=
        @malloc_of_ok { env with malloc_init := init } w _ hok
      simp only [allocate_rows, h1, h2]
      exact ih _ _ _
    · right
      have h1 : malloc env w (size_mul cols sizeof_int)
          = (none, { w with mallocs := w.mallocs ++ [size_mul cols sizeof_int] }) := by
        simp [malloc, hok]
      have h2 : malloc { env with malloc_init := init } w (size_mul cols sizeof_int)
          = (none, { w with mallocs := w.mallocs ++ [size_mul cols sizeof_int] }) := by
        simp [malloc, hok]
      refine ⟨EXIT_FAILURE,
        perror env { w with mallocs := w.mallocs ++ [size_mul cols sizeof_int] }
          "Failed to allocate memory for matrix columns", ?_, ?_⟩
      · simp only [allocate_rows, h1]
      · simp only [allocate_rows, h2]
        rfl

theorem allocate_matrix_init (env : Env) (init : Nat → Nat → Int) (w : World)
    (rows cols : Int) :
    (∃ x y w1, allocate_matrix env w rows cols = .ret x w1 ∧
        allocate_matrix { env with malloc_init := init } w rows cols = .ret y w1) ∨
    (∃ code w1, allocate_matrix env w rows cols = .exit code w1 ∧
        allocate_matrix { env with malloc_init := init } w rows cols = .exit code w1) := by
  by_cases hok : env.malloc_ok w.mallocs.length (size_mul rows sizeof_ptr) = true
  · have h1 := @malloc_of_ok env w _ hok
    have h2 : malloc { env with malloc_init := init } w (size_mul rows sizeof_ptr)
        = (some w.mallocs.length,
            { w with mallocs := w.mallocs ++ [size_mul rows sizeof_ptr] }) :=
      @malloc_of_ok { env with malloc_init := init } w _ hok
    simp only [allocate_matrix, h1, h2]
    exact allocate_rows_init env init cols _ _ _ _
  · right
    have h1 : malloc env w (size_mul rows sizeof_ptr)
        = (none, { w with mallocs := w.mallocs ++ [size_mul rows sizeof_ptr] }) := by
      simp [malloc, hok]
    have h2 : malloc { env with malloc_init := init } w (size_mul rows sizeof_ptr)
        = (none, { w with mallocs := w.mallocs ++ [size_mul rows sizeof_ptr] }) := by
      simp [malloc, hok]
    refine ⟨EXIT_FAILURE,
      perror env { w with mallocs := w.mallocs ++ [size_mul rows sizeof_ptr] }
        "Failed to allocate memory for matrix rows", ?_, ?_⟩
    · simp only [allocate_matrix, h1]
    · simp only [allocate_matrix, h2]
      rfl

/-! ## `load_matrix`: what every outcome keeps -/

theorem allocate_rows_mallocs (env : Env) (cols : Int) :
    ∀ (n : Nat) (m : Matrix) (w : World) (s : World),
      final_state (allocate_rows env cols n m w) = some s →
      ∃ tail, s.mallocs = w.mallocs ++ tail := by
  intro n
  induction n with
  | zero =>
    intro m w s h
    simp only [allocate_rows, final_state, Option.some.injEq] at h
    subst h
    exact ⟨[], by simp⟩
  | succ n ih =>
    intro m w s h
    unfold allocate_rows at h
    rcases hm : malloc env w (size_mul cols sizeof_int) with ⟨o, w1⟩
    cases o with
    | none =>
      simp only [hm, final_state, Option.some.injEq] at h
      subst h
      rw [malloc_none hm]
      exact ⟨[size_mul cols sizeof_int], rfl⟩
    | some block =>
      simp only [hm] at h
      obtain ⟨rfl, _⟩ := malloc_some hm
      obtain ⟨tail, ht⟩ := ih _ _ s h
      exact ⟨size_mul cols sizeof_int :: tail, by rw [ht]; simp⟩

theorem allocate_matrix_mallocs (env : Env) (w : World) (rows cols : Int) (s : World)
    (h : final_state (allocate_matrix env w rows cols) = some s) :
    ∃ tail, s.mallocs = w.mallocs ++ size_mul rows sizeof_ptr :: tail := by
  unfold allocate_matrix at h
  rcases hm : malloc env w (size_mul rows sizeof_ptr) with ⟨o, w1⟩
  cases o with
  | none =>
    simp only [hm, final_state, Option.some.injEq] at h
    subst h
    rw [malloc_none hm]
    exact ⟨[], rfl⟩
  | some block =>
    simp only [hm] at h
    obtain ⟨rfl, _⟩ := malloc_some hm
    obtain ⟨tail, ht⟩ := allocate_rows_mallocs env cols _ _ _ s h
    exact ⟨tail, by rw [ht]; simp⟩

theorem load_matrix_cases (env : Env) (w : World) (c : Cells) (r cc : Int) (s1 : List Char)
    (hdim : scan_ints 2 w.input = some ([r, cc], s1)) :
    (∃ code w1, allocate_matrix env { w with input := s1 } r cc = .exit code w1 ∧
        load_matrix env w c = .exit code (w1, { rows := r, cols := cc })) ∨
    (∃ m0 w1 vs s2, allocate_matrix env { w with input := s1 } r cc = .ret m0 w1 ∧
        scan_ints (r.toNat * cc.toNat) s1 = some (vs, s2) ∧
        load_matrix env w c
          = .ret (from_row_major r.toNat cc.toNat vs)
              ({ w1 with input := s2 }, { rows := r, cols := cc })) ∨
    (∃ m0 w1 w', allocate_matrix env { w with input := s1 } r cc = .ret m0 w1 ∧
        scan_ints (r.toNat * cc.toNat) s1 = none ∧
        load_matrix env w c = .exit EXIT_FAILURE (w', { rows := r, cols := cc }) ∧
        w'.stderr = w.stderr ++ "Failed to read matrix values\n" ∧
        w'.stdout = w.stdout ∧ w'.mallocs = w1.mallocs) := by
  cases halloc : allocate_matrix env { w with input := s1 } r cc with
  | undefined => exact absurd halloc (allocate_matrix_ne_undefined _ _ _ _)
  | exit code w1 =>
    left
    exact ⟨code, w1, rfl, by simp [load_matrix, fscanf_d_d_of_scan_ints c hdim, halloc]⟩
  | ret m0 w1 =>
    right
    cases hval : scan_ints (r.toNat * cc.toNat) s1 with
    | none =>
      right
      obtain ⟨w', g1, g2, g3, g4⟩ :=
        load_matrix_values_fail env w c r cc s1 m0 w1 hdim hval halloc
      exact ⟨m0, w1, w', rfl, rfl, g1, g2, g3, g4⟩
    | some q =>
      left
      obtain ⟨vs, s2⟩ := q
      exact ⟨m0, w1, vs, s2, rfl, rfl,
        load_matrix_eq env w c r cc s1 s2 vs m0 w1 hdim hval halloc⟩

theorem load_matrix_ne_undefined (env : Env) (w : World) (c : Cells) :
    load_matrix env w c ≠ .undefined := by
  cases hdim : scan_ints 2 w.input with
  | none =>
    obtain ⟨w', c', g, _⟩ := load_matrix_dims_fail env w c hdim
    rw [g]; simp
  | some p =>
    obtain ⟨us, s1⟩ := p
    obtain ⟨r, cc, _, _, _, rfl, _, _⟩ := scan_ints_two hdim
    rcases load_matrix_cases env w c r cc s1 hdim with
      ⟨_, _, _, g⟩ | ⟨_, _, _, _, _, _, g⟩ | ⟨_, _, _, _, _, g, _⟩ <;> rw [g] <;> simp

theorem load_matrix_ret_shape (env : Env) (w : World) (c : Cells) (m : Matrix) (w' : World)
    (cs : Cells) (h : load_matrix env w c = .ret m (w', cs)) :
    shaped m cs.rows.toNat cs.cols.toNat ∧ w'.stdout = w.stdout ∧ w'.stderr = w.stderr := by
  cases hdim : scan_ints 2 w.input with
  | none =>
    obtain ⟨w2, c2, g, _⟩ := load_matrix_dims_fail env w c hdim
    rw [g] at h
    simp at h
  | some p =>
    obtain ⟨us, s1⟩ := p
    obtain ⟨r, cc, _, _, _, rfl, _, _⟩ := scan_ints_two hdim
    rcases load_matrix_cases env w c r cc s1 hdim with
      ⟨_, _, _, g⟩ | ⟨m0, w1, vs, s2, halloc, _, g⟩ | ⟨_, _, _, _, _, g, _⟩
    · rw [g] at h; simp at h
    · rw [g] at h
      simp only [Outcome.ret.injEq, Prod.mk.injEq] at h
      obtain ⟨rfl, rfl, rfl⟩ := h
      obtain ⟨_, _, g3, g4, _⟩ := allocate_matrix_ret halloc
      exact ⟨shaped_from_row_major _ _ _, g3, g4⟩
    · rw [g] at h; simp at h

theorem load_matrix_exit_state (env : Env) (w : World) (c : Cells) (code : Int) (w' : World)
    (cs : Cells) (h : load_matrix env w c = .exit code (w', cs)) :
    code = EXIT_FAILURE ∧ w'.stdout = w.stdout := by
  cases hdim : scan_ints 2 w.input with
  | none =>
    obtain ⟨w2, c2, g, _, g3, _⟩ := load_matrix_dims_fail env w c hdim
    rw [g] at h
    simp only [Outcome.exit.injEq, Prod.mk.injEq] at h
    obtain ⟨rfl, rfl, _⟩ := h
    exact ⟨rfl, g3⟩
  | some p =>
    obtain ⟨us, s1⟩ := p
    obtain ⟨r, cc, _, _, _, rfl, _, _⟩ := scan_ints_two hdim
    rcases load_matrix_cases env w c r cc s1 hdim with
      ⟨code1, w1, halloc, g⟩ | ⟨_, _, _, _, _, _, g⟩ | ⟨_, _, w2, _, _, g, _, g3, _⟩
    · rw [g] at h
      simp only [Outcome.exit.injEq, Prod.mk.injEq] at h
      obtain ⟨rfl, rfl, _⟩ := h
      obtain ⟨k1, _, k3, _⟩ := allocate_matrix_exit halloc
      exact ⟨k1, k3⟩
    · rw [g] at h; simp at h
    · rw [g] at h
      simp only [Outcome.exit.injEq, Prod.mk.injEq] at h
      obtain ⟨rfl, rfl, _⟩ := h
      exact ⟨rfl, g3⟩

/-! ## `print_matrix` -/

theorem printf_printf (w : World) (x y : String) : printf (printf w x) y = printf w (x ++ y) := by
  simp [printf, String.append_assoc]

theorem printf_empty (w : World) : printf w "" = w := by
  simp [printf]

theorem print_cols_spec (m : Matrix) (i : Nat) (row : List Int) (hrow : m[i]? = some row) :
    ∀ (n j : Nat) (w : World), j + n ≤ row.length →
      print_cols m i n j w = some (printf w (render_values ((row.drop j).take n))) := by
  intro n
  induction n with
  | zero =>
    intro j w _
    simp [print_cols, render_values, printf_empty]
  | succ n ih =>
    intro j w hj
    have hlt : j < row.length := by omega
    have hread : Matrix.read m i j = some row[j] := by
      simp only [Matrix.read, hrow]
      exact List.getElem?_eq_getElem hlt
    have hdrop : row.drop j = row[j] :: row.drop (j + 1) := List.drop_eq_getElem_cons hlt
    simp only [print_cols, hread]
    rw [ih (j + 1) _ (by omega), printf_printf, hdrop]
    simp [render_values, String.append_assoc]

theorem print_rows_spec (m : Matrix) (cols : Int) (hm : ∀ row ∈ m, row.length = cols.toNat) :
    ∀ (n i : Nat) (w : World), i + n ≤ m.length →
      print_rows m cols n i w = some (printf w (render ((m.drop i).take n))) := by
  intro n
  induction n with
  | zero =>
    intro i w _
    simp [print_rows, render, printf_empty]
  | succ n ih =>
    intro i w hi
    have hlt : i < m.length := by omega
    have hrow : m[i]? = some m[i] := List.getElem?_eq_getElem hlt
    have hlen : (m[i]).length = cols.toNat := hm _ (List.getElem_mem _)
    have hcols := print_cols_spec m i m[i] hrow cols.toNat 0 w (by omega)
    have hall : (m[i].drop 0).take cols.toNat = m[i] := by
      rw [List.drop_zero, ← hlen, List.take_length]
    rw [hall] at hcols
    have hdrop : m.drop i = m[i] :: m.drop (i + 1) := List.drop_eq_getElem_cons hlt
    simp only [print_rows, hcols]
    rw [ih (i + 1) _ (by omega), printf_printf, printf_printf, hdrop]
    simp [render, render_row, String.append_assoc]

theorem print_matrix_shaped (w : World) (m : Matrix) (rows cols : Int)
    (hm : shaped m rows.toNat cols.toNat) :
    print_matrix w m rows cols = .ret () (printf w (render m)) := by
  obtain ⟨h1, h2⟩ := hm
  have h := print_rows_spec m cols h2 rows.toNat 0 w (by omega)
  rw [List.drop_zero, ← h1, List.take_length] at h
  simp only [print_matrix, ← h1, h]

theorem toDigitsCore_no_newline :
    ∀ (fuel n : Nat) (ds : List Char), (Char.ofNat 10) ∉ ds →
      (Char.ofNat 10) ∉ Nat.toDigitsCore 10 fuel n ds := by
  intro fuel
  induction fuel with
  | zero => intro n ds h; simpa [Nat.toDigitsCore] using h
  | succ fuel ih =>
    intro n ds h
    have hd : Char.ofNat 10 ≠ Nat.digitChar (n % 10) := by
      have hlt : n % 10 < 10 := Nat.mod_lt _ (by decide)
      generalize n % 10 = d at hlt
      interval_cases d <;> decide
    have h' : (Char.ofNat 10) ∉ Nat.digitChar (n % 10) :: ds := by
      simp only [List.mem_cons, not_or]
      exact ⟨hd, h⟩
    simp only [Nat.toDigitsCore]
    split
    · exact h'
    · exact ih _ _ h'

theorem newlines_append (x y : String) : newlines (x ++ y) = newlines x + newlines y := by
  simp [newlines, String.data_append, List.count_append]

theorem newlines_decimal (x : Int) : newlines (decimal x) = 0 := by
  have h : ∀ n : Nat, newlines (Nat.repr n) = 0 := by
    intro n
    simp only [newlines, Nat.repr, Nat.toDigits, List.asString]
    exact List.count_eq_zero_of_not_mem (toDigitsCore_no_newline _ _ _ (by simp))
  unfold decimal
  split
  · rw [newlines_append, h]
    decide
  · exact h _

theorem newlines_render_values (row : List Int) : newlines (render_values row) = 0 := by
  induction row with
  | nil => decide
  | cons x xs ih =>
    simp only [render_values, newlines_append, newlines_decimal, ih]
    decide

theorem newlines_render_row (row : List Int) : newlines (render_row row) = 1 := by
  simp only [render_row, newlines_append, newlines_render_values]
  decide

theorem newlines_render (m : Matrix) : newlines (render m) = m.length := by
  induction m with
  | nil => decide
  | cons row rows ih =>
    simp only [render, newlines_append, newlines_render_row, ih, List.length_cons]
    omega

/-! ## `main` -/

theorem multiply_matrices_exit_state (env : Env) (w : World) (c : Cells)
    (a : Matrix) (a_rows a_cols : Int) (b : Matrix) (b_rows b_cols : Int)
    (code : Int) (w' : World) (cs : Cells)
    (h : multiply_matrices env w c a a_rows a_cols b b_rows b_cols = .exit code (w', cs)) :
    code = EXIT_FAILURE ∧ w'.stdout = w.stdout := by
  unfold multiply_matrices at h
  by_cases hd : a_cols ≠ b_rows
  · rw [if_pos hd] at h
    simp only [Outcome.exit.injEq, Prod.mk.injEq] at h
    obtain ⟨rfl, rfl, _⟩ := h
    exact ⟨rfl, rfl⟩
  · rw [if_neg hd] at h
    cases halloc : allocate_matrix env w a_rows b_cols with
    | undefined => simp [halloc] at h
    | exit code1 w1 =>
      simp only [halloc, Outcome.exit.injEq, Prod.mk.injEq] at h
      obtain ⟨rfl, rfl, _⟩ := h
      obtain ⟨k1, _, k3, _⟩ := allocate_matrix_exit halloc
      exact ⟨k1, k3⟩
    | ret r w1 =>
      simp only [halloc] at h
      cases hm : mul_i a b a_cols b_cols a_rows.toNat 0 r with
      | none => simp [hm] at h
      | some r1 => simp [hm] at h

theorem print_matrix_ne_exit (w : World) (m : Matrix) (rows cols : Int) (code : Int)
    (w' : World) : print_matrix w m rows cols ≠ .exit code w' := by
  unfold print_matrix
  cases print_rows m cols rows.toNat 0 w with
  | none => simp
  | some w1 => simp

theorem main_exit_state (env : Env) (file : Option (List Char)) (open_error : String)
    (ja jb jr : Cells) (code : Int) (w' : World)
    (h : main env file open_error ja jb jr = .exit code w') :
    code = EXIT_FAILURE ∧ w'.stdout = "" := by
  unfold main at h
  cases file with
  | none =>
    simp only [Outcome.exit.injEq] at h
    obtain ⟨rfl, rfl⟩ := h
    exact ⟨rfl, rfl⟩
  | some text =>
    simp only at h
    cases hA : load_matrix env { input := text, stdout := "", stderr := "", mallocs := [] } ja with
    | undefined => simp [hA] at h
    | exit code1 s1 =>
      obtain ⟨w1, c1⟩ := s1
      simp only [hA, Outcome.exit.injEq] at h
      obtain ⟨rfl, rfl⟩ := h
      exact load_matrix_exit_state _ _ _ _ _ _ hA
    | ret a s1 =>
      obtain ⟨w1, ca⟩ := s1
      simp only [hA] at h
      have hw1 := (load_matrix_ret_shape _ _ _ _ _ _ hA).2.1
      cases hB : load_matrix env w1 jb with
      | undefined => simp [hB] at h
      | exit code2 s2 =>
        obtain ⟨w2, c2⟩ := s2
        simp only [hB, Outcome.exit.injEq] at h
        obtain ⟨rfl, rfl⟩ := h
        obtain ⟨k1, k2⟩ := load_matrix_exit_state _ _ _ _ _ _ hB
        exact ⟨k1, by rw [k2, hw1]⟩
      | ret b s2 =>
        obtain ⟨w2, cb⟩ := s2
        simp only [hB] at h
        have hw2 := (load_matrix_ret_shape _ _ _ _ _ _ hB).2.1
        cases hM : multiply_matrices env w2 jr a ca.rows ca.cols b cb.rows cb.cols with
        | undefined => simp [hM] at h
        | exit code3 s3 =>
          obtain ⟨w3, c3⟩ := s3
          simp only [hM, Outcome.exit.injEq] at h
          obtain ⟨rfl, rfl⟩ := h
          obtain ⟨k1, k2⟩ := multiply_matrices_exit_state _ _ _ _ _ _ _ _ _ _ _ _ hM
          exact ⟨k1, by rw [k2, hw2, hw1]⟩
        | ret r s3 =>
          obtain ⟨w3, cr⟩ := s3
          simp only [hM] at h
          cases hP1 : print_matrix (printf w3 "Matrix A:\n") a ca.rows ca.cols with
          | undefined => simp [hP1] at h
          | exit c4 w4 => exact absurd hP1 (print_matrix_ne_exit _ _ _ _ _ _)
          | ret u1 w4 =>
            simp only [hP1] at h
            cases hP2 : print_matrix (printf w4 "Matrix B:\n") b cb.rows cb.cols with
            | undefined => simp [hP2] at h
            | exit c5 w5 => exact absurd hP2 (print_matrix_ne_exit _ _ _ _ _ _)
            | ret u2 w5 =>
              simp only [hP2] at h
              cases hP3 : print_matrix (printf w5 "Result of A x B:\n") r cr.rows cr.cols with
              | undefined => simp [hP3] at h
              | exit c6 w6 => exact absurd hP3 (print_matrix_ne_exit _ _ _ _ _ _)
              | ret u3 w6 => simp [hP3] at h

theorem main_ret (env : Env) (text : List Char) (open_error : String) (ja jb jr : Cells)
    (a : Matrix) (w1 : World) (ca : Cells) (b : Matrix) (w2 : World) (cb : Cells)
    (r0 : Matrix) (w3 : World)
    (hA : load_matrix env { input := text, stdout := "", stderr := "", mallocs := [] } ja
      = .ret a (w1, ca))
    (hB : load_matrix env w1 jb = .ret b (w2, cb))
    (h : ca.cols = cb.rows)
    (halloc : allocate_matrix env w2 ca.rows cb.cols = .ret r0 w3) :
    multiply_matrices env w2 jr a ca.rows ca.cols b cb.rows cb.cols
      = .ret (product32 a b ca.rows.toNat cb.cols.toNat ca.cols.toNat)
          (w3, { rows := ca.rows, cols := cb.cols }) ∧
    main env (some text) open_error ja jb jr
      = .ret 0 { w3 with stdout := ("Matrix A:\n" ++ render a ++ "Matrix B:\n" ++ render b ++
          "Result of A x B:\n" ++
          render (product32 a b ca.rows.toNat cb.cols.toNat ca.cols.toNat)) } := by
  obtain ⟨hsa, ha1, _⟩ := load_matrix_ret_shape _ _ _ _ _ _ hA
  obtain ⟨hsb, hb1, _⟩ := load_matrix_ret_shape _ _ _ _ _ _ hB
  have hM := multiply_matrices_shaped env w2 jr a ca.rows ca.cols b cb.rows cb.cols r0 w3
    hsa hsb h halloc
  obtain ⟨_, _, hw3, _⟩ := allocate_matrix_ret halloc
  have hout : w3.stdout = "" := by rw [hw3, hb1, ha1]
  refine ⟨hM, ?_⟩
  have hP1 := print_matrix_shaped (printf w3 "Matrix A:\n") a ca.rows ca.cols hsa
  have hP2 := print_matrix_shaped
    (printf (printf (printf w3 "Matrix A:\n") (render a)) "Matrix B:\n") b cb.rows cb.cols hsb
  have hP3 := print_matrix_shaped
    (printf (printf (printf (printf (printf w3 "Matrix A:\n") (render a)) "Matrix B:\n")
      (render b)) "Result of A x B:\n")
    (product32 a b ca.rows.toNat cb.cols.toNat ca.cols.toNat) ca.rows cb.cols
    (shaped_product32 _ _ _ _ _)
  simp only [main, hA, hB, hM, hP1, hP2, hP3]
  simp only [printf, hout, String.append_assoc, String.empty_append]

/-! ## White space between tokens -/

theorem tokens_from_boundary (cur r : List Char)
    (hr : ∀ c, r.head? = some c → isspace c = true) :
    tokens_from cur r = if cur = [] then tokens r else cur :: tokens r := by
  cases r with
  | nil => simp [tokens_from, tokens]
  | cons c cs =>
    have hc : isspace c = true := hr c rfl
    simp [tokens_from, tokens, hc]

theorem tokens_from_append_congr (r r' : List Char)
    (hr : ∀ c, r.head? = some c → isspace c = true)
    (hr' : ∀ c, r'.head? = some c → isspace c = true)
    (h : tokens r = tokens r') :
    ∀ (x cur : List Char), tokens_from cur (x ++ r) = tokens_from cur (x ++ r') := by
  intro x
  induction x with
  | nil =>
    intro cur
    simp only [List.nil_append]
    rw [tokens_from_boundary cur r hr, tokens_from_boundary cur r' hr', h]
  | cons c cs ih =>
    intro cur
    have e1 : tokens_from cur (c :: (cs ++ r))
        = if isspace c then
            if cur = [] then tokens_from [] (cs ++ r) else cur :: tokens_from [] (cs ++ r)
          else tokens_from (cur ++ [c]) (cs ++ r) := rfl
    have e2 : tokens_from cur (c :: (cs ++ r'))
        = if isspace c then
            if cur = [] then tokens_from [] (cs ++ r') else cur :: tokens_from [] (cs ++ r')
          else tokens_from (cur ++ [c]) (cs ++ r') := rfl
    rw [List.cons_append, List.cons_append, e1, e2, ih [], ih (cur ++ [c])]

theorem tokens_from_split (s : List Char) :
    ∀ cur : List Char, tokens_from cur s
      = if cur ++ s.takeWhile (fun c => !isspace c) = []
        then tokens (s.dropWhile fun c => !isspace c)
        else (cur ++ s.takeWhile (fun c => !isspace c))
          :: tokens (s.dropWhile fun c => !isspace c) := by
  induction s with
  | nil =>
    intro cur
    simp [tokens_from, tokens]
  | cons c cs ih =>
    intro cur
    by_cases hc : isspace c = true
    · simp [tokens_from, tokens, hc, List.takeWhile_cons, List.dropWhile_cons]
    · simp only [Bool.not_eq_true] at hc
      simp only [tokens_from, hc, Bool.false_eq_true, if_false, List.takeWhile_cons,
        List.dropWhile_cons, Bool.not_false, if_true]
      rw [ih (cur ++ [c])]
      simp

theorem tokens_skip_ws (s : List Char) : tokens (skip_ws s) = tokens s := by
  induction s with
  | nil => rfl
  | cons c cs ih =>
    by_cases hc : isspace c = true
    · have h1 : skip_ws (c :: cs) = skip_ws cs := by simp [skip_ws, List.dropWhile_cons, hc]
      have h2 : tokens (c :: cs) = tokens cs := by simp [tokens, tokens_from, hc]
      rw [h1, h2, ih]
    · have h1 : skip_ws (c :: cs) = c :: cs := by simp [skip_ws, List.dropWhile_cons, hc]
      rw [h1]

theorem skip_ws_head (s : List Char) :
    ∀ c cs, skip_ws s = c :: cs → isspace c = false := by
  induction s with
  | nil => intro c cs h; simp [skip_ws] at h
  | cons a s ih =>
    intro c cs h
    by_cases ha : isspace a = true
    · have h1 : skip_ws (a :: s) = skip_ws s := by simp [skip_ws, List.dropWhile_cons, ha]
      rw [h1] at h
      exact ih c cs h
    · have h1 : skip_ws (a :: s) = a :: s := by simp [skip_ws, List.dropWhile_cons, ha]
      rw [h1] at h
      simp only [List.cons.injEq] at h
      rw [← h.1]
      simpa using ha

theorem head_dropWhile_isspace (s : List Char) :
    ∀ c, (s.dropWhile fun c => !isspace c).head? = some c → isspace c = true := by
  induction s with
  | nil => intro c h; simp at h
  | cons a s ih =>
    intro c h
    by_cases ha : isspace a = true
    · simp only [List.dropWhile_cons, ha, Bool.not_true] at h
      simp only [Bool.false_eq_true, if_false, List.head?_cons, Option.some.injEq] at h
      subst h
      exact ha
    · simp only [Bool.not_eq_true] at ha
      simp only [List.dropWhile_cons, ha, Bool.not_false, if_true] at h
      exact ih c h

theorem tokens_cons_nonspace (c : Char) (cs : List Char) (hc : isspace c = false) :
    tokens (c :: cs) = (c :: cs.takeWhile fun c => !isspace c)
      :: tokens (cs.dropWhile fun c => !isspace c) := by
  have h1 : tokens (c :: cs) = tokens_from [c] cs := by simp [tokens, tokens_from, hc]
  rw [h1, tokens_from_split cs [c]]
  simp

theorem tokens_decompose (s s' : List Char) (h : tokens s = tokens s') :
    (skip_ws s = [] ∧ skip_ws s' = []) ∨
    ∃ c word r r', skip_ws s = c :: (word ++ r) ∧ skip_ws s' = c :: (word ++ r') ∧
      isspace c = false ∧
      (∀ d, r.head? = some d → isspace d = true) ∧
      (∀ d, r'.head? = some d → isspace d = true) ∧ tokens r = tokens r' := by
  rw [← tokens_skip_ws s, ← tokens_skip_ws s'] at h
  cases ht : skip_ws s with
  | nil =>
    cases ht' : skip_ws s' with
    | nil => exact Or.inl ⟨rfl, rfl⟩
    | cons c' cs' =>
      rw [ht, ht', tokens_cons_nonspace c' cs' (skip_ws_head s' c' cs' ht')] at h
      simp [tokens, tokens_from] at h
  | cons c cs =>
    cases ht' : skip_ws s' with
    | nil =>
      rw [ht, ht', tokens_cons_nonspace c cs (skip_ws_head s c cs ht)] at h
      simp [tokens, tokens_from] at h
    | cons c' cs' =>
      have hc := skip_ws_head s c cs ht
      have hc' := skip_ws_head s' c' cs' ht'
      rw [ht, ht', tokens_cons_nonspace c cs hc, tokens_cons_nonspace c' cs' hc'] at h
      simp only [List.cons.injEq] at h
      obtain ⟨⟨rfl, hw⟩, hr⟩ := h
      refine Or.inr ⟨c, cs.takeWhile (fun c => !isspace c), cs.dropWhile (fun c => !isspace c),
        cs'.dropWhile (fun c => !isspace c), ?_, ?_, hc, head_dropWhile_isspace cs,
        head_dropWhile_isspace cs', hr⟩
      · rw [List.takeWhile_append_dropWhile]
      · rw [hw, List.takeWhile_append_dropWhile]

theorem read_digits_append_rest (r : List Char)
    (hr : ∀ c, r.head? = some c → isdigit c = false) :
    ∀ (u : List Char) (acc : Nat),
      read_digits acc (u ++ r) = ((read_digits acc u).1, (read_digits acc u).2 ++ r) := by
  intro u
  induction u with
  | nil =>
    intro acc
    cases r with
    | nil => rfl
    | cons c cs =>
      have hc : isdigit c = false := hr c rfl
      simp [read_digits, hc]
  | cons d ds ih =>
    intro acc
    by_cases hd : isdigit d = true
    · simp only [List.cons_append, read_digits, hd, if_true]
      exact ih _
    · simp [read_digits, hd]

theorem scan_digits_append (neg : Bool) (u r : List Char)
    (hr : ∀ c, r.head? = some c → isdigit c = false) :
    scan_digits neg (u ++ r)
      = match scan_digits neg u with
        | .eof => .eof
        | .fail x => .fail (x ++ r)
        | .ok v x => .ok v (x ++ r) := by
  cases u with
  | nil =>
    cases r with
    | nil => rfl
    | cons c cs =>
      have hc : isdigit c = false := hr c rfl
      simp [scan_digits, hc]
  | cons d ds =>
    by_cases hd : isdigit d = true
    · have h1 := read_digits_append_rest r hr (d :: ds) 0
      simp only [List.cons_append] at h1
      simp only [List.cons_append, scan_digits, hd, if_true, h1]
    · simp [scan_digits, hd]

theorem scan_d_append (s : List Char) (c : Char) (word r : List Char)
    (hs : skip_ws s = c :: (word ++ r)) (hc : isspace c = false)
    (hr : ∀ d, r.head? = some d → isspace d = true) :
    scan_d s
      = match scan_d (c :: word) with
        | .eof => .eof
        | .fail x => .fail (x ++ r)
        | .ok v x => .ok v (x ++ r) := by
  have hr' : ∀ d, r.head? = some d → isdigit d = false :=
    fun d hd => not_isdigit_of_isspace (hr d hd)
  have h1 : skip_ws (c :: word) = c :: word := by simp [skip_ws, List.dropWhile_cons, hc]
  unfold scan_d
  rw [hs, h1]
  simp only
  by_cases h2 : c = '-'
  · simp only [h2, if_true]
    exact scan_digits_append true word r hr'
  · by_cases h3 : c = '+'
    · simp only [h3, if_true]
      exact scan_digits_append false word r hr'
    · simp only [h2, h3, if_false]
      exact scan_digits_append false (c :: word) r hr'

theorem scan_d_tokens (s s' : List Char) (h : tokens s = tokens s') :
    (scan_d s = .eof ∧ scan_d s' = .eof) ∨
    (∃ x y, scan_d s = .fail x ∧ scan_d s' = .fail y ∧ tokens x = tokens y) ∨
    (∃ v x y, scan_d s = .ok v x ∧ scan_d s' = .ok v y ∧ tokens x = tokens y) := by
  rcases tokens_decompose s s' h with ⟨h1, h2⟩ | ⟨c, word, r, r', h1, h2, hc, hr, hr', ht⟩
  · left
    simp [scan_d, h1, h2]
  · rw [scan_d_append s c word r h1 hc hr, scan_d_append s' c word r' h2 hc hr']
    cases scan_d (c :: word) with
    | eof => exact Or.inl ⟨rfl, rfl⟩
    | fail x => exact Or.inr (Or.inl ⟨_, _, rfl, rfl, tokens_from_append_congr r r' hr hr' ht x []⟩)
    | ok v x =>
      exact Or.inr (Or.inr ⟨v, _, _, rfl, rfl, tokens_from_append_congr r r' hr hr' ht x []⟩)

theorem fscanf_d_d_tokens (s s' : List Char) (c : Cells) (h : tokens s = tokens s') :
    (fscanf_d_d s c).1 = (fscanf_d_d s' c).1 ∧
    (fscanf_d_d s c).2.1 = (fscanf_d_d s' c).2.1 ∧
    tokens (fscanf_d_d s c).2.2 = tokens (fscanf_d_d s' c).2.2 := by
  unfold fscanf_d_d
  rcases scan_d_tokens s s' h with ⟨h1, h2⟩ | ⟨x, y, h1, h2, ht⟩ | ⟨v, x, y, h1, h2, ht⟩
  · rw [h1, h2]
    exact ⟨rfl, rfl, rfl⟩
  · rw [h1, h2]
    exact ⟨rfl, rfl, ht⟩
  · rw [h1, h2]
    simp only [scan_d_skip_ws]
    rcases scan_d_tokens x y ht with ⟨k1, k2⟩ | ⟨p, q, k1, k2, kt⟩ | ⟨u, p, q, k1, k2, kt⟩
    · rw [k1, k2]
      exact ⟨rfl, rfl, rfl⟩
    · rw [k1, k2]
      exact ⟨rfl, rfl, kt⟩
    · rw [k1, k2]
      exact ⟨rfl, rfl, kt⟩

theorem load_cols_tokens (i : Nat) :
    ∀ (n j : Nat) (m : Matrix) (w w' : World), same_state w w' →
      same_outcome same_state (load_cols i n j m w) (load_cols i n j m w') := by
  intro n
  induction n with
  | zero =>
    intro j m w w' h
    exact ⟨rfl, h⟩
  | succ n ih =>
    intro j m w w' h
    obtain ⟨hin, hout, herr, hmal⟩ := h
    simp only [load_cols]
    cases Matrix.read m i j with
    | none => exact True.intro
    | some x0 =>
      simp only
      rcases scan_d_tokens w.input w'.input hin with
        ⟨h1, h2⟩ | ⟨x, y, h1, h2, ht⟩ | ⟨v, x, y, h1, h2, ht⟩
      · rw [h1, h2]
        exact ⟨rfl, rfl, hout, by simp only [eprint, herr], hmal⟩
      · rw [h1, h2]
        exact ⟨rfl, ht, hout, by simp only [eprint, herr], hmal⟩
      · rw [h1, h2]
        simp only
        cases Matrix.write m i j v with
        | none => exact True.intro
        | some m1 => exact ih (j + 1) m1 _ _ ⟨ht, hout, herr, hmal⟩

theorem load_rows_tokens (cols : Int) :
    ∀ (n i : Nat) (m : Matrix) (w w' : World), same_state w w' →
      same_outcome same_state (load_rows cols n i m w) (load_rows cols n i m w') := by
  intro n
  induction n with
  | zero =>
    intro i m w w' h
    exact ⟨rfl, h⟩
  | succ n ih =>
    intro i m w w' h
    have hc := load_cols_tokens i cols.toNat 0 m w w' h
    simp only [load_rows]
    cases h1 : load_cols i cols.toNat 0 m w with
    | undefined =>
      cases h2 : load_cols i cols.toNat 0 m w' with
      | undefined => exact True.intro
      | ret m2 w2 => rw [h1, h2] at hc; exact hc.elim
      | exit c2 w2 => rw [h1, h2] at hc; exact hc.elim
    | exit c1 w1 =>
      cases h2 : load_cols i cols.toNat 0 m w' with
      | undefined => rw [h1, h2] at hc; exact hc.elim
      | ret m2 w2 => rw [h1, h2] at hc; exact hc.elim
      | exit c2 w2 => rw [h1, h2] at hc; exact hc
    | ret m1 w1 =>
      cases h2 : load_cols i cols.toNat 0 m w' with
      | undefined => rw [h1, h2] at hc; exact hc.elim
      | exit c2 w2 => rw [h1, h2] at hc; exact hc.elim
      | ret m2 w2 =>
        rw [h1, h2] at hc
        obtain ⟨rfl, hw⟩ := hc
        exact ih (i + 1) m1 w1 w2 hw

theorem allocate_rows_tokens (env : Env) (cols : Int) :
    ∀ (n : Nat) (m : Matrix) (w w' : World), same_state w w' →
      same_outcome same_state (allocate_rows env cols n m w) (allocate_rows env cols n m w') := by
  intro n
  induction n with
  | zero =>
    intro m w w' h
    exact ⟨rfl, h⟩
  | succ n ih =>
    intro m w w' h
    obtain ⟨hin, hout, herr, hmal⟩ := h
    simp only [allocate_rows, malloc, hmal]
    by_cases hok : env.malloc_ok w'.mallocs.length (size_mul cols sizeof_int) = true
    · simp only [hok, if_true]
      exact ih _ _ _ ⟨hin, hout, herr, by simp only [hmal]⟩
    · simp only [hok, if_false]
      exact ⟨rfl, hin, hout, by simp only [perror, eprint, herr], by simp only [perror, eprint, hmal]⟩

theorem allocate_matrix_tokens (env : Env) (rows cols : Int) (w w' : World)
    (h : same_state w w') :
    same_outcome same_state (allocate_matrix env w rows cols)
      (allocate_matrix env w' rows cols) := by
  obtain ⟨hin, hout, herr, hmal⟩ := h
  simp only [allocate_matrix, malloc, hmal]
  by_cases hok : env.malloc_ok w'.mallocs.length (size_mul rows sizeof_ptr) = true
  · simp only [hok, if_true]
    exact allocate_rows_tokens env cols _ _ _ _ ⟨hin, hout, herr, by simp only [hmal]⟩
  · simp only [hok, if_false]
    exact ⟨rfl, hin, hout, by simp only [perror, eprint, herr], by simp only [perror, eprint, hmal]⟩

theorem load_matrix_tokens (env : Env) (w w' : World) (c : Cells) (h : same_state w w') :
    same_outcome (fun p q : World × Cells => same_state p.1 q.1 ∧ p.2 = q.2)
      (load_matrix env w c) (load_matrix env w' c) := by
  obtain ⟨hin, hout, herr, hmal⟩ := h
  obtain ⟨f1, f2, f3⟩ := fscanf_d_d_tokens w.input w'.input c hin
  unfold load_matrix
  rcases hf : fscanf_d_d w.input c with ⟨n, c1, rest⟩
  rcases hf' : fscanf_d_d w'.input c with ⟨n', c1', rest'⟩
  rw [hf, hf'] at f1 f2 f3
  simp only at f1 f2 f3
  subst f1 f2
  simp only
  by_cases hn : n ≠ 2
  · rw [if_pos hn, if_pos hn]
    exact ⟨rfl, ⟨f3, hout, by simp only [eprint, herr], hmal⟩, rfl⟩
  · rw [if_neg hn, if_neg hn]
    have ha := allocate_matrix_tokens env c1.rows c1.cols { w with input := rest }
      { w' with input := rest' } ⟨f3, hout, herr, hmal⟩
    cases h1 : allocate_matrix env { w with input := rest } c1.rows c1.cols with
    | undefined =>
      cases h2 : allocate_matrix env { w' with input := rest' } c1.rows c1.cols with
      | undefined => exact True.intro
      | ret m2 w2 => rw [h1, h2] at ha; exact ha.elim
      | exit c2 w2 => rw [h1, h2] at ha; exact ha.elim
    | exit code1 w1 =>
      cases h2 : allocate_matrix env { w' with input := rest' } c1.rows c1.cols with
      | undefined => rw [h1, h2] at ha; exact ha.elim
      | ret m2 w2 => rw [h1, h2] at ha; exact ha.elim
      | exit code2 w2 =>
        rw [h1, h2] at ha
        exact ⟨ha.1, ha.2, rfl⟩
    | ret m1 w1 =>
      cases h2 : allocate_matrix env { w' with input := rest' } c1.rows c1.cols with
      | undefined => rw [h1, h2] at ha; exact ha.elim
      | exit code2 w2 => rw [h1, h2] at ha; exact ha.elim
      | ret m2 w2 =>
        rw [h1, h2] at ha
        obtain ⟨rfl, hw⟩ := ha
        simp only
        have hl := load_rows_tokens c1.cols c1.rows.toNat 0 m1 w1 w2 hw
        cases k1 : load_rows c1.cols c1.rows.toNat 0 m1 w1 with
        | undefined =>
          cases k2 : load_rows c1.cols c1.rows.toNat 0 m1 w2 with
          | undefined => exact True.intro
          | ret m4 w4 => rw [k1, k2] at hl; exact hl.elim
          | exit c4 w4 => rw [k1, k2] at hl; exact hl.elim
        | exit c3 w3 =>
          cases k2 : load_rows c1.cols c1.rows.toNat 0 m1 w2 with
          | undefined => rw [k1, k2] at hl; exact hl.elim
          | ret m4 w4 => rw [k1, k2] at hl; exact hl.elim
          | exit c4 w4 =>
            rw [k1, k2] at hl
            exact ⟨hl.1, hl.2, rfl⟩
        | ret m3 w3 =>
          cases k2 : load_rows c1.cols c1.rows.toNat 0 m1 w2 with
          | undefined => rw [k1, k2] at hl; exact hl.elim
          | exit c4 w4 => rw [k1, k2] at hl; exact hl.elim
          | ret m4 w4 =>
            rw [k1, k2] at hl
            exact ⟨hl.1, hl.2, rfl⟩

/-! ## Claims on `main` -/

/-- C11: a run of `main` that fails ends with a non-zero exit status and with
nothing on standard output.  Every run that ends through `exit` has status
`EXIT_FAILURE`, which is not 0, and an empty standard output; and each cause
named makes the run end that way: the file that cannot be opened, a failing
first `load_matrix`, a failing second `load_matrix`, and loaded matrices with
a_cols != b_rows (then with the mismatch message on the error stream). -/
theorem main_failure_silent (env : Env) (file : Option (List Char)) (open_error : String)
    (ja jb jr : Cells) :
    (∀ code w', main env file open_error ja jb jr = .exit code w' →
      code = EXIT_FAILURE ∧ code ≠ 0 ∧ w'.stdout = "") ∧
    (file = none → main env file open_error ja jb jr = .exit EXIT_FAILURE
      { input := [], stdout := "", stderr := "Failed to open file: " ++ open_error ++ "\n",
        mallocs := [] }) ∧
    (∀ text, file = some text →
      (∀ code w1 c1,
        load_matrix env { input := text, stdout := "", stderr := "", mallocs := [] } ja
          = .exit code (w1, c1) →
        main env file open_error ja jb jr = .exit code w1) ∧
      (∀ a w1 ca,
        load_matrix env { input := text, stdout := "", stderr := "", mallocs := [] } ja
          = .ret a (w1, ca) →
        (∀ code w2 c2, load_matrix env w1 jb = .exit code (w2, c2) →
          main env file open_error ja jb jr = .exit code w2) ∧
        (∀ b w2 cb, load_matrix env w1 jb = .ret b (w2, cb) → ca.cols ≠ cb.rows →
          main env file open_error ja jb jr = .exit EXIT_FAILURE
            (eprint w2 "Matrix multiplication not possible: incompatible dimensions\n")))) := by
  refine ⟨?_, ?_, ?_⟩
  · intro code w' h
    obtain ⟨h1, h2⟩ := main_exit_state env file open_error ja jb jr code w' h
    refine ⟨h1, ?_, h2⟩
    rw [h1]
    decide
  · rintro rfl
    simp [main, eprint, String.append_assoc]
  · rintro text rfl
    refine ⟨?_, ?_⟩
    · intro code w1 c1 hA
      simp only [main, hA]
    · intro a w1 ca hA
      refine ⟨?_, ?_⟩
      · intro code w2 c2 hB
        simp only [main, hA, hB]
      · intro b w2 cb hB hd
        simp only [main, hA, hB, multiply_matrices, if_pos hd]

theorem main_failure_silent_witness :
    main sample_env none "No such file or directory" { rows := 0, cols := 0 }
        { rows := 0, cols := 0 } { rows := 0, cols := 0 }
      = .exit 1
          { input := [], stdout := "",
            stderr := "Failed to open file: No such file or directory\n", mallocs := [] } ∧
    main sample_env (some "2 2\n1 2\n3".toList) "" { rows := 0, cols := 0 }
        { rows := 0, cols := 0 } { rows := 0, cols := 0 }
      = .exit 1
          { input := [], stdout := "",
            stderr := "Failed to read matrix values\n", mallocs := [16, 8, 8] } ∧
    main sample_env (some "1 1\n5\n".toList) "" { rows := 0, cols := 0 }
        { rows := 0, cols := 0 } { rows := 0, cols := 0 }
      = .exit 1
          { input := [], stdout := "",
            stderr := "Failed to read matrix dimensions\n", mallocs := [8, 4] } ∧
    main sample_env (some "1 2\n5 6\n1 1\n7\n".toList) "" { rows := 0, cols := 0 }
        { rows := 0, cols := 0 } { rows := 0, cols := 0 }
      = .exit 1
          { input := "\n".toList, stdout := "",
            stderr := "Matrix multiplication not possible: incompatible dimensions\n",
            mallocs := [8, 8, 8, 4] } := by
  refine ⟨?_, ?_, ?_, ?_⟩
  · exact (main_failure_silent sample_env none "No such file or directory"
      { rows := 0, cols := 0 } { rows := 0, cols := 0 } { rows := 0, cols := 0 }).2.1 rfl
  · exact ((main_failure_silent sample_env (some "2 2\n1 2\n3".toList) ""
      { rows := 0, cols := 0 } { rows := 0, cols := 0 } { rows := 0, cols := 0 }).2.2
      _ rfl).1 1 _ { rows := 2, cols := 2 } (by decide)
  · exact (((main_failure_silent sample_env (some "1 1\n5\n".toList) ""
      { rows := 0, cols := 0 } { rows := 0, cols := 0 } { rows := 0, cols := 0 }).2.2
      _ rfl).2 [[5]] { input := "\n".toList, stdout := "", stderr := "", mallocs := [8, 4] }
      { rows := 1, cols := 1 } (by decide)).1 1 _ { rows := 0, cols := 0 } (by decide)
  · exact (((main_failure_silent sample_env (some "1 2\n5 6\n1 1\n7\n".toList) ""
      { rows := 0, cols := 0 } { rows := 0, cols := 0 } { rows := 0, cols := 0 }).2.2
      _ rfl).2 [[5, 6]]
      { input := "\n1 1\n7\n".toList, stdout := "", stderr := "", mallocs := [8, 8] }
      { rows := 1, cols := 2 } (by decide)).2 [[7]]
      { input := "\n".toList, stdout := "", stderr := "", mallocs := [8, 8, 8, 4] }
      { rows := 1, cols := 1 } (by decide) (by decide)

/-- C13: when the input file opens, both `load_matrix` calls return, with
matrices A and B such that a_cols = b_rows, and the result matrix is
allocated, `main` returns 0 and standard output is exactly "Matrix A:\n", the
printed rows of A, "Matrix B:\n", the printed rows of B, "Result of A x B:\n"
and the printed rows of the matrix `multiply_matrices` returned for A and B,
in this order; the printed rows of a matrix being what `print_matrix`
writes for it. -/
theorem main_success_output (env : Env) (text : List Char) (open_error : String)
    (ja jb jr : Cells) (a : Matrix) (w1 : World) (ca : Cells) (b : Matrix) (w2 : World)
    (cb : Cells) (r0 : Matrix) (w3 : World)
    (hA : load_matrix env { input := text, stdout := "", stderr := "", mallocs := [] } ja
      = .ret a (w1, ca))
    (hB : load_matrix env w1 jb = .ret b (w2, cb))
    (h : ca.cols = cb.rows)
    (halloc : allocate_matrix env w2 ca.rows cb.cols = .ret r0 w3) :
    ∃ r cr wr w',
      multiply_matrices env w2 jr a ca.rows ca.cols b cb.rows cb.cols = .ret r (wr, cr) ∧
      main env (some text) open_error ja jb jr = .ret 0 w' ∧
      w'.stdout = "Matrix A:\n" ++ render a ++ "Matrix B:\n" ++ render b ++
        "Result of A x B:\n" ++ render r ∧
      (∀ w, print_matrix w a ca.rows ca.cols = .ret () { w with stdout := w.stdout ++ render a }) ∧
      (∀ w, print_matrix w b cb.rows cb.cols = .ret () { w with stdout := w.stdout ++ render b }) ∧
      (∀ w, print_matrix w r cr.rows cr.cols = .ret () { w with stdout := w.stdout ++ render r }) := by
  obtain ⟨hsa, _, _⟩ := load_matrix_ret_shape _ _ _ _ _ _ hA
  obtain ⟨hsb, _, _⟩ := load_matrix_ret_shape _ _ _ _ _ _ hB
  obtain ⟨hM, hmain⟩ := main_ret env text open_error ja jb jr a w1 ca b w2 cb r0 w3 hA hB h halloc
  exact ⟨_, _, _, _, hM, hmain, rfl, fun w => print_matrix_shaped w a _ _ hsa,
    fun w => print_matrix_shaped w b _ _ hsb,
    fun w => print_matrix_shaped w _ _ _ (shaped_product32 _ _ _ _ _)⟩

theorem main_success_output_witness :
    ∃ w', main sample_env (some "2 3\n1 2 9\n4 5 6\n3 2\n7 8\n9 10\n11 12\n".toList) ""
        { rows := 0, cols := 0 } { rows := 0, cols := 0 } { rows := 0, cols := 0 }
        = .ret 0 w' ∧
      w'.stdout = "Matrix A:\n1 2 9 \n4 5 6 \nMatrix B:\n7 8 \n9 10 \n11 12 \n" ++
        "Result of A x B:\n124 136 \n139 154 \n" := by
  obtain ⟨r, cr, wr, w', h1, h2, h3, _⟩ := main_success_output sample_env
    "2 3\n1 2 9\n4 5 6\n3 2\n7 8\n9 10\n11 12\n".toList ""
    { rows := 0, cols := 0 } { rows := 0, cols := 0 } { rows := 0, cols := 0 }
    [[1, 2, 9], [4, 5, 6]]
    { input := "\n3 2\n7 8\n9 10\n11 12\n".toList, stdout := "", stderr := "",
      mallocs := [16, 12, 12] }
    { rows := 2, cols := 3 }
    [[7, 8], [9, 10], [11, 12]]
    { input := "\n".toList, stdout := "", stderr := "", mallocs := [16, 12, 12, 24, 8, 8, 8] }
    { rows := 3, cols := 2 }
    [[-1431655766, -1431655766], [-1431655766, -1431655766]]
    { input := "\n".toList, stdout := "", stderr := "",
      mallocs := [16, 12, 12, 24, 8, 8, 8, 16, 8, 8] }
    (by decide) (by decide) (by decide) (by decide)
  have h4 : r = [[124, 136], [139, 154]] := by
    have h5 : multiply_matrices sample_env
        { input := "\n".toList, stdout := "", stderr := "",
          mallocs := [16, 12, 12, 24, 8, 8, 8] } { rows := 0, cols := 0 }
        [[1, 2, 9], [4, 5, 6]] 2 3 [[7, 8], [9, 10], [11, 12]] 3 2
        = .ret [[124, 136], [139, 154]]
          ({ input := "\n".toList, stdout := "", stderr := "",
             mallocs := [16, 12, 12, 24, 8, 8, 8, 16, 8, 8] }, { rows := 2, cols := 2 }) := by
      decide
    rw [h5] at h1
    simp only [Outcome.ret.injEq] at h1
    exact h1.1.symm
  refine ⟨w', h2, ?_⟩
  rw [h3, h4]
  decide

/-! ## Claims on `load_matrix`: dimensions and separators -/

/-- C12 (as stated, refuted): on the input "0 0" the call of `load_matrix`
returns with `*rows = 0` and `*cols = 0`, after a `malloc` request of 0 bytes;
on "-1 -1" the dimensions are not rejected either: `malloc` is asked for
2^64 - 8 bytes and the run fails with the allocation diagnostic. -/
theorem load_matrix_accepts_zero_dimensions :
    load_matrix sample_env (start "0 0") { rows := 7, cols := 7 }
      = .ret [] ({ input := [], stdout := "", stderr := "", mallocs := [0] },
          { rows := 0, cols := 0 }) ∧
    load_matrix sample_env (start "-1 -1") { rows := 7, cols := 7 }
      = .exit 1
          ({ input := [], stdout := "",
             stderr := "Failed to allocate memory for matrix rows: Cannot allocate memory\n",
             mallocs := [18446744073709551608] }, { rows := -1, cols := -1 }) := by
  decide

/-- C12 (amended): `load_matrix` does not examine the sign of the dimensions.
Whenever two integers r and c are read at the cursor, the call never has the
undefined outcome, it ends with `*rows = r` and `*cols = c`, and its first
`malloc` request is the one of `allocate_matrix(r, c)`, r * sizeof(int*) bytes
with r converted to `size_t`, whether r and c are positive or not.  On a
platform where no request of more than `PTRDIFF_MAX` bytes is granted, every
call that returns has stored the two integers read, with `*rows >= 0` and,
unless `*rows = 0`, `*cols >= 0`. -/
theorem load_matrix_dimensions_unchecked (env : Env)
    (hreal : ∀ n size, env.malloc_ok n size = true → size ≤ PTRDIFF_MAX)
    (w : World) (c : Cells) :
    (∀ r cc s1, scan_ints 2 w.input = some ([r, cc], s1) →
      ∃ s, final_state (load_matrix env w c) = some s ∧
        s.2 = { rows := r, cols := cc } ∧
        ∃ tail, s.1.mallocs = w.mallocs ++ size_mul r sizeof_ptr :: tail) ∧
    (∀ m w' cs, load_matrix env w c = .ret m (w', cs) →
      (∃ s1, scan_ints 2 w.input = some ([cs.rows, cs.cols], s1)) ∧
        0 ≤ cs.rows ∧ (cs.rows = 0 ∨ 0 ≤ cs.cols)) := by
  constructor
  · intro r cc s1 hdim
    rcases load_matrix_cases env w c r cc s1 hdim with
      ⟨code, w1, halloc, g⟩ | ⟨m0, w1, vs, s2, halloc, _, g⟩ | ⟨m0, w1, w', halloc, _, g, _, _, g4⟩
    · rw [g]
      refine ⟨_, rfl, rfl, ?_⟩
      exact allocate_matrix_mallocs env { w with input := s1 } r cc w1 (by rw [halloc]; rfl)
    · rw [g]
      refine ⟨_, rfl, rfl, ?_⟩
      exact allocate_matrix_mallocs env { w with input := s1 } r cc w1 (by rw [halloc]; rfl)
    · rw [g]
      refine ⟨_, rfl, rfl, ?_⟩
      show ∃ tail, w'.mallocs = _
      rw [g4]
      exact allocate_matrix_mallocs env { w with input := s1 } r cc w1 (by rw [halloc]; rfl)
  · intro m w' cs h
    cases hdim : scan_ints 2 w.input with
    | none =>
      obtain ⟨w2, c2, g, _⟩ := load_matrix_dims_fail env w c hdim
      rw [g] at h
      simp at h
    | some p =>
      obtain ⟨us, s1⟩ := p
      obtain ⟨r, cc, _, _, _, rfl, hr, hc⟩ := scan_ints_two hdim
      rcases load_matrix_cases env w c r cc s1 hdim with
        ⟨_, _, _, g⟩ | ⟨m0, w1, vs, s2, halloc, _, g⟩ | ⟨_, _, _, _, _, g, _⟩
      · rw [g] at h; simp at h
      · rw [g] at h
        simp only [Outcome.ret.injEq, Prod.mk.injEq] at h
        obtain ⟨rfl, rfl, rfl⟩ := h
        exact ⟨⟨s1, rfl⟩, dims_of_allocated hreal hr hc halloc⟩
      · rw [g] at h; simp at h

theorem load_matrix_dimensions_unchecked_witness :
    (∃ s, final_state (load_matrix sample_env (start "-2 3\n1 2 3") { rows := 7, cols := 7 })
        = some s ∧ s.2 = { rows := -2, cols := 3 } ∧
      ∃ tail, s.1.mallocs = [] ++ size_mul (-2) sizeof_ptr :: tail) :=
  (load_matrix_dimensions_unchecked sample_env sample_env_real (start "-2 3\n1 2 3")
    { rows := 7, cols := 7 }).1 (-2) 3 "\n1 2 3".toList (by decide)

/-- C15: the outcome of `load_matrix` depends on the sequence of tokens of the
input, not on the white space around them.  For two inputs with the same
sequence of whitespace-delimited tokens (so differing only in the runs of
spaces, tabs and newlines before, between and after the tokens), read in
states with the same output and the same allocation history: when one call
returns a matrix, the other returns the same matrix with the same `*rows` and
`*cols`; when one call exits, the other exits with the same status and the
same `*rows` and `*cols`; and in both cases the final states have the same
standard output, the same error stream (hence the same error message), the
same allocations, and unread inputs with the same token sequence.  The call
always returns or exits. -/
theorem load_matrix_separators (env : Env) (w w' : World) (c : Cells)
    (hin : tokens w.input = tokens w'.input) (hout : w.stdout = w'.stdout)
    (herr : w.stderr = w'.stderr) (hmal : w.mallocs = w'.mallocs) :
    load_matrix env w c ≠ .undefined ∧
    (∀ m w1 c1, load_matrix env w c = .ret m (w1, c1) →
      ∃ w1', load_matrix env w' c = .ret m (w1', c1) ∧ same_state w1 w1') ∧
    (∀ code w1 c1, load_matrix env w c = .exit code (w1, c1) →
      ∃ w1', load_matrix env w' c = .exit code (w1', c1) ∧ same_state w1 w1') := by
  have h := load_matrix_tokens env w w' c ⟨hin, hout, herr, hmal⟩
  refine ⟨load_matrix_ne_undefined env w c, ?_, ?_⟩
  · intro m w1 c1 h1
    rw [h1] at h
    cases h2 : load_matrix env w' c with
    | undefined => rw [h2] at h; exact h.elim
    | exit code2 s2 => rw [h2] at h; exact h.elim
    | ret m2 s2 =>
      obtain ⟨w2, c2⟩ := s2
      rw [h2] at h
      obtain ⟨rfl, hs, hc⟩ := h
      simp only at hs hc
      subst hc
      exact ⟨w2, rfl, hs⟩
  · intro code w1 c1 h1
    rw [h1] at h
    cases h2 : load_matrix env w' c with
    | undefined => rw [h2] at h; exact h.elim
    | ret m2 s2 => rw [h2] at h; exact h.elim
    | exit code2 s2 =>
      obtain ⟨w2, c2⟩ := s2
      rw [h2] at h
      obtain ⟨rfl, hs, hc⟩ := h
      simp only at hs hc
      subst hc
      exact ⟨w2, rfl, hs⟩

theorem load_matrix_separators_witness :
    tokens "2 2\n1 2\n3 4\n".toList = tokens "  2\t2 1\n\n2   3\r\n4".toList ∧
    (∃ w1, load_matrix sample_env (start "  2\t2 1\n\n2   3\r\n4") { rows := 0, cols := 0 }
        = .ret [[1, 2], [3, 4]] (w1, { rows := 2, cols := 2 }) ∧
      tokens w1.input = [] ∧ w1.stderr = "") ∧
    tokens "2 2 1 2 x 4".toList = tokens "2\n2\n1\n2\nx\n4\n".toList ∧
    (∃ w1, load_matrix sample_env (start "2\n2\n1\n2\nx\n4\n") { rows := 0, cols := 0 }
        = .exit 1 (w1, { rows := 2, cols := 2 }) ∧
      tokens w1.input = ["x".toList, "4".toList] ∧
      w1.stderr = "Failed to read matrix values\n") := by
  refine ⟨by decide, ?_, by decide, ?_⟩
  · obtain ⟨w1, h1, h2, _, h3, _⟩ := (load_matrix_separators sample_env
      (start "2 2\n1 2\n3 4\n") (start "  2\t2 1\n\n2   3\r\n4") { rows := 0, cols := 0 }
      (by decide) rfl rfl rfl).2.1 [[1, 2], [3, 4]]
      { input := "\n".toList, stdout := "", stderr := "", mallocs := [16, 8, 8] }
      { rows := 2, cols := 2 } (by decide)
    exact ⟨w1, h1, h2.symm, h3.symm⟩
  · obtain ⟨w1, h1, h2, _, h3, _⟩ := (load_matrix_separators sample_env
      (start "2 2 1 2 x 4") (start "2\n2\n1\n2\nx\n4\n") { rows := 0, cols := 0 }
      (by decide) rfl rfl rfl).2.2 1
      { input := "x 4".toList, stdout := "", stderr := "Failed to read matrix values\n",
        mallocs := [16, 8, 8] }
      { rows := 2, cols := 2 } (by decide)
    exact ⟨w1, h1, h2.symm, h3.symm⟩

/-! ## Claims on `print_matrix` -/

/-- C14: for every matrix with `rows` rows of `cols` elements, `print_matrix`
returns having appended to standard output the lines of the matrix, first row
first: line i is, for j = 0 .. cols-1 in order, the decimal rendering of
matrix[i][j] (after a `-` when it is negative) followed by one space, and then a
newline.  What it writes holds exactly `rows` newline characters, one at the
end of each line, and nothing else of the state changes. -/
theorem print_matrix_format (w : World) (m : Matrix) (rows cols : Int)
    (hm : has_shape m rows cols) :
    print_matrix w m rows cols = .ret () { w with stdout := w.stdout ++ render m } ∧
    (newlines (render m) : Int) = rows ∧
    (∀ row, newlines (render_values row) = 0 ∧ render_row row = render_values row ++ "\n") ∧
    (∀ x xs, render_values (x :: xs) = decimal x ++ " " ++ render_values xs) ∧
    (∀ row rest, render (row :: rest) = render_row row ++ render rest) ∧
    (∀ x : Int, x < 0 → decimal x = "-" ++ decimal (-x)) := by
  refine ⟨print_matrix_shaped w m rows cols (shaped_of_has_shape hm), ?_,
    fun row => ⟨newlines_render_values row, rfl⟩, fun _ _ => rfl, fun _ _ => rfl, ?_⟩
  · rw [newlines_render]
    exact hm.1
  · intro x hx
    have h1 : ¬ (-x < 0) := by omega
    simp only [decimal, hx, if_true, h1, if_false, Int.natAbs_neg]

theorem print_matrix_format_witness :
    print_matrix (start "") [[124, 136], [-139, 0]] 2 2
      = .ret () { input := [], stdout := "124 136 \n-139 0 \n", stderr := "", mallocs := [] } := by
  have h := (print_matrix_format (start "") [[124, 136], [-139, 0]] 2 2 (by decide)).1
  rw [h]
  decide

/-! ## Claims on `multiply_matrices`: report, fresh storage, bounds, empty inner dimension -/

/-- C16 (as stated, refuted): two calls rejected for different shapes, 1×3 by 2×2
and 5×7 by 4×1, end in the same state with the same exit status and the same
fixed text on standard error; the report does not identify the shapes. -/
theorem multiply_matrices_report_without_shapes :
    multiply_matrices sample_env (start "") { rows := 0, cols := 0 }
        [[1, 2, 3]] 1 3 [[4, 5], [6, 7]] 2 2
      = .exit 1
          ({ input := [], stdout := "",
             stderr := "Matrix multiplication not possible: incompatible dimensions\n",
             mallocs := [] }, { rows := 0, cols := 0 }) ∧
    multiply_matrices sample_env (start "") { rows := 0, cols := 0 }
        (List.replicate 5 (List.replicate 7 1)) 5 7 [[1], [2], [3], [4]] 4 1
      = .exit 1
          ({ input := [], stdout := "",
             stderr := "Matrix multiplication not possible: incompatible dimensions\n",
             mallocs := [] }, { rows := 0, cols := 0 }) := by
  decide

/-- C16 (amended): the dimension-mismatch failure of `multiply_matrices` is the
same for all rejected operands: for every two pairs of operands with
a_cols != b_rows, called in the same state, the outcomes are equal, with
`EXIT_FAILURE` as exit status and the fixed message
"Matrix multiplication not possible: incompatible dimensions" on standard
error, whatever the shapes. -/
theorem multiply_matrices_mismatch_report (env : Env) (w : World) (c : Cells)
    (a : Matrix) (a_rows a_cols : Int) (b : Matrix) (b_rows b_cols : Int)
    (a' : Matrix) (a_rows' a_cols' : Int) (b' : Matrix) (b_rows' b_cols' : Int)
    (h : a_cols ≠ b_rows) (h' : a_cols' ≠ b_rows') :
    multiply_matrices env w c a a_rows a_cols b b_rows b_cols
      = multiply_matrices env w c a' a_rows' a_cols' b' b_rows' b_cols' ∧
    ∃ w', multiply_matrices env w c a a_rows a_cols b b_rows b_cols
        = .exit EXIT_FAILURE (w', c) ∧
      w'.stderr = w.stderr ++ "Matrix multiplication not possible: incompatible dimensions\n" := by
  refine ⟨by simp [multiply_matrices, h, h'],
    eprint w "Matrix multiplication not possible: incompatible dimensions\n", ?_, rfl⟩
  simp [multiply_matrices, h]

theorem multiply_matrices_mismatch_report_witness :
    multiply_matrices sample_env (start "") { rows := 0, cols := 0 }
        [[1, 2, 3]] 1 3 [[4, 5], [6, 7]] 2 2
      = multiply_matrices sample_env (start "") { rows := 0, cols := 0 }
          [[1, 2]] 1 2 [[4, 5]] 1 2 :=
  (multiply_matrices_mismatch_report sample_env (start "") { rows := 0, cols := 0 }
    [[1, 2, 3]] 1 3 [[4, 5], [6, 7]] 2 2 [[1, 2]] 1 2 [[4, 5]] 1 2
    (by decide) (by decide)).1

/-- C17: for operands of matching shapes, the outcome of `multiply_matrices` is
the same for any two initial contents of the storage `malloc` hands out: when
it returns, the matrix returned is in both runs the matrix of the accumulated
sums, each started from 0, which no initial content enters; this includes an
inner dimension a_cols = 0. -/
theorem multiply_matrices_fresh_storage (env : Env) (init : Nat → Nat → Int)
    (w : World) (c : Cells)
    (a : Matrix) (a_rows a_cols : Int) (b : Matrix) (b_rows b_cols : Int)
    (ha : has_shape a a_rows a_cols) (hb : has_shape b b_rows b_cols) (h : a_cols = b_rows) :
    multiply_matrices { env with malloc_init := init } w c a a_rows a_cols b b_rows b_cols
      = multiply_matrices env w c a a_rows a_cols b b_rows b_cols ∧
    ∀ r s, multiply_matrices env w c a a_rows a_cols b b_rows b_cols = .ret r s →
      r = product32 a b a_rows.toNat b_cols.toNat a_cols.toNat := by
  rcases allocate_matrix_init env init w a_rows b_cols with
    ⟨x, y, w1, h1, h2⟩ | ⟨code, w1, h1, h2⟩
  · have e1 := multiply_matrices_eq env w c a a_rows a_cols b b_rows b_cols x w1 ha hb h h1
    have e2 := multiply_matrices_eq { env with malloc_init := init } w c a a_rows a_cols
      b b_rows b_cols y w1 ha hb h h2
    refine ⟨by rw [e1, e2], fun r s hr => ?_⟩
    rw [e1] at hr
    simp only [Outcome.ret.injEq] at hr
    exact hr.1.symm
  · have e1 : multiply_matrices env w c a a_rows a_cols b b_rows b_cols
        = .exit code (w1, { rows := a_rows, cols := b_cols }) := by
      simp only [multiply_matrices, h, ne_eq, not_true_eq_false, if_false]
      rw [← h, h1]
    have e2 : multiply_matrices { env with malloc_init := init } w c a a_rows a_cols
        b b_rows b_cols = .exit code (w1, { rows := a_rows, cols := b_cols }) := by
      simp only [multiply_matrices, h, ne_eq, not_true_eq_false, if_false]
      rw [← h, h2]
    refine ⟨by rw [e1, e2], fun r s hr => ?_⟩
    rw [e1] at hr
    simp at hr

theorem multiply_matrices_fresh_storage_witness :
    multiply_matrices { sample_env with malloc_init := fun block k => 1000 * block + k }
        (start "") { rows := 0, cols := 0 } [[1, 2], [3, 4]] 2 2 [[5, 6], [7, 8]] 2 2
      = multiply_matrices sample_env (start "") { rows := 0, cols := 0 }
          [[1, 2], [3, 4]] 2 2 [[5, 6], [7, 8]] 2 2 ∧
    multiply_matrices sample_env (start "") { rows := 0, cols := 0 }
        [[], []] 2 0 [] 0 3
      = .ret [[0, 0, 0], [0, 0, 0]]
          ({ input := [], stdout := "", stderr := "", mallocs := [16, 12, 12] },
            { rows := 2, cols := 3 }) :=
  ⟨(multiply_matrices_fresh_storage sample_env (fun block k => 1000 * block + k)
      (start "") { rows := 0, cols := 0 } [[1, 2], [3, 4]] 2 2 [[5, 6], [7, 8]] 2 2
      (by decide) (by decide) rfl).1, by decide⟩

/-- C18: when a has a_rows rows of a_cols elements, b has b_rows rows of b_cols
elements and a_cols == b_rows (all four dimensions are then non-negative), no
element access of `multiply_matrices` is out of bounds: the loops, whose reads
of a[i][k], b[k][j] and result[i][j] and writes of result[i][j] are checked, run
to their end on the matrix `allocate_matrix` returns, and the call never has
the undefined outcome. -/
theorem multiply_matrices_in_bounds (env : Env) (w : World) (c : Cells)
    (a : Matrix) (a_rows a_cols : Int) (b : Matrix) (b_rows b_cols : Int)
    (ha : has_shape a a_rows a_cols) (hb : has_shape b b_rows b_cols) (h : a_cols = b_rows) :
    (0 ≤ a_rows ∧ 0 ≤ a_cols ∧ 0 ≤ b_rows ∧ 0 ≤ b_cols) ∧
    multiply_matrices env w c a a_rows a_cols b b_rows b_cols ≠ .undefined ∧
    ∀ r0 w1, allocate_matrix env w a_rows b_cols = .ret r0 w1 →
      ∃ r, mul_i a b a_cols b_cols a_rows.toNat 0 r0 = some r := by
  have hsa := shaped_of_has_shape ha
  have hsb := shaped_of_has_shape hb
  have hloops : ∀ r0 w1, allocate_matrix env w a_rows b_cols = .ret r0 w1 →
      mul_i a b a_cols b_cols a_rows.toNat 0 r0
          = some (product32 a b a_rows.toNat b_cols.toNat a_cols.toNat) ∧
        multiply_matrices env w c a a_rows a_cols b b_rows b_cols
          = .ret (product32 a b a_rows.toNat b_cols.toNat a_cols.toNat)
              (w1, { rows := a_rows, cols := b_cols }) := by
    intro r0 w1 halloc
    exact multiply_matrices_of_reads env w c a a_rows a_cols b b_rows b_cols r0 w1
      (fun s k hs hk => read_of_shaped hsa hs hk)
      (fun k t hk ht => read_of_shaped hsb (by rw [← h]; exact hk) ht) h halloc
  refine ⟨⟨?_, ha.2.1, ?_, hb.2.1⟩, ?_, fun r0 w1 halloc => ⟨_, (hloops r0 w1 halloc).1⟩⟩
  · have := ha.1; omega
  · have := hb.1; omega
  · cases halloc : allocate_matrix env w a_rows b_cols with
    | undefined => exact absurd halloc (allocate_matrix_ne_undefined _ _ _ _)
    | exit code w1 =>
      simp only [multiply_matrices, h, ne_eq, not_true_eq_false, if_false]
      rw [← h, halloc]
      simp
    | ret r0 w1 =>
      rw [(hloops r0 w1 halloc).2]
      simp

theorem multiply_matrices_in_bounds_witness :
    multiply_matrices sample_env (start "") { rows := 0, cols := 0 }
        [[1, 2, 9], [4, 5, 6]] 2 3 [[7, 8], [9, 10], [11, 12]] 3 2 ≠ .undefined :=
  (multiply_matrices_in_bounds sample_env (start "") { rows := 0, cols := 0 }
    [[1, 2, 9], [4, 5, 6]] 2 3 [[7, 8], [9, 10], [11, 12]] 3 2
    (by decide) (by decide) rfl).2.1

/-- C19: with an empty inner dimension, a_cols = b_rows = 0, and any a_rows >= 0
and b_cols >= 0, when the allocation of the result succeeds, the call of
`multiply_matrices` returns the a_rows × b_cols matrix whose every cell is 0,
whatever a and b hold. -/
theorem multiply_matrices_empty_inner (env : Env) (w : World) (c : Cells)
    (a b : Matrix) (a_rows b_cols : Int) (r0 : Matrix) (w1 : World)
    (har : 0 ≤ a_rows) (hbc : 0 ≤ b_cols)
    (halloc : allocate_matrix env w a_rows b_cols = .ret r0 w1) :
    multiply_matrices env w c a a_rows 0 b 0 b_cols
      = .ret (List.replicate a_rows.toNat (List.replicate b_cols.toNat 0))
          (w1, { rows := a_rows, cols := b_cols }) ∧
    has_shape (List.replicate a_rows.toNat (List.replicate b_cols.toNat 0)) a_rows b_cols ∧
    ∀ i j : Nat, (i : Int) < a_rows → (j : Int) < b_cols →
      Matrix.read (List.replicate a_rows.toNat (List.replicate b_cols.toNat 0)) i j
        = some 0 := by
  have e := (multiply_matrices_of_reads env w c a a_rows 0 b 0 b_cols r0 w1
    (fun s k _ hk => absurd hk (by simp))
    (fun k t hk _ => absurd hk (by simp)) rfl halloc).2
  have z : (0 : Int).toNat = 0 := rfl
  rw [z, product32_zero] at e
  refine ⟨e, has_shape_of_shaped har hbc (shaped_replicate _ _ _), fun i j hi hj => ?_⟩
  have hi' : i < a_rows.toNat := by omega
  have hj' : j < b_cols.toNat := by omega
  simp [Matrix.read, List.getElem?_replicate, hi', hj']

theorem multiply_matrices_empty_inner_witness :
    multiply_matrices sample_env (start "") { rows := 0, cols := 0 } [[], []] 2 0 [] 0 3
      = .ret [[0, 0, 0], [0, 0, 0]]
          ({ input := [], stdout := "", stderr := "", mallocs := [16, 12, 12] },
            { rows := 2, cols := 3 }) :=
  (multiply_matrices_empty_inner sample_env (start "") { rows := 0, cols := 0 }
    [[], []] [] 2 3
    [[-1431655766, -1431655766, -1431655766], [-1431655766, -1431655766, -1431655766]]
    { input := [], stdout := "", stderr := "", mallocs := [16, 12, 12] }
    (by decide) (by decide) (by decide)).1

end MatricesMult
